import Mathlib

/-!
Shallow embedding of the OGDF `Graph` implementation (`src/unnamed/part_000`,
the implementation file of class `Graph`): the node/edge/half-edge entity
model, identifier allocation and table growth, the registered auxiliary-array
and observer registries, and the structural edit operations
(`newNode`, `newEdge`, `delNode`, `delEdge`, `split`, `unsplit`,
`hideEdge`, `restoreEdge`, `restoreAllEdges`, `reverseEdge`, `moveSource`,
`moveTarget`, `searchEdge`, `contract`) together with the
connected-components helper `CCsInfo`.

Nodes, edges and half-edges (`AdjElement`s) are heap objects in the source;
here they live in arenas addressed by allocation slots (`Nat`), with the
intrusive lists (`nodes`, `edges`, `m_hiddenEdges`, each node's rotation
`adjEdges`) represented as lists of slots.  C++ `int` fields that the code
never sends below zero are `Nat`; degree counters, which are freely
decremented, are `Int`.
-/

namespace ogdf

/-- Update an arena function at one slot. -/
def fupd (f : Nat → Option α) (k : Nat) (v : α) : Nat → Option α :=
  fun m => if m = k then some v else f m

/-- `GraphList::pushBack`: append at the tail.
Modelled from the spec: the intrusive list class comes from a header that is
not part of the sources; §4.2 specifies insertion at the tail. -/
def pushBackL (l : List Nat) (x : Nat) : List Nat := l ++ [x]

/-- `GraphList::insertBefore`: insert `x` before the first occurrence of `t`.
Modelled from the spec (§4.2: callers may insert before/after a given
element).  If `t` is absent (never the case in contract-respecting calls)
`x` lands at the tail. -/
def insertBeforeL (l : List Nat) (x t : Nat) : List Nat :=
  match l with
  | [] => [x]
  | a :: as => if a = t then x :: a :: as else a :: insertBeforeL as x t

/-- `GraphList::insertAfter`: insert `x` after the first occurrence of `t`.
Modelled from the spec (§4.2). -/
def insertAfterL (l : List Nat) (x t : Nat) : List Nat :=
  match l with
  | [] => [x]
  | a :: as => if a = t then a :: x :: as else a :: insertAfterL as x t

/-- Cyclic successor of `a` inside the list `l` (wrapping at the tail).
Modelled from the spec (§4.2: "cyclic successor/predecessor (wrapping at
the ends)"). -/
def cyclicSuccIn (l : List Nat) (a : Nat) : Nat :=
  match l.dropWhile (· ≠ a) with
  | _ :: b :: _ => b
  | _ => l.headD a

/-- `NodeElement`: id, degree counters and the rotation (list of half-edge
slots), cf. §3 of the spec and the fields used throughout the source. -/
structure NodeElement where
  m_id : Nat
  m_indeg : Int
  m_outdeg : Int
  adjEdges : List Nat
  deriving Repr, DecidableEq

/-- `EdgeElement`: id (`index()`), endpoint node slots and the two owned
half-edge slots. -/
structure EdgeElement where
  idx : Nat
  m_src : Nat
  m_tgt : Nat
  m_adjSrc : Nat
  m_adjTgt : Nat
  deriving Repr, DecidableEq

/-- `AdjElement` (half-edge): mutable id, owning edge slot, owning node slot
and twin half-edge slot. -/
structure AdjElement where
  m_id : Nat
  m_edge : Nat
  m_node : Nat
  m_twin : Nat
  deriving Repr, DecidableEq

/-- A registered auxiliary array (node-, edge- or half-edge-keyed): we track
the capacity it was last told to provide and whether it is still connected
to the graph.  `enlargeTable`/`reinit`/`disconnect` semantics are modelled
from the spec (§4.3, §5): the array classes live in headers that are not
part of the sources. -/
structure ArrayReg where
  cap : Nat
  connected : Bool
  deriving Repr, DecidableEq

/-- A registered structural observer (`GraphObserver`), identified by an
opaque token; `connected` records whether anything has detached it. -/
structure ObsReg where
  oid : Nat
  connected : Bool
  deriving Repr, DecidableEq

/-- The `Graph` state: id counters, table sizes, the three object lists,
the three arenas, fresh-slot counters, and the registries. -/
structure Graph where
  m_nodeIdCount : Nat
  m_edgeIdCount : Nat
  m_nodeArrayTableSize : Nat
  m_edgeArrayTableSize : Nat
  nodes : List Nat
  edges : List Nat
  m_hiddenEdges : List Nat
  nodeA : Nat → Option NodeElement
  edgeA : Nat → Option EdgeElement
  adjA : Nat → Option AdjElement
  nextNode : Nat
  nextEdge : Nat
  nextAdj : Nat
  m_regNodeArrays : List ArrayReg
  m_regEdgeArrays : List ArrayReg
  m_regAdjArrays : List ArrayReg
  m_regStructures : List ObsReg

/-- `Direction` (`ogdf::before` / `ogdf::after`). -/
inductive Direction where
  | before
  | after
  deriving Repr, DecidableEq

/-- Synchronous notifications and table-growth callbacks fired during an
operation, in order.  Deletion events and growth events carry the graph
state at the moment the callback runs (the C++ observer can query the graph
inside the callback). -/
inductive Event where
  | nodeAdded (obs : Nat) (v : Nat)
  | edgeAdded (obs : Nat) (e : Nat)
  | nodeDeleted (obs : Nat) (v : Nat) (snap : Graph)
  | edgeDeleted (obs : Nat) (e : Nat) (snap : Graph)
  | nodeTableGrown (newCap : Nat) (snap : Graph)
  | edgeTableGrown (newCap : Nat) (snap : Graph)
  | adjIndexReset (newIdx oldIdx : Nat)

/-- `MIN_NODE_TABLE_SIZE` (`1 << 4`). -/
def MIN_NODE_TABLE_SIZE : Nat := 16

/-- `MIN_EDGE_TABLE_SIZE` (`1 << 4`). -/
def MIN_EDGE_TABLE_SIZE : Nat := 16

/-- `Graph::nextPower2`: double `start` until it exceeds `idCount`.
The source loops forever on `start = 0`; it is only ever called with
`start ≥ MIN_NODE_TABLE_SIZE`, and we return `0` there for totality. -/
def nextPower2 (start idCount : Nat) : Nat :=
  if h : start = 0 then 0
  else if start ≤ idCount then nextPower2 (2 * start) idCount
  else start
termination_by idCount + 1 - start
decreasing_by
  have h1 : 1 ≤ start := Nat.one_le_iff_ne_zero.mpr h
  omega

/-- `Graph::Graph()`: empty graph, zero counters, minimum table sizes. -/
def emptyGraph : Graph where
  m_nodeIdCount := 0
  m_edgeIdCount := 0
  m_nodeArrayTableSize := MIN_NODE_TABLE_SIZE
  m_edgeArrayTableSize := MIN_EDGE_TABLE_SIZE
  nodes := []
  edges := []
  m_hiddenEdges := []
  nodeA := fun _ => none
  edgeA := fun _ => none
  adjA := fun _ => none
  nextNode := 0
  nextEdge := 0
  nextAdj := 0
  m_regNodeArrays := []
  m_regEdgeArrays := []
  m_regAdjArrays := []
  m_regStructures := []

namespace Graph

/-- Rotation of node slot `n` (empty if the slot is dead). -/
def rotOf (g : Graph) (n : Nat) : List Nat :=
  match g.nodeA n with
  | some N => N.adjEdges
  | none => []

/-- In-degree counter of node slot `n`. -/
def indegOf (g : Graph) (n : Nat) : Int :=
  match g.nodeA n with
  | some N => N.m_indeg
  | none => 0

/-- Out-degree counter of node slot `n`. -/
def outdegOf (g : Graph) (n : Nat) : Int :=
  match g.nodeA n with
  | some N => N.m_outdeg
  | none => 0

/-- `node->degree()` = `indeg + outdeg`. -/
def degreeOf (g : Graph) (n : Nat) : Int := g.indegOf n + g.outdegOf n

/-- `node->index()`. -/
def idOfN (g : Graph) (n : Nat) : Nat :=
  match g.nodeA n with
  | some N => N.m_id
  | none => 0

/-- `edge->index()`. -/
def idxOfE (g : Graph) (e : Nat) : Nat :=
  match g.edgeA e with
  | some E => E.idx
  | none => 0

/-- `edge->source()`. -/
def srcOf (g : Graph) (e : Nat) : Nat :=
  match g.edgeA e with
  | some E => E.m_src
  | none => 0

/-- `edge->target()`. -/
def tgtOf (g : Graph) (e : Nat) : Nat :=
  match g.edgeA e with
  | some E => E.m_tgt
  | none => 0

/-- `edge->adjSource()`. -/
def aSrcOf (g : Graph) (e : Nat) : Nat :=
  match g.edgeA e with
  | some E => E.m_adjSrc
  | none => 0

/-- `edge->adjTarget()`. -/
def aTgtOf (g : Graph) (e : Nat) : Nat :=
  match g.edgeA e with
  | some E => E.m_adjTgt
  | none => 0

/-- `adj->index()`. -/
def aIdOf (g : Graph) (a : Nat) : Nat :=
  match g.adjA a with
  | some A => A.m_id
  | none => 0

/-- `adj->theEdge()`. -/
def aEdgeOf (g : Graph) (a : Nat) : Nat :=
  match g.adjA a with
  | some A => A.m_edge
  | none => 0

/-- `adj->theNode()`. -/
def aNodeOf (g : Graph) (a : Nat) : Nat :=
  match g.adjA a with
  | some A => A.m_node
  | none => 0

/-- `adj->twin()`. -/
def aTwinOf (g : Graph) (a : Nat) : Nat :=
  match g.adjA a with
  | some A => A.m_twin
  | none => 0

/-- `adj->twinNode()`. -/
def aTwinNodeOf (g : Graph) (a : Nat) : Nat := g.aNodeOf (g.aTwinOf a)

/-- `adj->cyclicSucc()`: successor within the owning node's rotation,
wrapping at the tail. -/
def cyclicSucc (g : Graph) (a : Nat) : Nat :=
  cyclicSuccIn (g.rotOf (g.aNodeOf a)) a

/-- Update the node record at slot `n` (no-op on a dead slot). -/
def updN (g : Graph) (n : Nat) (f : NodeElement → NodeElement) : Graph :=
  match g.nodeA n with
  | some N => { g with nodeA := fupd g.nodeA n (f N) }
  | none => g

/-- Update the edge record at slot `e` (no-op on a dead slot). -/
def updE (g : Graph) (e : Nat) (f : EdgeElement → EdgeElement) : Graph :=
  match g.edgeA e with
  | some E => { g with edgeA := fupd g.edgeA e (f E) }
  | none => g

/-- Update the half-edge record at slot `a` (no-op on a dead slot). -/
def updA (g : Graph) (a : Nat) (f : AdjElement → AdjElement) : Graph :=
  match g.adjA a with
  | some A => { g with adjA := fupd g.adjA a (f A) }
  | none => g

/-- `Graph::registerArray(NodeArrayBase*)`: a node array registers with the
capacity it currently provides, which is the node table size. -/
def registerNodeArray (g : Graph) : Graph :=
  { g with m_regNodeArrays :=
      g.m_regNodeArrays ++ [{ cap := g.m_nodeArrayTableSize, connected := true }] }

/-- `Graph::registerArray(EdgeArrayBase*)`. -/
def registerEdgeArray (g : Graph) : Graph :=
  { g with m_regEdgeArrays :=
      g.m_regEdgeArrays ++ [{ cap := g.m_edgeArrayTableSize, connected := true }] }

/-- `Graph::registerArray(AdjEntryArrayBase*)`: half-edge arrays provide
`2 × edge table size` slots. -/
def registerAdjArray (g : Graph) : Graph :=
  { g with m_regAdjArrays :=
      g.m_regAdjArrays ++ [{ cap := 2 * g.m_edgeArrayTableSize, connected := true }] }

/-- `Graph::registerStructure`: observers are appended, so notification
order is registration order. -/
def registerStructure (g : Graph) (oid : Nat) : Graph :=
  { g with m_regStructures := g.m_regStructures ++ [{ oid := oid, connected := true }] }

/-- `Graph::newNode()`: grow the node table if the id count has reached it
(enlarging every registered node array first), then create the node and
notify every observer. -/
def newNode (g : Graph) : Graph × Nat × List Event :=
  let grow := g.m_nodeIdCount = g.m_nodeArrayTableSize
  let g1 :=
    if grow then
      { g with m_nodeArrayTableSize := 2 * g.m_nodeArrayTableSize,
               m_regNodeArrays := g.m_regNodeArrays.map
                 (fun r => { r with cap := 2 * g.m_nodeArrayTableSize }) }
    else g
  let ev1 : List Event :=
    if grow then [Event.nodeTableGrown g1.m_nodeArrayTableSize g1] else []
  let v := g1.nextNode
  let g2 := { g1 with
    m_nodeIdCount := g1.m_nodeIdCount + 1
    nextNode := v + 1
    nodeA := fupd g1.nodeA v
      { m_id := g1.m_nodeIdCount, m_indeg := 0, m_outdeg := 0, adjEdges := [] }
    nodes := g1.nodes ++ [v] }
  (g2, v, ev1 ++ g2.m_regStructures.map (fun o => Event.nodeAdded o.oid v))

/-- `Graph::newNode(int index)`: an index below the id count changes no
counter and no table; an index at or above it advances the counter to
`index + 1` and grows the table (via `nextPower2`) when the index has
reached it. -/
def newNodeIdx (g : Graph) (idx : Nat) : Graph × Nat × List Event :=
  let bump := g.m_nodeIdCount ≤ idx
  let growT := g.m_nodeArrayTableSize ≤ idx
  let g1 :=
    if bump then
      let g' := { g with m_nodeIdCount := idx + 1 }
      if growT then
        let ts := nextPower2 g.m_nodeArrayTableSize idx
        { g' with m_nodeArrayTableSize := ts,
                  m_regNodeArrays := g'.m_regNodeArrays.map
                    (fun r => { r with cap := ts }) }
      else g'
    else g
  let ev1 : List Event :=
    if bump ∧ growT then [Event.nodeTableGrown g1.m_nodeArrayTableSize g1] else []
  let v := g1.nextNode
  let g2 := { g1 with
    nextNode := v + 1
    nodeA := fupd g1.nodeA v
      { m_id := idx, m_indeg := 0, m_outdeg := 0, adjEdges := [] }
    nodes := g1.nodes ++ [v] }
  (g2, v, ev1 ++ g2.m_regStructures.map (fun o => Event.nodeAdded o.oid v))

/-- `Graph::createEdgeElement`: grow the edge table if needed (enlarging
registered edge arrays to the new size and half-edge arrays to twice it),
assign the two half-edges the ids `2k` and `2k | 1`, create the edge and
notify observers.  The caller assigns `m_edge` on the two half-edges. -/
def createEdgeElement (g : Graph) (v w aS aT : Nat) : Graph × Nat × List Event :=
  let grow := g.m_edgeIdCount = g.m_edgeArrayTableSize
  let g1 :=
    if grow then
      { g with m_edgeArrayTableSize := 2 * g.m_edgeArrayTableSize,
               m_regEdgeArrays := g.m_regEdgeArrays.map
                 (fun r => { r with cap := 2 * g.m_edgeArrayTableSize }),
               m_regAdjArrays := g.m_regAdjArrays.map
                 (fun r => { r with cap := 2 * (2 * g.m_edgeArrayTableSize) }) }
    else g
  let ev1 : List Event :=
    if grow then [Event.edgeTableGrown g1.m_edgeArrayTableSize g1] else []
  let k := g1.m_edgeIdCount
  let g2 := (g1.updA aS (fun A => { A with m_id := 2 * k })).updA aT
    (fun A => { A with m_id := 2 * k + 1 })
  let es := g2.nextEdge
  let g3 := { g2 with
    edgeA := fupd g2.edgeA es { idx := k, m_src := v, m_tgt := w, m_adjSrc := aS, m_adjTgt := aT }
    edges := g2.edges ++ [es]
    nextEdge := es + 1
    m_edgeIdCount := k + 1 }
  (g3, es, ev1 ++ g3.m_regStructures.map (fun o => Event.edgeAdded o.oid es))

/-- `Graph::newEdge(node v, node w)`: two twinned half-edges appended at the
tails of the two rotations, degree counters bumped, then
`createEdgeElement`; finally `m_edge` is set on both half-edges. -/
def newEdge (g : Graph) (v w : Nat) : Graph × Nat × List Event :=
  if v ∈ g.nodes ∧ w ∈ g.nodes then
    let aS := g.nextAdj
    let aT := g.nextAdj + 1
    let gA := { g with
      adjA := fupd (fupd g.adjA aS { m_id := 0, m_edge := 0, m_node := v, m_twin := aT })
        aT { m_id := 0, m_edge := 0, m_node := w, m_twin := aS }
      nextAdj := g.nextAdj + 2 }
    let gB := gA.updN v
      (fun N => { N with adjEdges := pushBackL N.adjEdges aS, m_outdeg := N.m_outdeg + 1 })
    let gC := gB.updN w
      (fun N => { N with adjEdges := pushBackL N.adjEdges aT, m_indeg := N.m_indeg + 1 })
    let r := createEdgeElement gC v w aS aT
    let e := r.2.1
    let gE := (r.1.updA aS (fun A => { A with m_edge := e })).updA aT
      (fun A => { A with m_edge := e })
    (gE, e, r.2.2)
  else (g, 0, [])

/-- `Graph::newEdge(node v, node w, int index)`: like `newEdge` but with a
caller-chosen edge id; an index below the edge id count changes neither the
counter nor the tables, a larger one advances the counter and grows tables
via `nextPower2` when it has reached the table size.  Half-edge ids are
`2·index` and `2·index + 1`. -/
def newEdgeIdx (g : Graph) (v w idx : Nat) : Graph × Nat × List Event :=
  if v ∈ g.nodes ∧ w ∈ g.nodes then
    let aS := g.nextAdj
    let aT := g.nextAdj + 1
    let gA := { g with
      adjA := fupd (fupd g.adjA aS { m_id := 0, m_edge := 0, m_node := v, m_twin := aT })
        aT { m_id := 0, m_edge := 0, m_node := w, m_twin := aS }
      nextAdj := g.nextAdj + 2 }
    let gB := gA.updN v
      (fun N => { N with adjEdges := pushBackL N.adjEdges aS, m_outdeg := N.m_outdeg + 1 })
    let gC := gB.updN w
      (fun N => { N with adjEdges := pushBackL N.adjEdges aT, m_indeg := N.m_indeg + 1 })
    let bump := gC.m_edgeIdCount ≤ idx
    let growT := gC.m_edgeArrayTableSize ≤ idx
    let gD :=
      if bump then
        let g' := { gC with m_edgeIdCount := idx + 1 }
        if growT then
          let ts := nextPower2 gC.m_edgeArrayTableSize idx
          { g' with m_edgeArrayTableSize := ts,
                    m_regEdgeArrays := g'.m_regEdgeArrays.map (fun r => { r with cap := ts }),
                    m_regAdjArrays := g'.m_regAdjArrays.map (fun r => { r with cap := 2 * ts }) }
        else g'
      else gC
    let ev1 : List Event :=
      if bump ∧ growT then [Event.edgeTableGrown gD.m_edgeArrayTableSize gD] else []
    let gE := (gD.updA aS (fun A => { A with m_id := 2 * idx })).updA aT
      (fun A => { A with m_id := 2 * idx + 1 })
    let es := gE.nextEdge
    let gF := { gE with
      edgeA := fupd gE.edgeA es { idx := idx, m_src := v, m_tgt := w, m_adjSrc := aS, m_adjTgt := aT }
      edges := gE.edges ++ [es]
      nextEdge := es + 1 }
    let gG := (gF.updA aS (fun A => { A with m_edge := es })).updA aT
      (fun A => { A with m_edge := es })
    (gG, es, ev1 ++ gG.m_regStructures.map (fun o => Event.edgeAdded o.oid es))
  else (g, 0, [])

/-- `Graph::delEdge`: notify every observer (the edge is still fully linked
when the callbacks run — the snapshot in the events is the unmodified `g`),
then detach both half-edges from their rotations, decrement the degree
counters and remove the edge from the edge list. -/
def delEdge (g : Graph) (e : Nat) : Graph × List Event :=
  if e ∈ g.edges then
    let evs := g.m_regStructures.map (fun o => Event.edgeDeleted o.oid e g)
    let aS := g.aSrcOf e
    let aT := g.aTgtOf e
    let src := g.srcOf e
    let tgt := g.tgtOf e
    let g1 := g.updN src
      (fun N => { N with adjEdges := N.adjEdges.erase aS, m_outdeg := N.m_outdeg - 1 })
    let g2 := g1.updN tgt
      (fun N => { N with adjEdges := N.adjEdges.erase aT, m_indeg := N.m_indeg - 1 })
    ({ g2 with edges := g2.edges.erase e }, evs)
  else (g, [])

/-- The `while((adj = adjEdges.head()) != nullptr) delEdge(adj->m_edge)`
loop of `Graph::delNode`, with fuel (the initial rotation length suffices
on a consistent graph, since each `delEdge` removes the head entry). -/
def delNodeLoop (g : Graph) (v : Nat) : Nat → Graph × List Event
  | 0 => (g, [])
  | fuel+1 =>
    match (g.rotOf v).head? with
    | none => (g, [])
    | some a =>
      let r := delEdge g (g.aEdgeOf a)
      let r2 := delNodeLoop r.1 v fuel
      (r2.1, r.2 ++ r2.2)

/-- `Graph::delNode`: notify node-deleted first (the node and all its edges
are still fully linked), then delete every incident edge via `delEdge`,
then remove the node. -/
def delNode (g : Graph) (v : Nat) : Graph × List Event :=
  if v ∈ g.nodes then
    let evs := g.m_regStructures.map (fun o => Event.nodeDeleted o.oid v g)
    let r := delNodeLoop g v (g.rotOf v).length
    ({ r.1 with nodes := r.1.nodes.erase v }, evs ++ r.2)
  else (g, [])

/-- `Graph::split(e)`: subdivide `e` with a fresh node `u`.  A fresh
half-edge on `u` takes over the id of `e`'s target half-edge and becomes
`e`'s new target side; the original target half-edge keeps its position in
the old target's rotation but moves to the fresh edge `e2` under a fresh
id, with `resetAdjEntryIndex` telling half-edge arrays to relabel. -/
def split (g : Graph) (e : Nat) : Graph × Nat × List Event :=
  if e ∈ g.edges then
    let r0 := newNode g
    let g1 := r0.1
    let u := r0.2.1
    let ev1 := r0.2.2
    let g2 := g1.updN u (fun N => { N with m_indeg := 1, m_outdeg := 1 })
    let aT' := g2.nextAdj
    let g3 := { g2 with
      adjA := fupd g2.adjA aT'
        { m_id := g2.aIdOf (g2.aTgtOf e), m_edge := e, m_node := u, m_twin := g2.aSrcOf e }
      nextAdj := aT' + 1 }
    let g4 := g3.updA (g3.aSrcOf e) (fun A => { A with m_twin := aT' })
    let g5 := g4.updN u (fun N => { N with adjEdges := pushBackL N.adjEdges aT' })
    let aS' := g5.nextAdj
    let g6 := { g5 with
      adjA := fupd g5.adjA aS'
        { m_id := 0, m_edge := 0, m_node := u, m_twin := g5.aTgtOf e }
      nextAdj := aS' + 1 }
    let g7 := g6.updN u (fun N => { N with adjEdges := pushBackL N.adjEdges aS' })
    let oldId := g7.aIdOf (g7.aTgtOf e)
    let r1 := createEdgeElement g7 u (g7.tgtOf e) aS' (g7.aTgtOf e)
    let g8 := r1.1
    let e2 := r1.2.1
    let ev2 := r1.2.2
    let ev3 := [Event.adjIndexReset (g8.aIdOf (g8.aTgtOf e)) oldId]
    let g9 := g8.updA (g8.aTgtOf e2) (fun A => { A with m_twin := aS' })
    let g10 := (g9.updA (g9.aTgtOf e) (fun A => { A with m_edge := e2 })).updA aS'
      (fun A => { A with m_edge := e2 })
    let g11 := g10.updE e (fun E => { E with m_tgt := u, m_adjTgt := aT' })
    (g11, e2, ev1 ++ ev2 ++ ev3)
  else (g, 0, [])

/-- `Graph::unsplit(eIn, eOut)`: merge the subdivision back.  The guard is
the assertion set of the source: the shared node has in-degree 1 and
out-degree 1, `eOut` leaves it, and neither edge is a self-loop.  `eOut`'s
target half-edge is transplanted back onto `eIn`, its original id is
restored, observers hear edge-deleted then node-deleted (both elements are
still in the object lists at that point), and finally `eOut` and the node
are removed. -/
def unsplit (g : Graph) (eIn eOut : Nat) : Graph × List Event :=
  if eIn ∈ g.edges ∧ eOut ∈ g.edges ∧ g.indegOf (g.tgtOf eIn) = 1 ∧
      g.outdegOf (g.tgtOf eIn) = 1 ∧ g.srcOf eOut = g.tgtOf eIn ∧
      g.srcOf eIn ≠ g.tgtOf eIn ∧ g.srcOf eOut ≠ g.tgtOf eOut then
    let u := g.tgtOf eIn
    let adjSrc := g.aSrcOf eIn
    let adjTgt := g.aTgtOf eOut
    let g1 := g.updE eIn (fun E => { E with m_tgt := g.tgtOf eOut })
    let ev0 := [Event.adjIndexReset (g1.aIdOf (g1.aTgtOf eIn)) (g1.aIdOf adjTgt)]
    let g2 := g1.updA adjTgt (fun A => { A with m_id := g1.aIdOf (g1.aTgtOf eIn) })
    let g3 := g2.updE eIn (fun E => { E with m_adjTgt := adjTgt })
    let g4 := (g3.updA adjSrc (fun A => { A with m_twin := adjTgt })).updA adjTgt
      (fun A => { A with m_twin := adjSrc, m_edge := eIn })
    let evs := g4.m_regStructures.map (fun o => Event.edgeDeleted o.oid eOut g4) ++
      g4.m_regStructures.map (fun o => Event.nodeDeleted o.oid u g4)
    ({ g4 with edges := g4.edges.erase eOut, nodes := g4.nodes.erase u }, ev0 ++ evs)
  else (g, [])

/-- `Graph::hideEdge`: detach both half-edges from the rotations
(`delPure`, no deallocation), decrement the degree counters, and move the
edge from the edge list to the hidden-edges list. -/
def hideEdge (g : Graph) (e : Nat) : Graph :=
  if e ∈ g.edges then
    let aS := g.aSrcOf e
    let aT := g.aTgtOf e
    let src := g.srcOf e
    let tgt := g.tgtOf e
    let g1 := g.updN src
      (fun N => { N with adjEdges := N.adjEdges.erase aS, m_outdeg := N.m_outdeg - 1 })
    let g2 := g1.updN tgt
      (fun N => { N with adjEdges := N.adjEdges.erase aT, m_indeg := N.m_indeg - 1 })
    { g2 with edges := g2.edges.erase e, m_hiddenEdges := g2.m_hiddenEdges ++ [e] }
  else g

/-- `Graph::restoreEdge`: reattach both half-edges at the tails of the two
rotations, restore the degree counters, and move the edge back to the tail
of the edge list. -/
def restoreEdge (g : Graph) (e : Nat) : Graph :=
  if e ∈ g.m_hiddenEdges then
    let aS := g.aSrcOf e
    let aT := g.aTgtOf e
    let src := g.srcOf e
    let tgt := g.tgtOf e
    let g1 := g.updN src
      (fun N => { N with adjEdges := pushBackL N.adjEdges aS, m_outdeg := N.m_outdeg + 1 })
    let g2 := g1.updN tgt
      (fun N => { N with adjEdges := pushBackL N.adjEdges aT, m_indeg := N.m_indeg + 1 })
    { g2 with m_hiddenEdges := g2.m_hiddenEdges.erase e, edges := g2.edges ++ [e] }
  else g

/-- `Graph::restoreAllEdges`: walk the hidden list from the tail to the
head, restoring each edge. -/
def restoreAllEdges (g : Graph) : Graph :=
  g.m_hiddenEdges.reverse.foldl restoreEdge g

/-- `Graph::reverseEdge`: swap source/target and the two half-edge roles,
then fix the four degree counters (the references `src`/`tgt` in the
source alias the already-swapped fields). -/
def reverseEdge (g : Graph) (e : Nat) : Graph :=
  if e ∈ g.edges then
    let g1 := g.updE e (fun E =>
      { E with m_src := E.m_tgt, m_tgt := E.m_src, m_adjSrc := E.m_adjTgt, m_adjTgt := E.m_adjSrc })
    let g2 := g1.updN (g1.srcOf e)
      (fun N => { N with m_outdeg := N.m_outdeg + 1, m_indeg := N.m_indeg - 1 })
    g2.updN (g2.tgtOf e)
      (fun N => { N with m_outdeg := N.m_outdeg - 1, m_indeg := N.m_indeg + 1 })
  else g

/-- `Graph::reverseAllEdges`: apply `reverseEdge` to every edge (the edge
list itself is not reordered by `reverseEdge`). -/
def reverseAllEdges (g : Graph) : Graph :=
  g.edges.foldl reverseEdge g

/-- `Graph::moveSource(edge e, adjEntry adjSrc, Direction dir)`: splice
`e`'s source half-edge out of the old source's rotation and into the
rotation of `adjSrc`'s node at the given position, updating both out-degree
counters and the endpoint. -/
def moveSourceAdj (g : Graph) (e aPos : Nat) (dir : Direction) : Graph :=
  if e ∈ g.edges then
    let v := g.aNodeOf aPos
    let adj := g.aSrcOf e
    let oldSrc := g.srcOf e
    let g1 := g.updN oldSrc (fun N => { N with adjEdges := N.adjEdges.erase adj })
    let g2 := g1.updN v (fun N => { N with adjEdges :=
      (if dir = Direction.before then insertBeforeL N.adjEdges adj aPos
       else insertAfterL N.adjEdges adj aPos) })
    let g3 := g2.updN oldSrc (fun N => { N with m_outdeg := N.m_outdeg - 1 })
    let g4 := g3.updA adj (fun A => { A with m_node := v })
    let g5 := g4.updE e (fun E => { E with m_src := v })
    g5.updN v (fun N => { N with m_outdeg := N.m_outdeg + 1 })
  else g

/-- `Graph::moveTarget(edge e, adjEntry adjTgt, Direction dir)`: the
symmetric splice for the target half-edge and the in-degree counters. -/
def moveTargetAdj (g : Graph) (e aPos : Nat) (dir : Direction) : Graph :=
  if e ∈ g.edges then
    let v := g.aNodeOf aPos
    let adj := g.aTgtOf e
    let oldTgt := g.tgtOf e
    let g1 := g.updN oldTgt (fun N => { N with adjEdges := N.adjEdges.erase adj })
    let g2 := g1.updN v (fun N => { N with adjEdges :=
      (if dir = Direction.before then insertBeforeL N.adjEdges adj aPos
       else insertAfterL N.adjEdges adj aPos) })
    let g3 := g2.updN oldTgt (fun N => { N with m_indeg := N.m_indeg - 1 })
    let g4 := g3.updA adj (fun A => { A with m_node := v })
    let g5 := g4.updE e (fun E => { E with m_tgt := v })
    g5.updN v (fun N => { N with m_indeg := N.m_indeg + 1 })
  else g

/-- `Graph::searchEdge(v, w)`: scan the rotation of whichever endpoint has
the smaller degree (ties scan `v`) for a half-edge whose twin lies on the
other endpoint; return its edge, or `none`. -/
def searchEdge (g : Graph) (v w : Nat) : Option Nat :=
  if v ∈ g.nodes ∧ w ∈ g.nodes then
    let p := if g.degreeOf w < g.degreeOf v then (w, v) else (v, w)
    match (g.rotOf p.1).find? (fun a => g.aTwinNodeOf a == p.2) with
    | some a => some (g.aEdgeOf a)
    | none => none
  else none

/-- The splice loop of `Graph::contract`: cyclic walk starting after `e`'s
twin, precomputing the cyclic successor, skipping half-edges whose twin
lies on the source `v`, and splicing every other one onto `v` right before
`e`'s source half-edge `aS`.  `w` is `e`'s target as captured on entry.
Fuel-based; the target's rotation length is enough fuel whenever the walk
stays inside the target's rotation (in particular when the target carries
no self-loop). -/
def contractLoop (g : Graph) (v w aS aT : Nat) (cur : Nat) : Nat → Graph
  | 0 => g
  | fuel+1 =>
    if cur = aT then g
    else
      let nxt := g.cyclicSucc cur
      if g.aTwinNodeOf cur = v then contractLoop g v w aS aT nxt fuel
      else
        let eAdj := g.aEdgeOf cur
        let g' :=
          if w = g.srcOf eAdj then moveSourceAdj g eAdj aS Direction.before
          else moveTargetAdj g eAdj aS Direction.before
        contractLoop g' v w aS aT nxt fuel

/-- `Graph::contract(e)`: run the splice loop over the target's rotation,
then delete the node that still owns `e`'s twin (deleting every edge still
incident to it, including `e`), returning the source. -/
def contract (g : Graph) (e : Nat) : Graph × Nat × List Event :=
  if e ∈ g.edges then
    let aS := g.aSrcOf e
    let aT := g.aTgtOf e
    let v := g.srcOf e
    let w := g.tgtOf e
    let g1 := contractLoop g v w aS aT (g.cyclicSucc aT) (g.rotOf w).length
    let r := delNode g1 (g1.aNodeOf aT)
    (r.1, v, r.2)
  else (g, 0, [])

/-- `Graph::~Graph()`: force-restore all hidden edges, then disconnect
every still-registered node, edge and half-edge array.  The source has no
loop over `m_regStructures`: registered observers are not disconnected.
(The per-node destruction of the rotation containers releases memory only
and has no observable registry effect.) -/
def destruct (g : Graph) : Graph :=
  let g1 := restoreAllEdges g
  { g1 with
    m_regNodeArrays := g1.m_regNodeArrays.map (fun r => { r with connected := false })
    m_regEdgeArrays := g1.m_regEdgeArrays.map (fun r => { r with connected := false })
    m_regAdjArrays := g1.m_regAdjArrays.map (fun r => { r with connected := false }) }

end Graph

/-- `Graph::CCsInfo`: number of components, the flattened node and edge
orderings, and the two boundary arrays (`m_startNode[0] = 0`, then one
entry per component). -/
structure CCsInfo where
  m_numCC : Nat
  m_nodes : List Nat
  m_edges : List Nat
  m_startNode : List Nat
  m_startEdge : List Nat
  deriving Repr, DecidableEq

/-- The mutable state of the `CCsInfo` constructor: the `component` node
array (keyed by node id, `none` = `-1`), and the node/edge orderings
accumulated so far. -/
structure CCBuild where
  comp : Nat → Option Nat
  vlist : List Nat
  elist : List Nat

namespace Graph

/-- One step of the adjacency scan in the `CCsInfo` constructor: record the
edge if the half-edge id is even, then label and push the twin node if it is
still unlabelled. -/
def ccStep (g : Graph) (c : Nat) (p : CCBuild × List Nat) (a : Nat) : CCBuild × List Nat :=
  let p1 : CCBuild × List Nat :=
    if (g.aIdOf a) % 2 = 0 then
      ({ p.1 with elist := p.1.elist ++ [g.aEdgeOf a] }, p.2)
    else p
  let x := g.aTwinNodeOf a
  if p1.1.comp (g.idOfN x) = none then
    ({ p1.1 with comp := fupd p1.1.comp (g.idOfN x) c }, x :: p1.2)
  else p1

/-- One adjacency scan of a popped node `w` in the `CCsInfo` constructor:
record the edge at every even-id half-edge, and label and push every
so-far-unlabelled twin node. -/
def ccScan (g : Graph) (c w : Nat) (st : CCBuild) (S : List Nat) : CCBuild × List Nat :=
  (g.rotOf w).foldl (ccStep g c) (st, S)

/-- The `while (!S.empty())` loop of the `CCsInfo` constructor (fuel-based;
one unit per pop, so the number of nodes suffices on a consistent graph). -/
def ccInner (g : Graph) (c : Nat) : List Nat → CCBuild → Nat → CCBuild
  | [], st, _ => st
  | _ :: _, st, 0 => st
  | w :: S, st, fuel+1 =>
    let st1 := { st with vlist := st.vlist ++ [w] }
    let p := ccScan g c w st1 S
    ccInner g c p.2 p.1 fuel

/-- The outer loop of the `CCsInfo` constructor over all nodes: start a new
component at every still-unlabelled node, run the stack loop, then record
the component boundaries. -/
def ccOuter (g : Graph) :
    List Nat → CCBuild → Nat → List Nat → List Nat → CCBuild × Nat × List Nat × List Nat
  | [], st, c, sN, sE => (st, c, sN, sE)
  | v :: vs, st, c, sN, sE =>
    if st.comp (g.idOfN v) = none then
      let st1 : CCBuild := { st with comp := fupd st.comp (g.idOfN v) c }
      let st2 := ccInner g c [v] st1 (g.nodes.length)
      ccOuter g vs st2 (c+1) (sN ++ [st2.vlist.length]) (sE ++ [st2.elist.length])
    else ccOuter g vs st c sN sE

/-- The full run of the `CCsInfo` constructor (final build state plus the
component count and boundary lists). -/
def ccRun (g : Graph) : CCBuild × Nat × List Nat × List Nat :=
  ccOuter g g.nodes { comp := fun _ => none, vlist := [], elist := [] } 0 [] []

/-- `Graph::CCsInfo::CCsInfo(const Graph&)`: a read-only computation; the
graph itself is not an input-output parameter anywhere below. -/
def mkCCsInfo (g : Graph) : CCsInfo :=
  let r := ccRun g
  { m_numCC := r.2.1
    m_nodes := r.1.vlist
    m_edges := r.1.elist
    m_startNode := 0 :: r.2.2.1
    m_startEdge := 0 :: r.2.2.2 }

/-- The component label the `CCsInfo` run assigned to node id `i`. -/
def ccCompOf (g : Graph) (i : Nat) : Option Nat := (ccRun g).1.comp i

end Graph

/-- The public operations embedded in this development, for stating
"after every public operation" invariants. -/
inductive Op where
  | opNewNode
  | opNewNodeIdx (idx : Nat)
  | opNewEdge (v w : Nat)
  | opNewEdgeIdx (v w idx : Nat)
  | opDelNode (v : Nat)
  | opDelEdge (e : Nat)
  | opSplit (e : Nat)
  | opUnsplit (eIn eOut : Nat)
  | opHideEdge (e : Nat)
  | opRestoreEdge (e : Nat)
  | opRestoreAll
  | opReverseEdge (e : Nat)
  | opReverseAll
  | opMoveSource (e a : Nat) (d : Direction)
  | opMoveTarget (e a : Nat) (d : Direction)
  | opContract (e : Nat)
  | opRegisterNodeArray
  | opRegisterEdgeArray
  | opRegisterAdjArray
  | opRegisterStructure (oid : Nat)

/-- Run one public operation, returning the new state and the notification
trace it fired. -/
def applyOpTr (o : Op) (g : Graph) : Graph × List Event :=
  match o with
  | .opNewNode => let r := g.newNode; (r.1, r.2.2)
  | .opNewNodeIdx idx => let r := g.newNodeIdx idx; (r.1, r.2.2)
  | .opNewEdge v w => let r := g.newEdge v w; (r.1, r.2.2)
  | .opNewEdgeIdx v w idx => let r := g.newEdgeIdx v w idx; (r.1, r.2.2)
  | .opDelNode v => g.delNode v
  | .opDelEdge e => g.delEdge e
  | .opSplit e => let r := g.split e; (r.1, r.2.2)
  | .opUnsplit eIn eOut => g.unsplit eIn eOut
  | .opHideEdge e => (g.hideEdge e, [])
  | .opRestoreEdge e => (g.restoreEdge e, [])
  | .opRestoreAll => (g.restoreAllEdges, [])
  | .opReverseEdge e => (g.reverseEdge e, [])
  | .opReverseAll => (g.reverseAllEdges, [])
  | .opMoveSource e a d => (g.moveSourceAdj e a d, [])
  | .opMoveTarget e a d => (g.moveTargetAdj e a d, [])
  | .opContract e => let r := g.contract e; (r.1, r.2.2)
  | .opRegisterNodeArray => (g.registerNodeArray, [])
  | .opRegisterEdgeArray => (g.registerEdgeArray, [])
  | .opRegisterAdjArray => (g.registerAdjArray, [])
  | .opRegisterStructure oid => (g.registerStructure oid, [])

/-- Run one public operation, discarding the trace. -/
def applyOp (o : Op) (g : Graph) : Graph := (applyOpTr o g).1

/-- Run a sequence of public operations. -/
def runOps (ops : List Op) (g : Graph) : Graph := ops.foldl (fun h o => applyOp o h) g

/-- Run a sequence of public operations, collecting the full trace. -/
def runTr : List Op → Graph → Graph × List Event
  | [], g => (g, [])
  | o :: os, g =>
    let r := applyOpTr o g
    let r2 := runTr os r.1
    (r2.1, r.2 ++ r2.2)

/-- `n` is a power of two. -/
def isPow2 (n : Nat) : Prop := ∃ k, n = 2 ^ k

/-- `t` is the smallest power of two that is at least `16` and at least
`c` (the table-size invariant the code actually maintains: the table is
grown lazily, at the next insertion, so the table size may equal the id
count). -/
def goodTable (t c : Nat) : Prop :=
  isPow2 t ∧ 16 ≤ t ∧ c ≤ t ∧ (t = 16 ∨ t < 2 * c)

/-- The table-size property the spec claims: the table size is a power of
two, at least the minimum 16, strictly exceeding the id count. -/
def claimedTable (t c : Nat) : Prop :=
  isPow2 t ∧ 16 ≤ t ∧ c < t

/-- All edges currently owned by the graph: the edge list plus the hidden
list. -/
def liveEdges (g : Graph) : List Nat := g.edges ++ g.m_hiddenEdges

/-- The fields the table invariant depends on: id counters, table sizes
and the three array registries. -/
structure TSig where
  nIdC : Nat
  eIdC : Nat
  nTS : Nat
  eTS : Nat
  regN : List ArrayReg
  regE : List ArrayReg
  regA : List ArrayReg
  deriving Repr, DecidableEq

/-- Extract the table-invariant fields of a graph. -/
def tSig (g : Graph) : TSig :=
  { nIdC := g.m_nodeIdCount, eIdC := g.m_edgeIdCount,
    nTS := g.m_nodeArrayTableSize, eTS := g.m_edgeArrayTableSize,
    regN := g.m_regNodeArrays, regE := g.m_regEdgeArrays, regA := g.m_regAdjArrays }

/-- The table invariant on the extracted fields. -/
def tableProps (s : TSig) : Prop :=
  goodTable s.nTS s.nIdC ∧ goodTable s.eTS s.eIdC ∧
  (∀ r ∈ s.regN, s.nTS ≤ r.cap) ∧
  (∀ r ∈ s.regE, s.eTS ≤ r.cap) ∧
  (∀ r ∈ s.regA, 2 * s.eTS ≤ r.cap)

/-- The table/registry invariant: both tables satisfy `goodTable` and
every registered array provides at least the corresponding capacity
(half-edge arrays: twice the edge table size). -/
def TableInv (g : Graph) : Prop := tableProps (tSig g)

namespace Graph

/-- The part of an edge record the half-edge-id invariant depends on:
edge id and the two owned half-edge slots. -/
def idSigE (g : Graph) (e : Nat) : Option (Nat × Nat × Nat) :=
  (g.edgeA e).map (fun E => (E.idx, E.m_adjSrc, E.m_adjTgt))

/-- The part of a half-edge record the half-edge-id invariant depends on:
its id. -/
def idSigA (g : Graph) (a : Nat) : Option Nat :=
  (g.adjA a).map (fun A => A.m_id)

/-- The id-pair property of one edge: its two half-edges exist, are
distinct, and carry the ids `2·idx` and `2·idx + 1` in one of the two
orders. -/
def edgeIdsOK (g : Graph) (e : Nat) : Prop :=
  (g.edgeA e).isSome ∧ (g.adjA (g.aSrcOf e)).isSome ∧ (g.adjA (g.aTgtOf e)).isSome ∧
  g.aSrcOf e ≠ g.aTgtOf e ∧
  ((g.aIdOf (g.aSrcOf e) = 2 * g.idxOfE e ∧ g.aIdOf (g.aTgtOf e) = 2 * g.idxOfE e + 1) ∨
   (g.aIdOf (g.aSrcOf e) = 2 * g.idxOfE e + 1 ∧ g.aIdOf (g.aTgtOf e) = 2 * g.idxOfE e))

/-- The source-side-is-even strengthening the spec claims for every state:
the source half-edge carries `2·idx`, the target half-edge `2·idx + 1`. -/
def edgeIdsSrcEven (g : Graph) (e : Nat) : Prop :=
  g.aIdOf (g.aSrcOf e) = 2 * g.idxOfE e ∧ g.aIdOf (g.aTgtOf e) = 2 * g.idxOfE e + 1

/-- The half-edge-id invariant that every operation preserves, packaged
with the bookkeeping needed to make it inductive: live edges are distinct
and within the allocated slot range, each satisfies `edgeIdsOK`, and
distinct live edges own disjoint half-edge slots. -/
def IdWF (g : Graph) : Prop :=
  (liveEdges g).Nodup ∧
  (∀ e ∈ liveEdges g, e < g.nextEdge ∧ g.aSrcOf e < g.nextAdj ∧
    g.aTgtOf e < g.nextAdj ∧ edgeIdsOK g e) ∧
  (∀ e1 ∈ liveEdges g, ∀ e2 ∈ liveEdges g, e1 ≠ e2 →
    g.aSrcOf e1 ≠ g.aSrcOf e2 ∧ g.aSrcOf e1 ≠ g.aTgtOf e2 ∧
    g.aTgtOf e1 ≠ g.aSrcOf e2 ∧ g.aTgtOf e1 ≠ g.aTgtOf e2)

/-- Structural consistency of one node: its record exists, its rotation has
no duplicates, and every rotation entry is a half-edge of a live edge,
sitting at this node as that edge's source or target side. -/
def nodeOK (g : Graph) (n : Nat) : Prop :=
  (g.nodeA n).isSome ∧ (g.rotOf n).Nodup ∧
  ∀ a ∈ g.rotOf n, a < g.nextAdj ∧ (g.adjA a).isSome ∧ g.aNodeOf a = n ∧
    g.aEdgeOf a ∈ g.edges ∧
    ((a = g.aSrcOf (g.aEdgeOf a) ∧ n = g.srcOf (g.aEdgeOf a)) ∨
     (a = g.aTgtOf (g.aEdgeOf a) ∧ n = g.tgtOf (g.aEdgeOf a)))

/-- Structural consistency of one edge: the record and both half-edge
records exist, endpoints are live, twin linkage is mutual, back-references
agree, and both half-edges sit in their endpoints' rotations. -/
def edgeOK (g : Graph) (e : Nat) : Prop :=
  (g.edgeA e).isSome ∧ e < g.nextEdge ∧
  g.srcOf e ∈ g.nodes ∧ g.tgtOf e ∈ g.nodes ∧
  g.aSrcOf e ≠ g.aTgtOf e ∧ g.aSrcOf e < g.nextAdj ∧ g.aTgtOf e < g.nextAdj ∧
  (g.adjA (g.aSrcOf e)).isSome ∧ (g.adjA (g.aTgtOf e)).isSome ∧
  g.aEdgeOf (g.aSrcOf e) = e ∧ g.aEdgeOf (g.aTgtOf e) = e ∧
  g.aNodeOf (g.aSrcOf e) = g.srcOf e ∧ g.aNodeOf (g.aTgtOf e) = g.tgtOf e ∧
  g.aTwinOf (g.aSrcOf e) = g.aTgtOf e ∧ g.aTwinOf (g.aTgtOf e) = g.aSrcOf e ∧
  g.aSrcOf e ∈ g.rotOf (g.srcOf e) ∧ g.aTgtOf e ∈ g.rotOf (g.tgtOf e)

/-- Full structural consistency (the invariants of §3 of the spec that
`consistencyCheck` re-derives, minus the degree counters, plus slot
bounds). -/
def WF (g : Graph) : Prop :=
  g.nodes.Nodup ∧ g.edges.Nodup ∧
  (∀ n ∈ g.nodes, n < g.nextNode ∧ nodeOK g n) ∧
  (∀ e ∈ g.edges, edgeOK g e)

end Graph

/-- Two node slots joined by a live edge in either direction. -/
def AdjRel (g : Graph) (x y : Nat) : Prop :=
  ∃ e ∈ g.edges, (g.srcOf e = x ∧ g.tgtOf e = y) ∨ (g.srcOf e = y ∧ g.tgtOf e = x)

/-- Connectivity: the reflexive-transitive closure of `AdjRel`. -/
def Conn (g : Graph) : Nat → Nat → Prop := Relation.ReflTransGen (AdjRel g)

/-- The component label the build state assigns to a node (via its id). -/
def labOf (g : Graph) (st : CCBuild) (v : Nat) : Option Nat := st.comp (g.idOfN v)

/-- Every component label below `bound` has a representative from which the
whole labelled class is reachable. -/
def ccRoots (g : Graph) (st : CCBuild) (bound : Nat) : Prop :=
  ∀ c', c' < bound → ∃ r, r ∈ g.nodes ∧ labOf g st r = some c' ∧
    ∀ v ∈ g.nodes, labOf g st v = some c' → Conn g r v

/-- Every node adjacent to a node of `U` carries the same label as it. -/
def ccClosed (g : Graph) (st : CCBuild) (U : List Nat) : Prop :=
  ∀ u ∈ U, ∀ x ∈ g.nodes, AdjRel g u x → labOf g st x = labOf g st u

/-- The edges recorded when scanning the rotations of the nodes of `V` in
order: one entry per even-id half-edge. -/
def elistOf (g : Graph) (V : List Nat) : List Nat :=
  V.flatMap (fun w => ((g.rotOf w).filter (fun a => g.aIdOf a % 2 = 0)).map g.aEdgeOf)

/-- Invariant of the inner scan of one popped node `w` (`V` is the visit
list including `w`, `c` the current component): visit list and stack hold
distinct live nodes, a node is labelled exactly when listed, labels do not
exceed `c`, every fully processed node other than `w` is label-closed,
every used label has a representative, the stack and `w` carry label `c`. -/
def ccScanInv (g : Graph) (c w : Nat) (V : List Nat) (st : CCBuild) (S : List Nat) : Prop :=
  st.vlist = V ∧
  (V ++ S).Nodup ∧
  (∀ v ∈ V ++ S, v ∈ g.nodes) ∧
  (∀ v ∈ g.nodes, (¬ labOf g st v = none ↔ v ∈ V ++ S)) ∧
  (∀ v ∈ g.nodes, ∀ c', labOf g st v = some c' → c' ≤ c) ∧
  (∀ u ∈ V, u ≠ w → ∀ x ∈ g.nodes, AdjRel g u x → labOf g st x = labOf g st u) ∧
  ccRoots g st (c + 1) ∧
  (∀ v ∈ S, labOf g st v = some c) ∧
  labOf g st w = some c

/-- Invariant of the stack loop of the `CCsInfo` constructor while
component `c` is being explored. -/
def ccInnerInv (g : Graph) (st : CCBuild) (S : List Nat) (c : Nat) : Prop :=
  (st.vlist ++ S).Nodup ∧
  (∀ v ∈ st.vlist ++ S, v ∈ g.nodes) ∧
  (∀ v ∈ g.nodes, (¬ labOf g st v = none ↔ v ∈ st.vlist ++ S)) ∧
  (∀ v ∈ g.nodes, ∀ c', labOf g st v = some c' → c' ≤ c) ∧
  ccClosed g st st.vlist ∧
  ccRoots g st (c + 1) ∧
  (∀ v ∈ S, labOf g st v = some c) ∧
  st.elist = elistOf g st.vlist

/-- Invariant of the outer node loop of the `CCsInfo` constructor between
components: `c` components finished, boundary lists `sN`/`sE` recorded. -/
def ccOuterInv (g : Graph) (st : CCBuild) (c : Nat) (sN sE : List Nat) : Prop :=
  st.vlist.Nodup ∧
  (∀ v ∈ st.vlist, v ∈ g.nodes) ∧
  (∀ v ∈ g.nodes, (¬ labOf g st v = none ↔ v ∈ st.vlist)) ∧
  (∀ v ∈ g.nodes, ∀ c', labOf g st v = some c' → c' < c) ∧
  ccClosed g st st.vlist ∧
  ccRoots g st c ∧
  st.elist = elistOf g st.vlist ∧
  sN.length = c ∧ sE.length = c ∧
  List.Chain' (· ≤ ·) (0 :: sN) ∧ (0 :: sN).getLast? = some st.vlist.length ∧
  List.Chain' (· ≤ ·) (0 :: sE) ∧ (0 :: sE).getLast? = some st.elist.length

/-- Two fresh nodes (slots 0 and 1). -/
def gN2 : Graph := (Graph.newNode (Graph.newNode emptyGraph).1).1

/-- `gN2` plus the edge `0 → 1` (edge slot 0, half-edge slots 0/1). -/
def gE01 : Graph := (Graph.newEdge gN2 0 1).1

/-- `gE01` with the edge reversed. -/
def gRev : Graph := Graph.reverseEdge gE01 0

/-- `gN2` plus the single edge `1 → 0`. -/
def gBack : Graph := (Graph.newEdge gN2 1 0).1

/-- Two antiparallel edges `0 → 1` (slot 0) and `1 → 0` (slot 1). -/
def gPara : Graph := (Graph.newEdge gE01 1 0).1

/-- `gPara` after contracting edge 0. -/
def gContr : Graph := (Graph.contract gPara 0).1

/-- `k` applications of `newNode` to the empty graph with one registered
node array. -/
def gGrow (k : Nat) : Graph := runOps (List.replicate k Op.opNewNode) emptyGraph.registerNodeArray

/-- A directed path `0 → 1 → 2` (edges 0: `0 → 1` and 1: `1 → 2`). -/
def gPath : Graph :=
  (Graph.newEdge (Graph.newEdge (Graph.newNode gN2).1 0 1).1 1 2).1

/-- `gE01` with its edge hidden, one registered node array and one
registered observer (token 7): a state on which the destructor has
something of every kind to clean up. -/
def gC9 : Graph :=
  Graph.registerStructure (Graph.registerNodeArray (Graph.hideEdge gE01 0)) 7

/-- Everything about a graph state that is observable through the public
handle interface: the node list with each node's record and the records of
its rotation entries, the edge list with each edge's record and its two
half-edge records, and the hidden-edge list.  Id counters and table sizes
are excluded (they only grow). -/
def visible (g : Graph) :
    List (Nat × Option NodeElement × List (Option AdjElement)) ×
    List (Nat × Option EdgeElement × Option AdjElement × Option AdjElement) × List Nat :=
  (g.nodes.map (fun n => (n, g.nodeA n, (g.rotOf n).map g.adjA)),
   g.edges.map (fun e => (e, g.edgeA e, g.adjA (g.aSrcOf e), g.adjA (g.aTgtOf e))),
   g.m_hiddenEdges)

/-- Recognizer for node-table growth events. -/
def Event.isNodeTableGrown : Event → Bool
  | .nodeTableGrown _ _ => true
  | _ => false

/-- Checker for the 17-node growth scenario: every node-table-growth event
in the trace reports the new capacity 32, and its snapshot — the state at
the moment the enlarge callbacks have run — already shows every registered
node array at capacity 32 while only 16 nodes exist (so every array was
enlarged before the 17th node was created). -/
def grown17OK : Event → Bool
  | .nodeTableGrown cap snap =>
      cap == 32 && snap.m_regNodeArrays.all (fun r => r.cap == 32) &&
      snap.nodes.length == 16 && snap.m_nodeIdCount == 16
  | _ => true

/-! ## Lemmas and theorems -/

@[simp] theorem fupd_same (f : Nat → Option α) (k : Nat) (v : α) : fupd f k v k = some v := by
  simp [fupd]

theorem fupd_ne (f : Nat → Option α) {m k : Nat} (v : α) (h : m ≠ k) : fupd f k v m = f m := by
  simp [fupd, h]

theorem updN_eq (g : Graph) (n : Nat) (f : NodeElement → NodeElement) :
    g.updN n f = { g with nodeA := fun m => if m = n then (g.nodeA n).map f else g.nodeA m } := by
  unfold Graph.updN
  cases h : g.nodeA n with
  | none =>
    show g = _
    have hfn : (fun m => if m = n then Option.map f none else g.nodeA m) = g.nodeA := by
      funext m
      by_cases hm : m = n
      · subst hm; simp [h]
      · simp [hm]
    rw [hfn]
  | some N =>
    show ({ g with nodeA := fupd g.nodeA n (f N) } : Graph) = _
    have hfn : fupd g.nodeA n (f N) =
        fun m => if m = n then Option.map f (some N) else g.nodeA m := by
      funext m
      by_cases hm : m = n
      · subst hm; simp [fupd]
      · simp [fupd, hm]
    rw [hfn]

theorem updE_eq (g : Graph) (e : Nat) (f : EdgeElement → EdgeElement) :
    g.updE e f = { g with edgeA := fun m => if m = e then (g.edgeA e).map f else g.edgeA m } := by
  unfold Graph.updE
  cases h : g.edgeA e with
  | none =>
    show g = _
    have hfn : (fun m => if m = e then Option.map f none else g.edgeA m) = g.edgeA := by
      funext m
      by_cases hm : m = e
      · subst hm; simp [h]
      · simp [hm]
    rw [hfn]
  | some E =>
    show ({ g with edgeA := fupd g.edgeA e (f E) } : Graph) = _
    have hfn : fupd g.edgeA e (f E) =
        fun m => if m = e then Option.map f (some E) else g.edgeA m := by
      funext m
      by_cases hm : m = e
      · subst hm; simp [fupd]
      · simp [fupd, hm]
    rw [hfn]

theorem updA_eq (g : Graph) (a : Nat) (f : AdjElement → AdjElement) :
    g.updA a f = { g with adjA := fun m => if m = a then (g.adjA a).map f else g.adjA m } := by
  unfold Graph.updA
  cases h : g.adjA a with
  | none =>
    show g = _
    have hfn : (fun m => if m = a then Option.map f none else g.adjA m) = g.adjA := by
      funext m
      by_cases hm : m = a
      · subst hm; simp [h]
      · simp [hm]
    rw [hfn]
  | some A =>
    show ({ g with adjA := fupd g.adjA a (f A) } : Graph) = _
    have hfn : fupd g.adjA a (f A) =
        fun m => if m = a then Option.map f (some A) else g.adjA m := by
      funext m
      by_cases hm : m = a
      · subst hm; simp [fupd]
      · simp [fupd, hm]
    rw [hfn]

theorem nextPower2_bounds (t c : Nat) (ht : 0 < t) :
    t ≤ nextPower2 t c ∧ c < nextPower2 t c := by
  rw [nextPower2, dif_neg (by omega : ¬ t = 0)]
  by_cases hle : t ≤ c
  · rw [if_pos hle]
    have ih := nextPower2_bounds (2 * t) c (by omega)
    constructor <;> omega
  · rw [if_neg hle]
    constructor <;> omega
termination_by c + 1 - t
decreasing_by omega

theorem nextPower2_le_two_mul (t c : Nat) (ht : 0 < t) (hc : t ≤ c) :
    nextPower2 t c ≤ 2 * c := by
  rw [nextPower2, dif_neg (by omega : ¬ t = 0), if_pos hc]
  by_cases h2 : 2 * t ≤ c
  · exact nextPower2_le_two_mul (2 * t) c (by omega) h2
  · rw [nextPower2, dif_neg (by omega : ¬ 2 * t = 0), if_neg h2]
    omega
termination_by c + 1 - t
decreasing_by omega

theorem nextPower2_pow2aux (k c : Nat) : isPow2 (nextPower2 (2 ^ k) c) := by
  have hpos : 0 < (2:Nat) ^ k := by positivity
  rw [nextPower2, dif_neg (by omega : ¬ (2:Nat) ^ k = 0)]
  by_cases hle : 2 ^ k ≤ c
  · rw [if_pos hle]
    have h2 : (2:Nat) * 2 ^ k = 2 ^ (k + 1) := by ring
    rw [h2]
    exact nextPower2_pow2aux (k + 1) c
  · rw [if_neg hle]
    exact ⟨k, rfl⟩
termination_by c + 1 - 2 ^ k
decreasing_by
  have h2 : 0 < (2:Nat) ^ k := by positivity
  have h3 : (2:Nat) ^ (k + 1) = 2 * 2 ^ k := by ring
  omega

theorem nextPower2_pow2 (t c : Nat) (h : isPow2 t) : isPow2 (nextPower2 t c) := by
  obtain ⟨k, rfl⟩ := h
  exact nextPower2_pow2aux k c

theorem tSig_updN (g : Graph) (n : Nat) (f : NodeElement → NodeElement) :
    tSig (g.updN n f) = tSig g := by rw [updN_eq]; rfl

theorem tSig_updE (g : Graph) (e : Nat) (f : EdgeElement → EdgeElement) :
    tSig (g.updE e f) = tSig g := by rw [updE_eq]; rfl

theorem tSig_updA (g : Graph) (a : Nat) (f : AdjElement → AdjElement) :
    tSig (g.updA a f) = tSig g := by rw [updA_eq]; rfl

theorem tSig_delEdge (g : Graph) (e : Nat) : tSig (g.delEdge e).1 = tSig g := by
  unfold Graph.delEdge
  split
  · simp [tSig, updN_eq]
  · rfl

theorem tSig_delNodeLoop (v : Nat) :
    ∀ (fuel : Nat) (g : Graph), tSig (Graph.delNodeLoop g v fuel).1 = tSig g
  | 0, g => rfl
  | fuel+1, g => by
    unfold Graph.delNodeLoop
    cases h : (g.rotOf v).head? with
    | none => rfl
    | some a =>
      simp only
      rw [tSig_delNodeLoop v fuel, tSig_delEdge]

theorem tSig_delNode (g : Graph) (v : Nat) : tSig (g.delNode v).1 = tSig g := by
  unfold Graph.delNode
  split
  · have h := tSig_delNodeLoop v (g.rotOf v).length g
    simpa [tSig] using h
  · rfl

theorem tSig_hideEdge (g : Graph) (e : Nat) : tSig (g.hideEdge e) = tSig g := by
  unfold Graph.hideEdge
  split
  · simp [tSig, updN_eq]
  · rfl

theorem tSig_restoreEdge (g : Graph) (e : Nat) : tSig (g.restoreEdge e) = tSig g := by
  unfold Graph.restoreEdge
  split
  · simp [tSig, updN_eq]
  · rfl

theorem tSig_restoreFold :
    ∀ (l : List Nat) (g : Graph), tSig (l.foldl Graph.restoreEdge g) = tSig g
  | [], g => rfl
  | e :: l, g => by
    rw [List.foldl_cons, tSig_restoreFold l, tSig_restoreEdge]

theorem tSig_restoreAll (g : Graph) : tSig g.restoreAllEdges = tSig g :=
  tSig_restoreFold g.m_hiddenEdges.reverse g

theorem tSig_reverseEdge (g : Graph) (e : Nat) : tSig (g.reverseEdge e) = tSig g := by
  unfold Graph.reverseEdge
  split
  · simp [tSig, updN_eq, updE_eq]
  · rfl

theorem tSig_reverseFold :
    ∀ (l : List Nat) (g : Graph), tSig (l.foldl Graph.reverseEdge g) = tSig g
  | [], g => rfl
  | e :: l, g => by
    rw [List.foldl_cons, tSig_reverseFold l, tSig_reverseEdge]

theorem tSig_reverseAll (g : Graph) : tSig g.reverseAllEdges = tSig g :=
  tSig_reverseFold g.edges g

theorem tSig_moveSourceAdj (g : Graph) (e a : Nat) (d : Direction) :
    tSig (g.moveSourceAdj e a d) = tSig g := by
  unfold Graph.moveSourceAdj
  split
  · simp [tSig, updN_eq, updE_eq, updA_eq]
  · rfl

theorem tSig_moveTargetAdj (g : Graph) (e a : Nat) (d : Direction) :
    tSig (g.moveTargetAdj e a d) = tSig g := by
  unfold Graph.moveTargetAdj
  split
  · simp [tSig, updN_eq, updE_eq, updA_eq]
  · rfl

theorem tSig_contractLoop (v w aS aT : Nat) :
    ∀ (fuel cur : Nat) (g : Graph), tSig (Graph.contractLoop g v w aS aT cur fuel) = tSig g
  | 0, _, g => rfl
  | fuel+1, cur, g => by
    unfold Graph.contractLoop
    split
    · rfl
    · split
      · rw [tSig_contractLoop v w aS aT fuel]
      · rw [tSig_contractLoop v w aS aT fuel]
        split
        · rw [tSig_moveSourceAdj]
        · rw [tSig_moveTargetAdj]

theorem tSig_contract (g : Graph) (e : Nat) : tSig (g.contract e).1 = tSig g := by
  unfold Graph.contract
  split
  · rw [tSig_delNode, tSig_contractLoop]
  · rfl

theorem tSig_unsplit (g : Graph) (eIn eOut : Nat) : tSig (g.unsplit eIn eOut).1 = tSig g := by
  unfold Graph.unsplit
  split
  · simp [tSig, updN_eq, updE_eq, updA_eq]
  · rfl

theorem tSig_registerStructure (g : Graph) (oid : Nat) :
    tSig (g.registerStructure oid) = tSig g := rfl

theorem TableInv_congr {g g' : Graph} (h : tSig g' = tSig g) (hI : TableInv g) :
    TableInv g' := by
  unfold TableInv at *
  rw [h]
  exact hI

theorem tSig_newNode (g : Graph) :
    tSig (g.newNode).1 =
      if (tSig g).nIdC = (tSig g).nTS then
        { tSig g with
          nIdC := (tSig g).nIdC + 1
          nTS := 2 * (tSig g).nTS
          regN := (tSig g).regN.map (fun r => { r with cap := 2 * (tSig g).nTS }) }
      else { tSig g with nIdC := (tSig g).nIdC + 1 } := by
  by_cases hg : g.m_nodeIdCount = g.m_nodeArrayTableSize <;>
    simp [Graph.newNode, tSig, hg]

theorem TableInv_newNode (g : Graph) (h : TableInv g) : TableInv (g.newNode).1 := by
  unfold TableInv at *
  rw [tSig_newNode]
  by_cases hg : (tSig g).nIdC = (tSig g).nTS
  · rw [if_pos hg]
    revert h
    unfold tableProps goodTable
    dsimp only
    rintro ⟨⟨⟨k, hk⟩, h16, hc, hmin⟩, hE, hrN, hrE, hrA⟩
    refine ⟨⟨⟨k + 1, ?_⟩, ?_, ?_, Or.inr ?_⟩, hE, ?_, hrE, hrA⟩
    · rw [pow_succ, ← hk]; ring
    · omega
    · omega
    · omega
    · intro r hr
      obtain ⟨x, hx, rfl⟩ := List.mem_map.1 hr
      exact le_refl _
  · rw [if_neg hg]
    revert h
    unfold tableProps goodTable
    dsimp only
    rintro ⟨⟨⟨k, hk⟩, h16, hc, hmin⟩, hE, hrN, hrE, hrA⟩
    refine ⟨⟨⟨k, hk⟩, h16, by omega, ?_⟩, hE, hrN, hrE, hrA⟩
    rcases hmin with h1 | h1
    · exact Or.inl h1
    · exact Or.inr (by omega)

theorem tSig_newNodeIdx (g : Graph) (idx : Nat) :
    tSig (g.newNodeIdx idx).1 =
      if (tSig g).nIdC ≤ idx then
        (if (tSig g).nTS ≤ idx then
          { tSig g with
            nIdC := idx + 1
            nTS := nextPower2 (tSig g).nTS idx
            regN := (tSig g).regN.map (fun r => { r with cap := nextPower2 (tSig g).nTS idx }) }
        else { tSig g with nIdC := idx + 1 })
      else tSig g := by
  by_cases hb : g.m_nodeIdCount ≤ idx
  · by_cases hg : g.m_nodeArrayTableSize ≤ idx <;>
      simp [Graph.newNodeIdx, tSig, hb, hg]
  · simp [Graph.newNodeIdx, tSig, hb]

theorem TableInv_newNodeIdx (g : Graph) (idx : Nat) (h : TableInv g) :
    TableInv (g.newNodeIdx idx).1 := by
  unfold TableInv at *
  rw [tSig_newNodeIdx]
  by_cases hb : (tSig g).nIdC ≤ idx
  · rw [if_pos hb]
    by_cases hg : (tSig g).nTS ≤ idx
    · rw [if_pos hg]
      have hpos : 0 < (tSig g).nTS := by
        have := h.1.2.1
        omega
      have hb1 := nextPower2_bounds (tSig g).nTS idx hpos
      have hb2 := nextPower2_le_two_mul (tSig g).nTS idx hpos hg
      have hb3 := nextPower2_pow2 (tSig g).nTS idx h.1.1
      revert h
      unfold tableProps goodTable
      dsimp only
      rintro ⟨⟨_, h16, hc, hmin⟩, hE, hrN, hrE, hrA⟩
      refine ⟨⟨hb3, by omega, by omega, Or.inr (by omega)⟩, hE, ?_, hrE, hrA⟩
      intro r hr
      obtain ⟨x, hx, rfl⟩ := List.mem_map.1 hr
      exact le_refl _
    · rw [if_neg hg]
      revert h
      unfold tableProps goodTable
      dsimp only
      rintro ⟨⟨hp, h16, hc, hmin⟩, hE, hrN, hrE, hrA⟩
      refine ⟨⟨hp, h16, by omega, ?_⟩, hE, hrN, hrE, hrA⟩
      rcases hmin with h1 | h1
      · exact Or.inl h1
      · exact Or.inr (by omega)
  · rw [if_neg hb]
    exact h

theorem tSig_createEdgeElement (g : Graph) (v w aS aT : Nat) :
    tSig (g.createEdgeElement v w aS aT).1 =
      if (tSig g).eIdC = (tSig g).eTS then
        { tSig g with
          eIdC := (tSig g).eIdC + 1
          eTS := 2 * (tSig g).eTS
          regE := (tSig g).regE.map (fun r => { r with cap := 2 * (tSig g).eTS })
          regA := (tSig g).regA.map (fun r => { r with cap := 2 * (2 * (tSig g).eTS) }) }
      else { tSig g with eIdC := (tSig g).eIdC + 1 } := by
  by_cases hg : g.m_edgeIdCount = g.m_edgeArrayTableSize <;>
    simp [Graph.createEdgeElement, tSig, updA_eq, hg]

theorem TableInv_createEdgeElement (g : Graph) (v w aS aT : Nat) (h : TableInv g) :
    TableInv (g.createEdgeElement v w aS aT).1 := by
  unfold TableInv at *
  rw [tSig_createEdgeElement]
  by_cases hg : (tSig g).eIdC = (tSig g).eTS
  · rw [if_pos hg]
    revert h
    unfold tableProps goodTable
    dsimp only
    rintro ⟨hN, ⟨⟨k, hk⟩, h16, hc, hmin⟩, hrN, hrE, hrA⟩
    refine ⟨hN, ⟨⟨k + 1, ?_⟩, ?_, ?_, Or.inr ?_⟩, hrN, ?_, ?_⟩
    · rw [pow_succ, ← hk]; ring
    · omega
    · omega
    · omega
    · intro r hr
      obtain ⟨x, hx, rfl⟩ := List.mem_map.1 hr
      exact le_refl _
    · intro r hr
      obtain ⟨x, hx, rfl⟩ := List.mem_map.1 hr
      exact le_refl _
  · rw [if_neg hg]
    revert h
    unfold tableProps goodTable
    dsimp only
    rintro ⟨hN, ⟨⟨k, hk⟩, h16, hc, hmin⟩, hrN, hrE, hrA⟩
    refine ⟨hN, ⟨⟨k, hk⟩, h16, by omega, ?_⟩, hrN, hrE, hrA⟩
    rcases hmin with h1 | h1
    · exact Or.inl h1
    · exact Or.inr (by omega)

theorem TableInv_newEdge (g : Graph) (v w : Nat) (h : TableInv g) :
    TableInv (g.newEdge v w).1 := by
  unfold Graph.newEdge
  split
  · simp only
    apply TableInv_congr (g := ((_ : Graph).createEdgeElement v w _ _).1)
    · rw [tSig_updA, tSig_updA]
    · apply TableInv_createEdgeElement
      apply TableInv_congr (g := g) _ h
      rw [tSig_updN, tSig_updN]
      rfl
  · exact h

theorem tSig_newEdgeIdx (g : Graph) (v w idx : Nat) :
    tSig (g.newEdgeIdx v w idx).1 =
      if v ∈ g.nodes ∧ w ∈ g.nodes then
        (if (tSig g).eIdC ≤ idx then
          (if (tSig g).eTS ≤ idx then
            { tSig g with
              eIdC := idx + 1
              eTS := nextPower2 (tSig g).eTS idx
              regE := (tSig g).regE.map (fun r => { r with cap := nextPower2 (tSig g).eTS idx })
              regA := (tSig g).regA.map
                (fun r => { r with cap := 2 * nextPower2 (tSig g).eTS idx }) }
          else { tSig g with eIdC := idx + 1 })
        else tSig g)
      else tSig g := by
  by_cases hguard : v ∈ g.nodes ∧ w ∈ g.nodes
  · by_cases hb : g.m_edgeIdCount ≤ idx
    · by_cases hg : g.m_edgeArrayTableSize ≤ idx <;>
        simp [Graph.newEdgeIdx, tSig, updN_eq, updA_eq, hguard, hb, hg]
    · simp [Graph.newEdgeIdx, tSig, updN_eq, updA_eq, hguard, hb]
  · simp [Graph.newEdgeIdx, tSig, hguard]

theorem TableInv_newEdgeIdx (g : Graph) (v w idx : Nat) (h : TableInv g) :
    TableInv (g.newEdgeIdx v w idx).1 := by
  unfold TableInv at *
  rw [tSig_newEdgeIdx]
  by_cases hguard : v ∈ g.nodes ∧ w ∈ g.nodes
  · rw [if_pos hguard]
    by_cases hb : (tSig g).eIdC ≤ idx
    · rw [if_pos hb]
      by_cases hg : (tSig g).eTS ≤ idx
      · rw [if_pos hg]
        have hpos : 0 < (tSig g).eTS := by
          have := h.2.1.2.1
          omega
        have hb1 := nextPower2_bounds (tSig g).eTS idx hpos
        have hb2 := nextPower2_le_two_mul (tSig g).eTS idx hpos hg
        have hb3 := nextPower2_pow2 (tSig g).eTS idx h.2.1.1
        revert h
        unfold tableProps goodTable
        dsimp only
        rintro ⟨hN, ⟨_, h16, hc, hmin⟩, hrN, hrE, hrA⟩
        refine ⟨hN, ⟨hb3, by omega, by omega, Or.inr (by omega)⟩, hrN, ?_, ?_⟩
        · intro r hr
          obtain ⟨x, hx, rfl⟩ := List.mem_map.1 hr
          exact le_refl _
        · intro r hr
          obtain ⟨x, hx, rfl⟩ := List.mem_map.1 hr
          exact le_refl _
      · rw [if_neg hg]
        revert h
        unfold tableProps goodTable
        dsimp only
        rintro ⟨hN, ⟨hp, h16, hc, hmin⟩, hrN, hrE, hrA⟩
        refine ⟨hN, ⟨hp, h16, by omega, ?_⟩, hrN, hrE, hrA⟩
        rcases hmin with h1 | h1
        · exact Or.inl h1
        · exact Or.inr (by omega)
    · rw [if_neg hb]
      exact h
  · rw [if_neg hguard]
    exact h

theorem TableInv_split (g : Graph) (e : Nat) (h : TableInv g) : TableInv (g.split e).1 := by
  unfold Graph.split
  split
  · simp only
    apply TableInv_congr (g := ((_ : Graph).createEdgeElement _ _ _ _).1)
    · rw [tSig_updE, tSig_updA, tSig_updA, tSig_updA]
    · apply TableInv_createEdgeElement
      apply TableInv_congr (g := (g.newNode).1) _ (TableInv_newNode g h)
      simp [tSig, updN_eq, updA_eq]
  · exact h

theorem TableInv_registerNodeArray (g : Graph) (h : TableInv g) :
    TableInv g.registerNodeArray := by
  obtain ⟨hN, hE, hrN, hrE, hrA⟩ := h
  refine ⟨hN, hE, ?_, hrE, hrA⟩
  intro r hr
  rcases List.mem_append.1 hr with h1 | h1
  · exact hrN r h1
  · rw [List.mem_singleton.1 h1]
    exact le_refl _

theorem TableInv_registerEdgeArray (g : Graph) (h : TableInv g) :
    TableInv g.registerEdgeArray := by
  obtain ⟨hN, hE, hrN, hrE, hrA⟩ := h
  refine ⟨hN, hE, hrN, ?_, hrA⟩
  intro r hr
  rcases List.mem_append.1 hr with h1 | h1
  · exact hrE r h1
  · rw [List.mem_singleton.1 h1]
    exact le_refl _

theorem TableInv_registerAdjArray (g : Graph) (h : TableInv g) :
    TableInv g.registerAdjArray := by
  obtain ⟨hN, hE, hrN, hrE, hrA⟩ := h
  refine ⟨hN, hE, hrN, hrE, ?_⟩
  intro r hr
  rcases List.mem_append.1 hr with h1 | h1
  · exact hrA r h1
  · rw [List.mem_singleton.1 h1]
    exact le_refl _

theorem TableInv_applyOp (o : Op) (g : Graph) (h : TableInv g) : TableInv (applyOp o g) := by
  cases o with
  | opNewNode => exact TableInv_newNode g h
  | opNewNodeIdx idx => exact TableInv_newNodeIdx g idx h
  | opNewEdge v w => exact TableInv_newEdge g v w h
  | opNewEdgeIdx v w idx => exact TableInv_newEdgeIdx g v w idx h
  | opDelNode v => exact TableInv_congr (tSig_delNode g v) h
  | opDelEdge e => exact TableInv_congr (tSig_delEdge g e) h
  | opSplit e => exact TableInv_split g e h
  | opUnsplit eIn eOut => exact TableInv_congr (tSig_unsplit g eIn eOut) h
  | opHideEdge e => exact TableInv_congr (tSig_hideEdge g e) h
  | opRestoreEdge e => exact TableInv_congr (tSig_restoreEdge g e) h
  | opRestoreAll => exact TableInv_congr (tSig_restoreAll g) h
  | opReverseEdge e => exact TableInv_congr (tSig_reverseEdge g e) h
  | opReverseAll => exact TableInv_congr (tSig_reverseAll g) h
  | opMoveSource e a d => exact TableInv_congr (tSig_moveSourceAdj g e a d) h
  | opMoveTarget e a d => exact TableInv_congr (tSig_moveTargetAdj g e a d) h
  | opContract e => exact TableInv_congr (tSig_contract g e) h
  | opRegisterNodeArray => exact TableInv_registerNodeArray g h
  | opRegisterEdgeArray => exact TableInv_registerEdgeArray g h
  | opRegisterAdjArray => exact TableInv_registerAdjArray g h
  | opRegisterStructure oid => exact TableInv_congr (tSig_registerStructure g oid) h

/-- C3 counterexample: after exactly 16 `newNode` calls on a fresh graph
the node id count and the node table size are both 16, so the table size
does not strictly exceed the id count as the claim demands (the smallest
power of two exceeding 16 would be 32). -/
theorem C3_counterexample :
    (gGrow 16).m_nodeArrayTableSize = 16 ∧ (gGrow 16).m_nodeIdCount = 16 ∧
    ¬ claimedTable (gGrow 16).m_nodeArrayTableSize (gGrow 16).m_nodeIdCount := by
  have h1 : (gGrow 16).m_nodeArrayTableSize = 16 := by decide
  have h2 : (gGrow 16).m_nodeIdCount = 16 := by decide
  refine ⟨h1, h2, ?_⟩
  rintro ⟨-, -, hlt⟩
  rw [h1, h2] at hlt
  omega

/-- C3 (amended): after every public operation the node (resp. edge) table
size is the smallest power of two that is at least 16 and at least (rather
than strictly exceeding) the current id count, and every registered array
provides at least the table size (half-edge arrays twice the edge table
size); on a fresh graph with one registered node array, inserting
`MIN_NODE_TABLE_SIZE + 1 = 17` nodes triggers exactly one doubling of the
node table from 16 to 32, and at the moment of the growth callback every
registered node array already has capacity 32 while only 16 nodes exist. -/
theorem C3_table_growth_amended :
    TableInv emptyGraph ∧
    (∀ (o : Op) (g : Graph), TableInv g → TableInv (applyOp o g)) ∧
    (gGrow 17).m_nodeIdCount = 17 ∧
    (gGrow 17).m_nodeArrayTableSize = 32 ∧
    (∀ r ∈ (gGrow 17).m_regNodeArrays, r.cap = 32) ∧
    (runTr (List.replicate 17 Op.opNewNode) emptyGraph.registerNodeArray).2.countP
      Event.isNodeTableGrown = 1 ∧
    (runTr (List.replicate 17 Op.opNewNode) emptyGraph.registerNodeArray).2.all
      grown17OK = true := by
  refine ⟨?_, TableInv_applyOp, by decide, by decide, by decide, by decide, by decide⟩
  refine ⟨⟨⟨4, by decide⟩, by decide, by decide, Or.inl (by decide)⟩,
    ⟨⟨4, by decide⟩, by decide, by decide, Or.inl (by decide)⟩, ?_, ?_, ?_⟩ <;>
    intro r hr <;> exact absurd hr (List.not_mem_nil r)

/-- Witness for C3 at a concrete input: the preserved invariant holds after
one `newNode` on the empty graph. -/
theorem C3_table_growth_witness : TableInv (applyOp Op.opNewNode emptyGraph) :=
  C3_table_growth_amended.2.1 Op.opNewNode emptyGraph C3_table_growth_amended.1

theorem idSigE_eq_cases {g g' : Graph} {e : Nat} (h : g'.idSigE e = g.idSigE e) :
    g'.aSrcOf e = g.aSrcOf e ∧ g'.aTgtOf e = g.aTgtOf e ∧ g'.idxOfE e = g.idxOfE e ∧
      (g'.edgeA e).isSome = (g.edgeA e).isSome := by
  unfold Graph.idSigE at h
  unfold Graph.aSrcOf Graph.aTgtOf Graph.idxOfE
  cases h1 : g.edgeA e <;> cases h2 : g'.edgeA e <;> rw [h1, h2] at h <;> simp_all

theorem idSigA_eq_cases {g g' : Graph} {a : Nat} (h : g'.idSigA a = g.idSigA a) :
    g'.aIdOf a = g.aIdOf a ∧ (g'.adjA a).isSome = (g.adjA a).isSome := by
  unfold Graph.idSigA at h
  unfold Graph.aIdOf
  cases h1 : g.adjA a <;> cases h2 : g'.adjA a <;> rw [h1, h2] at h <;> simp_all

theorem edgeIdsOK_congr {g g' : Graph} {e : Nat} (he : g'.idSigE e = g.idSigE e)
    (haS : g'.idSigA (g.aSrcOf e) = g.idSigA (g.aSrcOf e))
    (haT : g'.idSigA (g.aTgtOf e) = g.idSigA (g.aTgtOf e)) (h : Graph.edgeIdsOK g e) :
    Graph.edgeIdsOK g' e := by
  obtain ⟨c1, c2, c3, c4⟩ := idSigE_eq_cases he
  obtain ⟨haS1, haS2⟩ := idSigA_eq_cases haS
  obtain ⟨haT1, haT2⟩ := idSigA_eq_cases haT
  obtain ⟨h1, h2, h3, h4, h5⟩ := h
  refine ⟨?_, ?_, ?_, ?_, ?_⟩
  · rw [c4]; exact h1
  · rw [c1, haS2]; exact h2
  · rw [c2, haT2]; exact h3
  · rw [c1, c2]; exact h4
  · rw [c1, c2, haS1, haT1, c3]; exact h5

theorem IdWF_mono {g g' : Graph} (hl : List.Subperm (liveEdges g') (liveEdges g))
    (he : ∀ e, g'.idSigE e = g.idSigE e) (ha : ∀ a, g'.idSigA a = g.idSigA a)
    (hnE : g.nextEdge ≤ g'.nextEdge) (hnA : g.nextAdj ≤ g'.nextAdj)
    (h : Graph.IdWF g) : Graph.IdWF g' := by
  obtain ⟨hnd, hmem, hpair⟩ := h
  refine ⟨?_, ?_, ?_⟩
  · obtain ⟨l, hp, hs⟩ := hl
    exact hp.nodup_iff.mp (hs.nodup hnd)
  · intro e heM
    have heG := hl.subset heM
    obtain ⟨b1, b2, b3, b4⟩ := hmem e heG
    obtain ⟨c1, c2, c3, _⟩ := idSigE_eq_cases (he e)
    exact ⟨by omega, by rw [c1]; omega, by rw [c2]; omega,
      edgeIdsOK_congr (he e) (ha _) (ha _) b4⟩
  · intro e1 h1 e2 h2 hne
    have hp := hpair e1 (hl.subset h1) e2 (hl.subset h2) hne
    obtain ⟨c1a, c1b, _, _⟩ := idSigE_eq_cases (he e1)
    obtain ⟨c2a, c2b, _, _⟩ := idSigE_eq_cases (he e2)
    rw [c1a, c1b, c2a, c2b]
    exact hp

theorem erase_append_singleton_perm {e : Nat} {l : List Nat} (hin : e ∈ l) :
    List.Perm (l.erase e ++ [e]) l :=
  (List.perm_append_singleton e _).trans (List.perm_cons_erase hin).symm

theorem hide_perm (A H : List Nat) (e : Nat) (hin : e ∈ A) :
    List.Subperm (A.erase e ++ (H ++ [e])) (A ++ H) := by
  apply List.Perm.subperm
  have s1 : List.Perm (A.erase e ++ (H ++ [e])) (A.erase e ++ ([e] ++ H)) :=
    List.Perm.append_left _ List.perm_append_comm
  have s2 : A.erase e ++ ([e] ++ H) = (A.erase e ++ [e]) ++ H :=
    (List.append_assoc _ _ _).symm
  have s3 : List.Perm ((A.erase e ++ [e]) ++ H) (A ++ H) :=
    List.Perm.append_right _ (erase_append_singleton_perm hin)
  have s4 : List.Perm (A.erase e ++ ([e] ++ H)) (A ++ H) := by rw [s2]; exact s3
  exact s1.trans s4

theorem restore_perm (A H : List Nat) (e : Nat) (hin : e ∈ H) :
    List.Subperm ((A ++ [e]) ++ H.erase e) (A ++ H) := by
  apply List.Perm.subperm
  have s2 : (A ++ [e]) ++ H.erase e = A ++ ([e] ++ H.erase e) := List.append_assoc _ _ _
  have s1 : List.Perm (A ++ ([e] ++ H.erase e)) (A ++ (H.erase e ++ [e])) :=
    List.Perm.append_left _ List.perm_append_comm
  have s3 : List.Perm (A ++ (H.erase e ++ [e])) (A ++ H) :=
    List.Perm.append_left _ (erase_append_singleton_perm hin)
  rw [s2]
  exact s1.trans s3

theorem IdWF_newNode (g : Graph) (h : Graph.IdWF g) : Graph.IdWF (g.newNode).1 := by
  refine IdWF_mono ?_ ?_ ?_ ?_ ?_ h
  · have hl : liveEdges (g.newNode).1 = liveEdges g := by
      by_cases hg : g.m_nodeIdCount = g.m_nodeArrayTableSize <;>
        simp [Graph.newNode, liveEdges, hg]
    rw [hl]
  · intro e
    by_cases hg : g.m_nodeIdCount = g.m_nodeArrayTableSize <;>
      simp [Graph.newNode, Graph.idSigE, hg]
  · intro a
    by_cases hg : g.m_nodeIdCount = g.m_nodeArrayTableSize <;>
      simp [Graph.newNode, Graph.idSigA, hg]
  · by_cases hg : g.m_nodeIdCount = g.m_nodeArrayTableSize <;>
      simp [Graph.newNode, hg]
  · by_cases hg : g.m_nodeIdCount = g.m_nodeArrayTableSize <;>
      simp [Graph.newNode, hg]

theorem IdWF_newNodeIdx (g : Graph) (idx : Nat) (h : Graph.IdWF g) :
    Graph.IdWF (g.newNodeIdx idx).1 := by
  refine IdWF_mono ?_ ?_ ?_ ?_ ?_ h
  · have hl : liveEdges (g.newNodeIdx idx).1 = liveEdges g := by
      by_cases hb : g.m_nodeIdCount ≤ idx
      · by_cases hg : g.m_nodeArrayTableSize ≤ idx <;>
          simp [Graph.newNodeIdx, liveEdges, hb, hg]
      · simp [Graph.newNodeIdx, liveEdges, hb]
    rw [hl]
  · intro e
    by_cases hb : g.m_nodeIdCount ≤ idx
    · by_cases hg : g.m_nodeArrayTableSize ≤ idx <;>
        simp [Graph.newNodeIdx, Graph.idSigE, hb, hg]
    · simp [Graph.newNodeIdx, Graph.idSigE, hb]
  · intro a
    by_cases hb : g.m_nodeIdCount ≤ idx
    · by_cases hg : g.m_nodeArrayTableSize ≤ idx <;>
        simp [Graph.newNodeIdx, Graph.idSigA, hb, hg]
    · simp [Graph.newNodeIdx, Graph.idSigA, hb]
  · by_cases hb : g.m_nodeIdCount ≤ idx
    · by_cases hg : g.m_nodeArrayTableSize ≤ idx <;> simp [Graph.newNodeIdx, hb, hg]
    · simp [Graph.newNodeIdx, hb]
  · by_cases hb : g.m_nodeIdCount ≤ idx
    · by_cases hg : g.m_nodeArrayTableSize ≤ idx <;> simp [Graph.newNodeIdx, hb, hg]
    · simp [Graph.newNodeIdx, hb]

theorem IdWF_registerNodeArray (g : Graph) (h : Graph.IdWF g) :
    Graph.IdWF g.registerNodeArray := h

theorem IdWF_registerEdgeArray (g : Graph) (h : Graph.IdWF g) :
    Graph.IdWF g.registerEdgeArray := h

theorem IdWF_registerAdjArray (g : Graph) (h : Graph.IdWF g) :
    Graph.IdWF g.registerAdjArray := h

theorem IdWF_registerStructure (g : Graph) (oid : Nat) (h : Graph.IdWF g) :
    Graph.IdWF (g.registerStructure oid) := h

theorem IdWF_delEdge (g : Graph) (e : Nat) (h : Graph.IdWF g) :
    Graph.IdWF (g.delEdge e).1 := by
  refine IdWF_mono ?_ ?_ ?_ ?_ ?_ h
  · unfold Graph.delEdge
    split
    · simp only [updN_eq, liveEdges]
      exact ((List.erase_sublist e g.edges).append (List.Sublist.refl _)).subperm
    · exact List.Subperm.refl _
  · intro e'
    unfold Graph.delEdge
    split <;> simp [Graph.idSigE, updN_eq]
  · intro a
    unfold Graph.delEdge
    split <;> simp [Graph.idSigA, updN_eq]
  · unfold Graph.delEdge
    split <;> simp [updN_eq]
  · unfold Graph.delEdge
    split <;> simp [updN_eq]

theorem IdWF_delNodeLoop (v : Nat) :
    ∀ (fuel : Nat) (g : Graph), Graph.IdWF g → Graph.IdWF (Graph.delNodeLoop g v fuel).1
  | 0, g, h => h
  | fuel+1, g, h => by
    unfold Graph.delNodeLoop
    cases hh : (g.rotOf v).head? with
    | none => exact h
    | some a =>
      simp only
      exact IdWF_delNodeLoop v fuel _ (IdWF_delEdge g _ h)

theorem IdWF_delNode (g : Graph) (v : Nat) (h : Graph.IdWF g) :
    Graph.IdWF (g.delNode v).1 := by
  unfold Graph.delNode
  split
  · simp only
    refine IdWF_mono ?_ ?_ ?_ ?_ ?_ (IdWF_delNodeLoop v (g.rotOf v).length g h)
    · exact List.Subperm.refl _
    · intro e; rfl
    · intro a; rfl
    · exact le_refl _
    · exact le_refl _
  · exact h

theorem IdWF_hideEdge (g : Graph) (e : Nat) (h : Graph.IdWF g) :
    Graph.IdWF (g.hideEdge e) := by
  unfold Graph.hideEdge
  split
  next hin =>
    refine IdWF_mono ?_ ?_ ?_ ?_ ?_ h
    · simp only [updN_eq, liveEdges]
      exact hide_perm g.edges g.m_hiddenEdges e hin
    · intro e'; simp [Graph.idSigE, updN_eq]
    · intro a; simp [Graph.idSigA, updN_eq]
    · simp [updN_eq]
    · simp [updN_eq]
  next => exact h

theorem IdWF_restoreEdge (g : Graph) (e : Nat) (h : Graph.IdWF g) :
    Graph.IdWF (g.restoreEdge e) := by
  unfold Graph.restoreEdge
  split
  next hin =>
    refine IdWF_mono ?_ ?_ ?_ ?_ ?_ h
    · simp only [updN_eq, liveEdges]
      exact restore_perm g.edges g.m_hiddenEdges e hin
    · intro e'; simp [Graph.idSigE, updN_eq]
    · intro a; simp [Graph.idSigA, updN_eq]
    · simp [updN_eq]
    · simp [updN_eq]
  next => exact h

theorem IdWF_restoreFold :
    ∀ (l : List Nat) (g : Graph), Graph.IdWF g → Graph.IdWF (l.foldl Graph.restoreEdge g)
  | [], g, h => h
  | e :: l, g, h => by
    rw [List.foldl_cons]
    exact IdWF_restoreFold l _ (IdWF_restoreEdge g e h)

theorem IdWF_restoreAll (g : Graph) (h : Graph.IdWF g) : Graph.IdWF g.restoreAllEdges :=
  IdWF_restoreFold g.m_hiddenEdges.reverse g h

theorem IdWF_moveSourceAdj (g : Graph) (e a : Nat) (d : Direction) (h : Graph.IdWF g) :
    Graph.IdWF (g.moveSourceAdj e a d) := by
  unfold Graph.moveSourceAdj
  split
  · refine IdWF_mono ?_ ?_ ?_ ?_ ?_ h
    · simp only [updN_eq, updE_eq, updA_eq, liveEdges]
      exact List.Subperm.refl _
    · intro e'
      simp only [Graph.idSigE, updN_eq, updE_eq, updA_eq]
      by_cases he' : e' = e
      · subst he'
        simp only [if_pos rfl]
        cases g.edgeA e' <;> simp
      · simp [he']
    · intro b
      simp only [Graph.idSigA, updN_eq, updE_eq, updA_eq]
      by_cases hb : b = g.aSrcOf e
      · rw [if_pos hb]
        rw [hb]
        cases g.adjA (g.aSrcOf e) <;> simp
      · rw [if_neg hb]
    · simp [updN_eq, updE_eq, updA_eq]
    · simp [updN_eq, updE_eq, updA_eq]
  · exact h

theorem IdWF_moveTargetAdj (g : Graph) (e a : Nat) (d : Direction) (h : Graph.IdWF g) :
    Graph.IdWF (g.moveTargetAdj e a d) := by
  unfold Graph.moveTargetAdj
  split
  · refine IdWF_mono ?_ ?_ ?_ ?_ ?_ h
    · simp only [updN_eq, updE_eq, updA_eq, liveEdges]
      exact List.Subperm.refl _
    · intro e'
      simp only [Graph.idSigE, updN_eq, updE_eq, updA_eq]
      by_cases he' : e' = e
      · subst he'
        simp only [if_pos rfl]
        cases g.edgeA e' <;> simp
      · simp [he']
    · intro b
      simp only [Graph.idSigA, updN_eq, updE_eq, updA_eq]
      by_cases hb : b = g.aTgtOf e
      · rw [if_pos hb]
        rw [hb]
        cases g.adjA (g.aTgtOf e) <;> simp
      · rw [if_neg hb]
    · simp [updN_eq, updE_eq, updA_eq]
    · simp [updN_eq, updE_eq, updA_eq]
  · exact h

theorem IdWF_contractLoop (v w aS aT : Nat) :
    ∀ (fuel cur : Nat) (g : Graph), Graph.IdWF g →
      Graph.IdWF (Graph.contractLoop g v w aS aT cur fuel)
  | 0, _, g, h => h
  | fuel+1, cur, g, h => by
    unfold Graph.contractLoop
    split
    · exact h
    · split
      · exact IdWF_contractLoop v w aS aT fuel _ g h
      · show Graph.IdWF (Graph.contractLoop
          (if w = g.srcOf (g.aEdgeOf cur) then
            g.moveSourceAdj (g.aEdgeOf cur) aS Direction.before
          else g.moveTargetAdj (g.aEdgeOf cur) aS Direction.before)
          v w aS aT (g.cyclicSucc cur) fuel)
        split
        · exact IdWF_contractLoop v w aS aT fuel _ _ (IdWF_moveSourceAdj g _ aS _ h)
        · exact IdWF_contractLoop v w aS aT fuel _ _ (IdWF_moveTargetAdj g _ aS _ h)

theorem IdWF_contract (g : Graph) (e : Nat) (h : Graph.IdWF g) :
    Graph.IdWF (g.contract e).1 := by
  unfold Graph.contract
  split
  · exact IdWF_delNode _ _ (IdWF_contractLoop _ _ _ _ _ _ g h)
  · exact h

theorem idSigE_some {g : Graph} {e k aS aT : Nat}
    (h : g.idSigE e = some (k, aS, aT)) :
    (g.edgeA e).isSome ∧ g.idxOfE e = k ∧ g.aSrcOf e = aS ∧ g.aTgtOf e = aT := by
  unfold Graph.idSigE at h
  unfold Graph.idxOfE Graph.aSrcOf Graph.aTgtOf
  cases h1 : g.edgeA e <;> rw [h1] at h <;> simp_all

theorem idSigA_some {g : Graph} {a i : Nat} (h : g.idSigA a = some i) :
    (g.adjA a).isSome ∧ g.aIdOf a = i := by
  unfold Graph.idSigA at h
  unfold Graph.aIdOf
  cases h1 : g.adjA a <;> rw [h1] at h <;> simp_all

theorem nodup_append_fresh {A H : List Nat} {es : Nat}
    (hnd : (A ++ H).Nodup) (hes : es ∉ A ++ H) : ((A ++ [es]) ++ H).Nodup := by
  have hperm : List.Perm ((A ++ [es]) ++ H) (es :: (A ++ H)) := by
    have s1 : (A ++ [es]) ++ H = A ++ es :: H := List.append_assoc _ _ _
    rw [s1]
    exact List.perm_middle
  exact hperm.nodup_iff.mpr (List.nodup_cons.mpr ⟨hes, hnd⟩)

/-- Shared argument for attaching one fresh edge (`newEdge` both with and
without an explicit id): the new edge occupies the fresh edge slot, its two
half-edges the two fresh half-edge slots, carrying ids `2k` and `2k+1`. -/
theorem IdWF_attach {g g' : Graph} (k : Nat)
    (hedges : g'.edges = g.edges ++ [g.nextEdge])
    (hhid : g'.m_hiddenEdges = g.m_hiddenEdges)
    (hnE : g'.nextEdge = g.nextEdge + 1)
    (hnA : g.nextAdj + 2 ≤ g'.nextAdj)
    (hsigE : ∀ e', e' ≠ g.nextEdge → g'.idSigE e' = g.idSigE e')
    (hsigA : ∀ a, a < g.nextAdj → g'.idSigA a = g.idSigA a)
    (hnew : g'.idSigE g.nextEdge = some (k, g.nextAdj, g.nextAdj + 1))
    (hxS : g'.idSigA g.nextAdj = some (2 * k))
    (hxT : g'.idSigA (g.nextAdj + 1) = some (2 * k + 1))
    (h : Graph.IdWF g) : Graph.IdWF g' := by
  obtain ⟨hnd, hmem, hpair⟩ := h
  obtain ⟨n1, n2, n3, n4⟩ := idSigE_some hnew
  obtain ⟨sS1, sS2⟩ := idSigA_some hxS
  obtain ⟨sT1, sT2⟩ := idSigA_some hxT
  have hlive : liveEdges g' = (g.edges ++ [g.nextEdge]) ++ g.m_hiddenEdges := by
    unfold liveEdges
    rw [hedges, hhid]
  have hfresh : g.nextEdge ∉ liveEdges g := by
    intro hmem'
    have := (hmem _ hmem').1
    omega
  refine ⟨?_, ?_, ?_⟩
  · rw [hlive]
    exact nodup_append_fresh hnd hfresh
  · intro e' he'
    rw [hlive] at he'
    by_cases hnew' : e' = g.nextEdge
    · subst hnew'
      refine ⟨by omega, by rw [n3]; omega, by rw [n4]; omega, ?_⟩
      refine ⟨n1, by rw [n3]; exact sS1, by rw [n4]; exact sT1, by omega, Or.inl ?_⟩
      rw [n3, n4, sS2, sT2, n2]
      exact ⟨rfl, rfl⟩
    · have he'' : e' ∈ liveEdges g := by
        rcases List.mem_append.1 he' with h1 | h1
        · rcases List.mem_append.1 h1 with h2 | h2
          · exact List.mem_append.2 (Or.inl h2)
          · exact absurd (List.mem_singleton.1 h2) hnew'
        · exact List.mem_append.2 (Or.inr h1)
      obtain ⟨b1, b2, b3, b4⟩ := hmem e' he''
      obtain ⟨c1, c2, c3, _⟩ := idSigE_eq_cases (hsigE e' hnew')
      refine ⟨by omega, by rw [c1]; omega, by rw [c2]; omega, ?_⟩
      exact edgeIdsOK_congr (hsigE e' hnew') (hsigA _ b2) (hsigA _ b3) b4
  · intro e1 h1 e2 h2 hne
    rw [hlive] at h1 h2
    have hcase : ∀ e', e' ∈ (g.edges ++ [g.nextEdge]) ++ g.m_hiddenEdges →
        e' = g.nextEdge ∨ e' ∈ liveEdges g := by
      intro e' he'
      rcases List.mem_append.1 he' with hh | hh
      · rcases List.mem_append.1 hh with h2' | h2'
        · exact Or.inr (List.mem_append.2 (Or.inl h2'))
        · exact Or.inl (List.mem_singleton.1 h2')
      · exact Or.inr (List.mem_append.2 (Or.inr hh))
    rcases hcase e1 h1 with he1 | he1 <;> rcases hcase e2 h2 with he2 | he2
    · exact absurd (he1.trans he2.symm) hne
    · obtain ⟨b1, b2, b3, _⟩ := hmem e2 he2
      obtain ⟨c1, c2, _, _⟩ := idSigE_eq_cases (hsigE e2 (by omega))
      subst he1
      rw [n3, n4, c1, c2]
      refine ⟨by omega, by omega, by omega, by omega⟩
    · obtain ⟨b1, b2, b3, _⟩ := hmem e1 he1
      obtain ⟨c1, c2, _, _⟩ := idSigE_eq_cases (hsigE e1 (by omega))
      subst he2
      rw [n3, n4, c1, c2]
      refine ⟨by omega, by omega, by omega, by omega⟩
    · obtain ⟨b1, b2, b3, _⟩ := hmem e1 he1
      obtain ⟨d1, d2, d3, _⟩ := hmem e2 he2
      obtain ⟨c1, c2, _, _⟩ := idSigE_eq_cases (hsigE e1 (by omega))
      obtain ⟨f1, f2, _, _⟩ := idSigE_eq_cases (hsigE e2 (by omega))
      rw [c1, c2, f1, f2]
      exact hpair e1 he1 e2 he2 hne

theorem IdWF_newEdge (g : Graph) (v w : Nat) (h : Graph.IdWF g) :
    Graph.IdWF (g.newEdge v w).1 := by
  by_cases hguard : v ∈ g.nodes ∧ w ∈ g.nodes
  case neg =>
    unfold Graph.newEdge
    rw [if_neg hguard]
    exact h
  refine IdWF_attach g.m_edgeIdCount ?_ ?_ ?_ ?_ ?_ ?_ ?_ ?_ ?_ h
  · unfold Graph.newEdge Graph.createEdgeElement
    rw [if_pos hguard]
    by_cases hgrow : g.m_edgeIdCount = g.m_edgeArrayTableSize <;>
      simp [updN_eq, updA_eq, hgrow]
  · unfold Graph.newEdge Graph.createEdgeElement
    rw [if_pos hguard]
    by_cases hgrow : g.m_edgeIdCount = g.m_edgeArrayTableSize <;>
      simp [updN_eq, updA_eq, hgrow]
  · unfold Graph.newEdge Graph.createEdgeElement
    rw [if_pos hguard]
    by_cases hgrow : g.m_edgeIdCount = g.m_edgeArrayTableSize <;>
      simp [updN_eq, updA_eq, hgrow]
  · unfold Graph.newEdge Graph.createEdgeElement
    rw [if_pos hguard]
    by_cases hgrow : g.m_edgeIdCount = g.m_edgeArrayTableSize <;>
      simp [updN_eq, updA_eq, hgrow]
  · intro e' hne
    unfold Graph.newEdge Graph.createEdgeElement
    rw [if_pos hguard]
    by_cases hgrow : g.m_edgeIdCount = g.m_edgeArrayTableSize <;>
      simp [Graph.idSigE, updN_eq, updA_eq, fupd, hgrow, hne]
  · intro a ha
    have h1 : ¬ a = g.nextAdj := by omega
    have h2 : ¬ a = g.nextAdj + 1 := by omega
    unfold Graph.newEdge Graph.createEdgeElement
    rw [if_pos hguard]
    by_cases hgrow : g.m_edgeIdCount = g.m_edgeArrayTableSize <;>
      simp [Graph.idSigA, updN_eq, updA_eq, fupd, hgrow, h1, h2]
  · unfold Graph.newEdge Graph.createEdgeElement
    rw [if_pos hguard]
    by_cases hgrow : g.m_edgeIdCount = g.m_edgeArrayTableSize <;>
      simp [Graph.idSigE, updN_eq, updA_eq, fupd, hgrow]
  · unfold Graph.newEdge Graph.createEdgeElement
    rw [if_pos hguard]
    by_cases hgrow : g.m_edgeIdCount = g.m_edgeArrayTableSize <;>
      simp [Graph.idSigA, updN_eq, updA_eq, fupd, hgrow]
  · unfold Graph.newEdge Graph.createEdgeElement
    rw [if_pos hguard]
    by_cases hgrow : g.m_edgeIdCount = g.m_edgeArrayTableSize <;>
      simp [Graph.idSigA, updN_eq, updA_eq, fupd, hgrow]

theorem IdWF_newEdgeIdx (g : Graph) (v w idx : Nat) (h : Graph.IdWF g) :
    Graph.IdWF (g.newEdgeIdx v w idx).1 := by
  by_cases hguard : v ∈ g.nodes ∧ w ∈ g.nodes
  case neg =>
    unfold Graph.newEdgeIdx
    rw [if_neg hguard]
    exact h
  refine IdWF_attach idx ?_ ?_ ?_ ?_ ?_ ?_ ?_ ?_ ?_ h
  · unfold Graph.newEdgeIdx
    rw [if_pos hguard]
    by_cases hb : g.m_edgeIdCount ≤ idx
    · by_cases hg : g.m_edgeArrayTableSize ≤ idx <;>
        simp [updN_eq, updA_eq, hb, hg]
    · simp [updN_eq, updA_eq, hb]
  · unfold Graph.newEdgeIdx
    rw [if_pos hguard]
    by_cases hb : g.m_edgeIdCount ≤ idx
    · by_cases hg : g.m_edgeArrayTableSize ≤ idx <;>
        simp [updN_eq, updA_eq, hb, hg]
    · simp [updN_eq, updA_eq, hb]
  · unfold Graph.newEdgeIdx
    rw [if_pos hguard]
    by_cases hb : g.m_edgeIdCount ≤ idx
    · by_cases hg : g.m_edgeArrayTableSize ≤ idx <;>
        simp [updN_eq, updA_eq, hb, hg]
    · simp [updN_eq, updA_eq, hb]
  · unfold Graph.newEdgeIdx
    rw [if_pos hguard]
    by_cases hb : g.m_edgeIdCount ≤ idx
    · by_cases hg : g.m_edgeArrayTableSize ≤ idx <;>
        simp [updN_eq, updA_eq, hb, hg]
    · simp [updN_eq, updA_eq, hb]
  · intro e' hne
    unfold Graph.newEdgeIdx
    rw [if_pos hguard]
    by_cases hb : g.m_edgeIdCount ≤ idx
    · by_cases hg : g.m_edgeArrayTableSize ≤ idx <;>
        simp [Graph.idSigE, updN_eq, updA_eq, fupd, hb, hg, hne]
    · simp [Graph.idSigE, updN_eq, updA_eq, fupd, hb, hne]
  · intro a ha
    have h1 : ¬ a = g.nextAdj := by omega
    have h2 : ¬ a = g.nextAdj + 1 := by omega
    unfold Graph.newEdgeIdx
    rw [if_pos hguard]
    by_cases hb : g.m_edgeIdCount ≤ idx
    · by_cases hg : g.m_edgeArrayTableSize ≤ idx <;>
        simp [Graph.idSigA, updN_eq, updA_eq, fupd, hb, hg, h1, h2]
    · simp [Graph.idSigA, updN_eq, updA_eq, fupd, hb, h1, h2]
  · unfold Graph.newEdgeIdx
    rw [if_pos hguard]
    by_cases hb : g.m_edgeIdCount ≤ idx
    · by_cases hg : g.m_edgeArrayTableSize ≤ idx <;>
        simp [Graph.idSigE, updN_eq, updA_eq, fupd, hb, hg]
    · simp [Graph.idSigE, updN_eq, updA_eq, fupd, hb]
  · unfold Graph.newEdgeIdx
    rw [if_pos hguard]
    by_cases hb : g.m_edgeIdCount ≤ idx
    · by_cases hg : g.m_edgeArrayTableSize ≤ idx <;>
        simp [Graph.idSigA, updN_eq, updA_eq, fupd, hb, hg]
    · simp [Graph.idSigA, updN_eq, updA_eq, fupd, hb]
  · unfold Graph.newEdgeIdx
    rw [if_pos hguard]
    by_cases hb : g.m_edgeIdCount ≤ idx
    · by_cases hg : g.m_edgeArrayTableSize ≤ idx <;>
        simp [Graph.idSigA, updN_eq, updA_eq, fupd, hb, hg]
    · simp [Graph.idSigA, updN_eq, updA_eq, fupd, hb]

theorem IdWF_reverseEdge (g : Graph) (e : Nat) (h : Graph.IdWF g) :
    Graph.IdWF (g.reverseEdge e) := by
  by_cases hin : e ∈ g.edges
  case neg =>
    unfold Graph.reverseEdge
    rw [if_neg hin]
    exact h
  have hlive : liveEdges (g.reverseEdge e) = liveEdges g := by
    unfold Graph.reverseEdge
    rw [if_pos hin]
    simp [liveEdges, updN_eq, updE_eq]
  have hnE : (g.reverseEdge e).nextEdge = g.nextEdge := by
    unfold Graph.reverseEdge
    rw [if_pos hin]
    simp [updN_eq, updE_eq]
  have hnA : (g.reverseEdge e).nextAdj = g.nextAdj := by
    unfold Graph.reverseEdge
    rw [if_pos hin]
    simp [updN_eq, updE_eq]
  have hsigA : ∀ a, (g.reverseEdge e).idSigA a = g.idSigA a := by
    intro a
    unfold Graph.reverseEdge
    rw [if_pos hin]
    simp [Graph.idSigA, updN_eq, updE_eq]
  have hsigE : ∀ e', e' ≠ e → (g.reverseEdge e).idSigE e' = g.idSigE e' := by
    intro e' hne
    unfold Graph.reverseEdge
    rw [if_pos hin]
    simp [Graph.idSigE, updN_eq, updE_eq, hne]
  have hS : (g.reverseEdge e).aSrcOf e = g.aTgtOf e := by
    unfold Graph.reverseEdge
    rw [if_pos hin]
    simp only [Graph.aSrcOf, Graph.aTgtOf, updN_eq, updE_eq]
    cases g.edgeA e <;> simp
  have hT : (g.reverseEdge e).aTgtOf e = g.aSrcOf e := by
    unfold Graph.reverseEdge
    rw [if_pos hin]
    simp only [Graph.aSrcOf, Graph.aTgtOf, updN_eq, updE_eq]
    cases g.edgeA e <;> simp
  have hIx : (g.reverseEdge e).idxOfE e = g.idxOfE e := by
    unfold Graph.reverseEdge
    rw [if_pos hin]
    simp only [Graph.idxOfE, updN_eq, updE_eq]
    cases g.edgeA e <;> simp
  have hEsome : ((g.reverseEdge e).edgeA e).isSome = (g.edgeA e).isSome := by
    unfold Graph.reverseEdge
    rw [if_pos hin]
    simp only [updN_eq, updE_eq]
    cases g.edgeA e <;> simp
  obtain ⟨hnd, hmem, hpair⟩ := h
  refine ⟨by rw [hlive]; exact hnd, ?_, ?_⟩
  · intro e' he'
    rw [hlive] at he'
    by_cases hne : e' = e
    · subst hne
      obtain ⟨b1, b2, b3, b4⟩ := hmem e' he'
      obtain ⟨k1, k2, k3, k4, k5⟩ := b4
      refine ⟨by rw [hnE]; exact b1, by rw [hS, hnA]; exact b3, by rw [hT, hnA]; exact b2, ?_⟩
      refine ⟨?_, ?_, ?_, ?_, ?_⟩
      · rw [hEsome]; exact k1
      · rw [hS, (idSigA_eq_cases (hsigA (g.aTgtOf e'))).2]; exact k3
      · rw [hT, (idSigA_eq_cases (hsigA (g.aSrcOf e'))).2]; exact k2
      · rw [hS, hT]; exact fun hcontra => k4 hcontra.symm
      · rw [hS, hT, hIx, (idSigA_eq_cases (hsigA (g.aTgtOf e'))).1,
          (idSigA_eq_cases (hsigA (g.aSrcOf e'))).1]
        rcases k5 with ⟨p, q⟩ | ⟨p, q⟩
        · exact Or.inr ⟨q, p⟩
        · exact Or.inl ⟨q, p⟩
    · obtain ⟨b1, b2, b3, b4⟩ := hmem e' he'
      obtain ⟨c1, c2, _, _⟩ := idSigE_eq_cases (hsigE e' hne)
      exact ⟨by rw [hnE]; exact b1, by rw [c1, hnA]; exact b2, by rw [c2, hnA]; exact b3,
        edgeIdsOK_congr (hsigE e' hne) (hsigA _) (hsigA _) b4⟩
  · intro e1 h1 e2 h2 hne12
    rw [hlive] at h1 h2
    have base := hpair e1 h1 e2 h2 hne12
    by_cases q1 : e1 = e <;> by_cases q2 : e2 = e
    · exact absurd (q1.trans q2.symm) hne12
    · subst q1
      rw [hS, hT, (idSigE_eq_cases (hsigE e2 q2)).1, (idSigE_eq_cases (hsigE e2 q2)).2.1]
      exact ⟨base.2.2.1, base.2.2.2, base.1, base.2.1⟩
    · subst q2
      rw [hS, hT, (idSigE_eq_cases (hsigE e1 q1)).1, (idSigE_eq_cases (hsigE e1 q1)).2.1]
      exact ⟨base.2.1, base.1, base.2.2.2, base.2.2.1⟩
    · rw [(idSigE_eq_cases (hsigE e1 q1)).1, (idSigE_eq_cases (hsigE e1 q1)).2.1,
        (idSigE_eq_cases (hsigE e2 q2)).1, (idSigE_eq_cases (hsigE e2 q2)).2.1]
      exact base

theorem IdWF_reverseFold :
    ∀ (l : List Nat) (g : Graph), Graph.IdWF g → Graph.IdWF (l.foldl Graph.reverseEdge g)
  | [], g, h => h
  | e :: l, g, h => by
    rw [List.foldl_cons]
    exact IdWF_reverseFold l _ (IdWF_reverseEdge g e h)

theorem IdWF_reverseAll (g : Graph) (h : Graph.IdWF g) : Graph.IdWF g.reverseAllEdges :=
  IdWF_reverseFold g.edges g h

set_option maxHeartbeats 3200000 in
theorem IdWF_split (g : Graph) (e : Nat) (h : Graph.IdWF g) : Graph.IdWF (g.split e).1 := by
  by_cases hin : e ∈ g.edges
  case neg =>
    unfold Graph.split
    rw [if_neg hin]
    exact h
  obtain ⟨hnd, hmem, hpair⟩ := h
  have hlv : e ∈ liveEdges g := List.mem_append.2 (Or.inl hin)
  obtain ⟨b1, b2, b3, b4⟩ := hmem e hlv
  obtain ⟨k1, k2, k3, k4, k5⟩ := b4
  obtain ⟨E, hE⟩ := Option.isSome_iff_exists.1 k1
  obtain ⟨B, hB⟩ := Option.isSome_iff_exists.1 k3
  have hF1 : (g.split e).1.edges = g.edges ++ [g.nextEdge] := by
    unfold Graph.split Graph.newNode Graph.createEdgeElement
    rw [if_pos hin]
    by_cases hng : g.m_nodeIdCount = g.m_nodeArrayTableSize <;>
      by_cases hgrow : g.m_edgeIdCount = g.m_edgeArrayTableSize <;>
        simp [updN_eq, updA_eq, updE_eq, hng, hgrow]
  have hF2 : (g.split e).1.m_hiddenEdges = g.m_hiddenEdges := by
    unfold Graph.split Graph.newNode Graph.createEdgeElement
    rw [if_pos hin]
    by_cases hng : g.m_nodeIdCount = g.m_nodeArrayTableSize <;>
      by_cases hgrow : g.m_edgeIdCount = g.m_edgeArrayTableSize <;>
        simp [updN_eq, updA_eq, updE_eq, hng, hgrow]
  have hF3 : (g.split e).1.nextEdge = g.nextEdge + 1 := by
    unfold Graph.split Graph.newNode Graph.createEdgeElement
    rw [if_pos hin]
    by_cases hng : g.m_nodeIdCount = g.m_nodeArrayTableSize <;>
      by_cases hgrow : g.m_edgeIdCount = g.m_edgeArrayTableSize <;>
        simp [updN_eq, updA_eq, updE_eq, hng, hgrow]
  have hF4 : (g.split e).1.nextAdj = g.nextAdj + 2 := by
    unfold Graph.split Graph.newNode Graph.createEdgeElement
    rw [if_pos hin]
    by_cases hng : g.m_nodeIdCount = g.m_nodeArrayTableSize <;>
      by_cases hgrow : g.m_edgeIdCount = g.m_edgeArrayTableSize <;>
        simp [updN_eq, updA_eq, updE_eq, hng, hgrow]
  have hne2 : e ≠ g.nextEdge := by omega
  have hF5 : (g.split e).1.idSigE e = some (g.idxOfE e, g.aSrcOf e, g.nextAdj) := by
    unfold Graph.split Graph.newNode Graph.createEdgeElement
    rw [if_pos hin]
    by_cases hng : g.m_nodeIdCount = g.m_nodeArrayTableSize <;>
      by_cases hgrow : g.m_edgeIdCount = g.m_edgeArrayTableSize <;>
        simp [Graph.idSigE, Graph.idxOfE, Graph.aSrcOf, updN_eq, updA_eq, updE_eq, fupd,
          hng, hgrow, hne2, hE]
  have hF6 : (g.split e).1.idSigE g.nextEdge =
      some (g.m_edgeIdCount, g.nextAdj + 1, g.aTgtOf e) := by
    unfold Graph.split Graph.newNode Graph.createEdgeElement
    rw [if_pos hin]
    by_cases hng : g.m_nodeIdCount = g.m_nodeArrayTableSize <;>
      by_cases hgrow : g.m_edgeIdCount = g.m_edgeArrayTableSize <;>
        simp [Graph.idSigE, Graph.aTgtOf, updN_eq, updA_eq, updE_eq, fupd,
          hng, hgrow, Ne.symm hne2, hE]
  have hF7 : ∀ e', e' ≠ e → e' ≠ g.nextEdge → (g.split e).1.idSigE e' = g.idSigE e' := by
    intro e' hq1 hq2
    unfold Graph.split Graph.newNode Graph.createEdgeElement
    rw [if_pos hin]
    by_cases hng : g.m_nodeIdCount = g.m_nodeArrayTableSize <;>
      by_cases hgrow : g.m_edgeIdCount = g.m_edgeArrayTableSize <;>
        simp [Graph.idSigE, updN_eq, updA_eq, updE_eq, fupd, hng, hgrow, hq1, hq2]
  have hBt : g.aTgtOf e < g.nextAdj := b3
  have hEsrc : g.aSrcOf e = E.m_adjSrc := by simp [Graph.aSrcOf, hE]
  have hEtgt : g.aTgtOf e = E.m_adjTgt := by simp [Graph.aTgtOf, hE]
  have hB' : g.adjA E.m_adjTgt = some B := hEtgt ▸ hB
  have hS1 : ¬ E.m_adjSrc = g.nextAdj := by omega
  have hS2 : ¬ E.m_adjSrc = g.nextAdj + 1 := by omega
  have hT1 : ¬ E.m_adjTgt = g.nextAdj := by omega
  have hT2 : ¬ E.m_adjTgt = g.nextAdj + 1 := by omega
  have hA1 : ¬ g.nextAdj = g.nextAdj + 1 := by omega
  have hA2 : ¬ g.nextAdj + 1 = g.nextAdj := by omega
  have hST : ¬ E.m_adjSrc = E.m_adjTgt := by
    rw [hEsrc, hEtgt] at k4
    exact k4
  have hTS : ¬ E.m_adjTgt = E.m_adjSrc := fun hc => hST hc.symm
  have haT : (g.split e).1.idSigA g.nextAdj = some (g.aIdOf (g.aTgtOf e)) := by
    have hq2 : ¬ g.nextAdj = E.m_adjTgt := by omega
    have hq3 : ¬ g.nextAdj = E.m_adjSrc := by omega
    rw [hEtgt]
    unfold Graph.split Graph.newNode Graph.createEdgeElement
    rw [if_pos hin]
    by_cases hng : g.m_nodeIdCount = g.m_nodeArrayTableSize <;>
      by_cases hgrow : g.m_edgeIdCount = g.m_edgeArrayTableSize <;>
        simp [Graph.idSigA, Graph.aIdOf, Graph.aTgtOf, Graph.aSrcOf, Graph.tgtOf,
          updN_eq, updA_eq, updE_eq, fupd, hng, hgrow, hne2, hE, hB', hS1, hS2, hT1, hT2,
          hA1, hA2, hST, hTS, hq2, hq3]
  have haS : (g.split e).1.idSigA (g.nextAdj + 1) = some (2 * g.m_edgeIdCount) := by
    have hq2 : ¬ g.nextAdj + 1 = E.m_adjTgt := by omega
    have hq3 : ¬ g.nextAdj + 1 = E.m_adjSrc := by omega
    unfold Graph.split Graph.newNode Graph.createEdgeElement
    rw [if_pos hin]
    by_cases hng : g.m_nodeIdCount = g.m_nodeArrayTableSize <;>
      by_cases hgrow : g.m_edgeIdCount = g.m_edgeArrayTableSize <;>
        simp [Graph.idSigA, Graph.aIdOf, Graph.aTgtOf, Graph.aSrcOf, Graph.tgtOf,
          updN_eq, updA_eq, updE_eq, fupd, hng, hgrow, hne2, hE, hB', hS1, hS2, hT1, hT2,
          hA1, hA2, hST, hTS, hq2, hq3]
  have haB : (g.split e).1.idSigA (g.aTgtOf e) = some (2 * g.m_edgeIdCount + 1) := by
    rw [hEtgt]
    unfold Graph.split Graph.newNode Graph.createEdgeElement
    rw [if_pos hin]
    by_cases hng : g.m_nodeIdCount = g.m_nodeArrayTableSize <;>
      by_cases hgrow : g.m_edgeIdCount = g.m_edgeArrayTableSize <;>
        simp [Graph.idSigA, Graph.aIdOf, Graph.aTgtOf, Graph.aSrcOf, Graph.tgtOf,
          updN_eq, updA_eq, updE_eq, fupd, hng, hgrow, hne2, hE, hB', hS1, hS2, hT1, hT2,
          hA1, hA2, hST, hTS]
  have haO : ∀ a, a < g.nextAdj → a ≠ g.aTgtOf e → (g.split e).1.idSigA a = g.idSigA a := by
    intro a hlt hq
    have hq1 : ¬ a = E.m_adjTgt := by rw [hEtgt] at hq; exact hq
    have hq2 : ¬ a = g.nextAdj := by omega
    have hq3 : ¬ a = g.nextAdj + 1 := by omega
    by_cases hq4 : a = E.m_adjSrc
    · subst hq4
      unfold Graph.split Graph.newNode Graph.createEdgeElement
      rw [if_pos hin]
      by_cases hng : g.m_nodeIdCount = g.m_nodeArrayTableSize <;>
        by_cases hgrow : g.m_edgeIdCount = g.m_edgeArrayTableSize <;>
          · simp [Graph.idSigA, Graph.aIdOf, Graph.aTgtOf, Graph.aSrcOf, Graph.tgtOf,
              updN_eq, updA_eq, updE_eq, fupd, hng, hgrow, hne2, hE, hB', hS1, hS2, hT1, hT2,
              hA1, hA2, hST, hTS, hq1, hq2, hq3]
            cases hcc : g.adjA E.m_adjSrc <;> simp [hcc]
    · unfold Graph.split Graph.newNode Graph.createEdgeElement
      rw [if_pos hin]
      by_cases hng : g.m_nodeIdCount = g.m_nodeArrayTableSize <;>
        by_cases hgrow : g.m_edgeIdCount = g.m_edgeArrayTableSize <;>
          simp [Graph.idSigA, Graph.aIdOf, Graph.aTgtOf, Graph.aSrcOf, Graph.tgtOf,
            updN_eq, updA_eq, updE_eq, fupd, hng, hgrow, hne2, hE, hB', hS1, hS2, hT1, hT2,
            hA1, hA2, hST, hTS, hq1, hq2, hq3, hq4]
  -- assemble
  obtain ⟨m1, m2, m3, m4⟩ := idSigE_some hF5
  obtain ⟨p1, p2, p3, p4⟩ := idSigE_some hF6
  obtain ⟨sT1, sT2⟩ := idSigA_some haT
  obtain ⟨sS1, sS2⟩ := idSigA_some haS
  obtain ⟨sB1, sB2⟩ := idSigA_some haB
  have hlive : liveEdges (g.split e).1 = (g.edges ++ [g.nextEdge]) ++ g.m_hiddenEdges := by
    unfold liveEdges
    rw [hF1, hF2]
  have hfresh : g.nextEdge ∉ liveEdges g := fun hmem' => by
    have := (hmem _ hmem').1
    omega
  have hslots : ∀ f, f ∈ liveEdges g → f ≠ e →
      g.aSrcOf f ≠ g.aTgtOf e ∧ g.aTgtOf f ≠ g.aTgtOf e := by
    intro f hf hne
    have := hpair f hf e hlv hne
    exact ⟨this.2.1, this.2.2.2⟩
  have hmemSplit : ∀ e', e' ∈ liveEdges (g.split e).1 →
      e' = g.nextEdge ∨ (e' ∈ liveEdges g ∧ e' ≠ g.nextEdge) := by
    intro e' he'
    rw [hlive] at he'
    rcases List.mem_append.1 he' with hh | hh
    · rcases List.mem_append.1 hh with h2' | h2'
      · have : e' ∈ liveEdges g := List.mem_append.2 (Or.inl h2')
        exact Or.inr ⟨this, fun hc => hfresh (hc ▸ this)⟩
      · exact Or.inl (List.mem_singleton.1 h2')
    · have : e' ∈ liveEdges g := List.mem_append.2 (Or.inr hh)
      exact Or.inr ⟨this, fun hc => hfresh (hc ▸ this)⟩
  refine ⟨?_, ?_, ?_⟩
  · rw [hlive]
    exact nodup_append_fresh hnd hfresh
  · intro e' he'
    rcases hmemSplit e' he' with rfl | ⟨hold, hne'⟩
    · refine ⟨by omega, by rw [p3, hF4]; omega, by rw [p4, hF4]; omega, ?_⟩
      refine ⟨p1, by rw [p3]; exact sS1, by rw [p4]; exact sB1, by omega, Or.inl ?_⟩
      rw [p3, p4, sS2, sB2, p2]
      exact ⟨rfl, rfl⟩
    · by_cases hq : e' = e
      · subst hq
        refine ⟨by rw [hF3]; omega, by rw [m3, hF4]; omega, by rw [m4, hF4]; omega, ?_⟩
        refine ⟨m1, ?_, by rw [m4]; exact sT1, by rw [m3, m4]; omega, ?_⟩
        · rw [m3, (idSigA_eq_cases (haO (g.aSrcOf e') b2 (by omega))).2]
          exact k2
        · rw [m3, m4, m2, sT2, (idSigA_eq_cases (haO (g.aSrcOf e') b2 (by omega))).1]
          exact k5
      · obtain ⟨c1, c2, c3, c4⟩ := hmem e' hold
        obtain ⟨d1, d2, _, _⟩ := idSigE_eq_cases (hF7 e' hq hne')
        obtain ⟨w1, w2⟩ := hslots e' hold hq
        refine ⟨by rw [hF3]; omega, by rw [d1, hF4]; omega, by rw [d2, hF4]; omega, ?_⟩
        exact edgeIdsOK_congr (hF7 e' hq hne') (haO _ c2 w1) (haO _ c3 w2) c4
  · intro e1 h1 e2 h2 hne12
    have getS : ∀ f, f ∈ liveEdges (g.split e).1 →
        ((g.split e).1.aSrcOf f = (if f = g.nextEdge then g.nextAdj + 1
            else if f = e then g.aSrcOf e else g.aSrcOf f) ∧
         (g.split e).1.aTgtOf f = (if f = g.nextEdge then g.aTgtOf e
            else if f = e then g.nextAdj else g.aTgtOf f)) := by
      intro f hf
      rcases hmemSplit f hf with rfl | ⟨hold, hne'⟩
      · rw [if_pos rfl, if_pos rfl]
        exact ⟨p3, p4⟩
      · rw [if_neg hne', if_neg hne']
        by_cases hq : f = e
        · subst hq
          rw [if_pos rfl, if_pos rfl]
          exact ⟨m3, m4⟩
        · obtain ⟨d1, d2, _, _⟩ := idSigE_eq_cases (hF7 f hq hne')
          rw [if_neg hq, if_neg hq]
          exact ⟨d1, d2⟩
    obtain ⟨u1, u2⟩ := getS e1 h1
    obtain ⟨u3, u4⟩ := getS e2 h2
    rw [u1, u2, u3, u4]
    rcases hmemSplit e1 h1 with rfl | ⟨ho1, hq1⟩ <;>
      rcases hmemSplit e2 h2 with rfl | ⟨ho2, hq2⟩
    · exact absurd rfl hne12
    · rw [if_pos rfl, if_pos rfl, if_neg hq2, if_neg hq2]
      by_cases hq : e2 = e
      · subst hq
        rw [if_pos rfl, if_pos rfl]
        exact ⟨by omega, by omega, Ne.symm k4, by omega⟩
      · rw [if_neg hq, if_neg hq]
        obtain ⟨c1, c2, c3, _⟩ := hmem e2 ho2
        obtain ⟨w1, w2⟩ := hslots e2 ho2 hq
        exact ⟨by omega, by omega, Ne.symm w1, Ne.symm w2⟩
    · rw [if_pos rfl, if_pos rfl, if_neg hq1, if_neg hq1]
      by_cases hq : e1 = e
      · subst hq
        rw [if_pos rfl, if_pos rfl]
        exact ⟨by omega, k4, by omega, by omega⟩
      · rw [if_neg hq, if_neg hq]
        obtain ⟨c1, c2, c3, _⟩ := hmem e1 ho1
        obtain ⟨w1, w2⟩ := hslots e1 ho1 hq
        exact ⟨by omega, w1, by omega, w2⟩
    · rw [if_neg hq1, if_neg hq1, if_neg hq2, if_neg hq2]
      obtain ⟨c1, c2, c3, _⟩ := hmem e1 ho1
      obtain ⟨d1, d2, d3, _⟩ := hmem e2 ho2
      by_cases ha1 : e1 = e <;> by_cases ha2 : e2 = e
      · exact absurd (ha1.trans ha2.symm) hne12
      · subst ha1
        rw [if_pos rfl, if_pos rfl, if_neg ha2, if_neg ha2]
        have base := hpair e1 hlv e2 ho2 hne12
        exact ⟨base.1, base.2.1, by omega, by omega⟩
      · subst ha2
        rw [if_neg ha1, if_neg ha1, if_pos rfl, if_pos rfl]
        have base := hpair e1 ho1 e2 hlv ha1
        exact ⟨base.1, by omega, base.2.2.1, by omega⟩
      · rw [if_neg ha1, if_neg ha1, if_neg ha2, if_neg ha2]
        exact hpair e1 ho1 e2 ho2 hne12

set_option maxHeartbeats 3200000 in
theorem IdWF_unsplit (g : Graph) (eIn eOut : Nat) (h : Graph.IdWF g) :
    Graph.IdWF (g.unsplit eIn eOut).1 := by
  by_cases hG : eIn ∈ g.edges ∧ eOut ∈ g.edges ∧ g.indegOf (g.tgtOf eIn) = 1 ∧
      g.outdegOf (g.tgtOf eIn) = 1 ∧ g.srcOf eOut = g.tgtOf eIn ∧
      g.srcOf eIn ≠ g.tgtOf eIn ∧ g.srcOf eOut ≠ g.tgtOf eOut
  case neg =>
    unfold Graph.unsplit
    rw [if_neg hG]
    exact h
  obtain ⟨hnd, hmem, hpair⟩ := h
  have hne : eIn ≠ eOut := by
    intro hc
    rw [hc] at hG
    exact hG.2.2.2.2.2.1 hG.2.2.2.2.1
  have hlvI : eIn ∈ liveEdges g := List.mem_append.2 (Or.inl hG.1)
  have hlvO : eOut ∈ liveEdges g := List.mem_append.2 (Or.inl hG.2.1)
  obtain ⟨b1, b2, b3, b4⟩ := hmem eIn hlvI
  obtain ⟨k1, k2, k3, k4, k5⟩ := b4
  obtain ⟨c1, c2, c3, c4⟩ := hmem eOut hlvO
  obtain ⟨l1, l2, l3, l4, l5⟩ := c4
  obtain ⟨E, hE⟩ := Option.isSome_iff_exists.1 k1
  obtain ⟨F, hF⟩ := Option.isSome_iff_exists.1 l1
  obtain ⟨C, hC⟩ := Option.isSome_iff_exists.1 k2
  obtain ⟨D, hD⟩ := Option.isSome_iff_exists.1 k3
  obtain ⟨B, hB⟩ := Option.isSome_iff_exists.1 l3
  have hEsrc : g.aSrcOf eIn = E.m_adjSrc := by simp [Graph.aSrcOf, hE]
  have hEtgt : g.aTgtOf eIn = E.m_adjTgt := by simp [Graph.aTgtOf, hE]
  have hFsrc : g.aSrcOf eOut = F.m_adjSrc := by simp [Graph.aSrcOf, hF]
  have hFtgt : g.aTgtOf eOut = F.m_adjTgt := by simp [Graph.aTgtOf, hF]
  have hC' : g.adjA E.m_adjSrc = some C := hEsrc ▸ hC
  have hD' : g.adjA E.m_adjTgt = some D := hEtgt ▸ hD
  have hB' : g.adjA F.m_adjTgt = some B := hFtgt ▸ hB
  have hDid : g.aIdOf (g.aTgtOf eIn) = D.m_id := by
    rw [hEtgt]
    simp [Graph.aIdOf, hD']
  have hEidx : g.idxOfE eIn = E.idx := by simp [Graph.idxOfE, hE]
  have pIO := hpair eIn hlvI eOut hlvO hne
  have q1 : ¬ E.m_adjSrc = F.m_adjTgt := by
    rw [← hEsrc, ← hFtgt]
    exact pIO.2.1
  have q2 : ¬ F.m_adjTgt = E.m_adjSrc := fun hc => q1 hc.symm
  have q3 : ¬ E.m_adjTgt = F.m_adjTgt := by
    rw [← hEtgt, ← hFtgt]
    exact pIO.2.2.2
  have q4 : ¬ F.m_adjTgt = E.m_adjTgt := fun hc => q3 hc.symm
  have hST : ¬ E.m_adjSrc = E.m_adjTgt := by
    rw [← hEsrc, ← hEtgt]
    exact k4
  have hTS : ¬ E.m_adjTgt = E.m_adjSrc := fun hc => hST hc.symm
  have hneOI : ¬ eOut = eIn := fun hc => hne hc.symm
  have hF1 : (g.unsplit eIn eOut).1.edges = g.edges.erase eOut := by
    unfold Graph.unsplit
    rw [if_pos hG]
    simp [updN_eq, updE_eq, updA_eq]
  have hF2 : (g.unsplit eIn eOut).1.m_hiddenEdges = g.m_hiddenEdges := by
    unfold Graph.unsplit
    rw [if_pos hG]
    simp [updN_eq, updE_eq, updA_eq]
  have hF3 : (g.unsplit eIn eOut).1.nextEdge = g.nextEdge := by
    unfold Graph.unsplit
    rw [if_pos hG]
    simp [updN_eq, updE_eq, updA_eq]
  have hF4 : (g.unsplit eIn eOut).1.nextAdj = g.nextAdj := by
    unfold Graph.unsplit
    rw [if_pos hG]
    simp [updN_eq, updE_eq, updA_eq]
  have hF5 : (g.unsplit eIn eOut).1.idSigE eIn = some (E.idx, E.m_adjSrc, F.m_adjTgt) := by
    unfold Graph.unsplit
    rw [if_pos hG]
    simp [Graph.idSigE, Graph.aTgtOf, Graph.aSrcOf, Graph.tgtOf, Graph.aIdOf,
      updE_eq, updA_eq, fupd, hE, hF, hB', hD', q1, q2, q3, q4, hST, hTS]
  have hF7 : ∀ f, f ≠ eIn → (g.unsplit eIn eOut).1.idSigE f = g.idSigE f := by
    intro f hq
    unfold Graph.unsplit
    rw [if_pos hG]
    simp [Graph.idSigE, updE_eq, updA_eq, fupd, hq]
  have haT : (g.unsplit eIn eOut).1.idSigA F.m_adjTgt = some D.m_id := by
    unfold Graph.unsplit
    rw [if_pos hG]
    simp [Graph.idSigA, Graph.aTgtOf, Graph.aSrcOf, Graph.tgtOf, Graph.aIdOf,
      updE_eq, updA_eq, fupd, hE, hF, hB', hD', q1, q2, q3, q4, hST, hTS]
  have haO : ∀ a, a ≠ F.m_adjTgt → (g.unsplit eIn eOut).1.idSigA a = g.idSigA a := by
    intro a hq
    by_cases hq2 : a = E.m_adjSrc
    · subst hq2
      unfold Graph.unsplit
      rw [if_pos hG]
      simp [Graph.idSigA, Graph.aTgtOf, Graph.aSrcOf, Graph.tgtOf, Graph.aIdOf,
        updE_eq, updA_eq, fupd, hE, hF, hB', hC', hD', q1, q2, q3, q4, hST, hTS]
    · unfold Graph.unsplit
      rw [if_pos hG]
      simp [Graph.idSigA, Graph.aTgtOf, Graph.aSrcOf, Graph.tgtOf, Graph.aIdOf,
        updE_eq, updA_eq, fupd, hE, hF, hB', hD', q1, q2, q3, q4, hST, hTS, hq, hq2]
  obtain ⟨m1, m2, m3, m4⟩ := idSigE_some hF5
  obtain ⟨sT1, sT2⟩ := idSigA_some haT
  have hlive : liveEdges (g.unsplit eIn eOut).1 = g.edges.erase eOut ++ g.m_hiddenEdges := by
    unfold liveEdges
    rw [hF1, hF2]
  have hsubl : List.Sublist (g.edges.erase eOut ++ g.m_hiddenEdges) (liveEdges g) :=
    (List.erase_sublist eOut g.edges).append (List.Sublist.refl _)
  obtain ⟨hndE, hndH, hdisj⟩ := List.nodup_append.1 hnd
  have hmemUn : ∀ f, f ∈ liveEdges (g.unsplit eIn eOut).1 →
      f ∈ liveEdges g ∧ f ≠ eOut := by
    intro f hf
    rw [hlive] at hf
    rcases List.mem_append.1 hf with h1 | h1
    · have h2 := (List.Nodup.mem_erase_iff hndE).1 h1
      exact ⟨List.mem_append.2 (Or.inl h2.2), h2.1⟩
    · refine ⟨List.mem_append.2 (Or.inr h1), ?_⟩
      intro hc
      rw [hc] at h1
      exact hdisj hG.2.1 h1
  refine ⟨?_, ?_, ?_⟩
  · rw [hlive]
    exact hsubl.nodup hnd
  · intro f hf
    obtain ⟨hfl, hfO⟩ := hmemUn f hf
    by_cases hq : f = eIn
    · subst hq
      have haS := idSigA_eq_cases (haO E.m_adjSrc q1)
      have k2' : (g.adjA E.m_adjSrc).isSome = true := by
        rw [← hEsrc]
        exact k2
      refine ⟨by rw [hF3]; exact b1, by rw [hF4, m3, ← hEsrc]; exact b2,
        by rw [hF4, m4, ← hFtgt]; exact c3, ?_⟩
      refine ⟨m1, ?_, ?_, ?_, ?_⟩
      · rw [m3, haS.2]
        exact k2'
      · rw [m4]
        exact sT1
      · rw [m3, m4]
        exact q1
      · rw [m3, m4, m2, haS.1, sT2, ← hEsrc, ← hDid, ← hEidx]
        exact k5
    · obtain ⟨d1, d2, d3, d4⟩ := hmem f hfl
      have pf := hpair f hfl eOut hlvO hfO
      have wS : g.aSrcOf f ≠ F.m_adjTgt := by
        rw [← hFtgt]
        exact pf.2.1
      have wT : g.aTgtOf f ≠ F.m_adjTgt := by
        rw [← hFtgt]
        exact pf.2.2.2
      refine ⟨by rw [hF3]; exact d1, by rw [(idSigE_eq_cases (hF7 f hq)).1, hF4]; exact d2,
        by rw [(idSigE_eq_cases (hF7 f hq)).2.1, hF4]; exact d3,
        edgeIdsOK_congr (hF7 f hq) (haO _ wS) (haO _ wT) d4⟩
  · intro e1 h1 e2 h2 hne12
    have getS : ∀ f, f ∈ liveEdges (g.unsplit eIn eOut).1 →
        ((g.unsplit eIn eOut).1.aSrcOf f = (if f = eIn then E.m_adjSrc else g.aSrcOf f) ∧
         (g.unsplit eIn eOut).1.aTgtOf f = (if f = eIn then F.m_adjTgt else g.aTgtOf f)) := by
      intro f hf
      by_cases hq : f = eIn
      · rw [if_pos hq, if_pos hq, hq]
        exact ⟨m3, m4⟩
      · obtain ⟨d1, d2, _, _⟩ := idSigE_eq_cases (hF7 f hq)
        rw [if_neg hq, if_neg hq]
        exact ⟨d1, d2⟩
    obtain ⟨u1, u2⟩ := getS e1 h1
    obtain ⟨u3, u4⟩ := getS e2 h2
    obtain ⟨ho1, hO1⟩ := hmemUn e1 h1
    obtain ⟨ho2, hO2⟩ := hmemUn e2 h2
    rw [u1, u2, u3, u4]
    by_cases a1 : e1 = eIn <;> by_cases a2 : e2 = eIn
    · exact absurd (a1.trans a2.symm) hne12
    · rw [if_pos a1, if_pos a1, if_neg a2, if_neg a2]
      have hneI2 : eIn ≠ e2 := fun hc => hne12 (a1.trans hc)
      have base := hpair eIn hlvI e2 ho2 hneI2
      have baseO := hpair eOut hlvO e2 ho2 (fun hc => hO2 hc.symm)
      exact ⟨hEsrc ▸ base.1, hEsrc ▸ base.2.1, hFtgt ▸ baseO.2.2.1, hFtgt ▸ baseO.2.2.2⟩
    · rw [if_neg a1, if_neg a1, if_pos a2, if_pos a2]
      have hne1I : e1 ≠ eIn := a1
      have base := hpair e1 ho1 eIn hlvI hne1I
      have baseO := hpair e1 ho1 eOut hlvO hO1
      exact ⟨hEsrc ▸ base.1, hFtgt ▸ baseO.2.1, hEsrc ▸ base.2.2.1, hFtgt ▸ baseO.2.2.2⟩
    · rw [if_neg a1, if_neg a1, if_neg a2, if_neg a2]
      exact hpair e1 ho1 e2 ho2 hne12

/-- Every public operation preserves the half-edge-id invariant. -/
theorem IdWF_applyOp (o : Op) (g : Graph) (h : Graph.IdWF g) : Graph.IdWF (applyOp o g) := by
  cases o with
  | opNewNode => exact IdWF_newNode g h
  | opNewNodeIdx idx => exact IdWF_newNodeIdx g idx h
  | opNewEdge v w => exact IdWF_newEdge g v w h
  | opNewEdgeIdx v w idx => exact IdWF_newEdgeIdx g v w idx h
  | opDelNode v => exact IdWF_delNode g v h
  | opDelEdge e => exact IdWF_delEdge g e h
  | opSplit e => exact IdWF_split g e h
  | opUnsplit eIn eOut => exact IdWF_unsplit g eIn eOut h
  | opHideEdge e => exact IdWF_hideEdge g e h
  | opRestoreEdge e => exact IdWF_restoreEdge g e h
  | opRestoreAll => exact IdWF_restoreAll g h
  | opReverseEdge e => exact IdWF_reverseEdge g e h
  | opReverseAll => exact IdWF_reverseAll g h
  | opMoveSource e a d => exact IdWF_moveSourceAdj g e a d h
  | opMoveTarget e a d => exact IdWF_moveTargetAdj g e a d h
  | opContract e => exact IdWF_contract g e h
  | opRegisterNodeArray => exact IdWF_registerNodeArray g h
  | opRegisterEdgeArray => exact IdWF_registerEdgeArray g h
  | opRegisterAdjArray => exact IdWF_registerAdjArray g h
  | opRegisterStructure oid => exact IdWF_registerStructure g oid h

theorem IdWF_runOps : ∀ (ops : List Op) (g : Graph), Graph.IdWF g → Graph.IdWF (runOps ops g)
  | [], _, h => h
  | o :: os, g, h => IdWF_runOps os (applyOp o g) (IdWF_applyOp o g h)

/-- C5: the source-side-always-even strengthening fails on reachable
states: after `newNode; newNode; newEdge(0,1); reverseEdge(0)` the edge's
source half-edge carries the odd id `1`, not the even id `2k`. -/
theorem C5_counterexample :
    ¬ (∀ (ops : List Op) (e : Nat), e ∈ (runOps ops emptyGraph).edges →
        Graph.edgeIdsSrcEven (runOps ops emptyGraph) e) := by
  intro hcl
  have h0 := hcl [Op.opNewNode, Op.opNewNode, Op.opNewEdge 0 1, Op.opReverseEdge 0] 0
    (by decide)
  unfold Graph.edgeIdsSrcEven at h0
  exact absurd h0.1 (by decide)

/-- C5 (amended): after every public operation, every live edge's two
half-edges are distinct and carry the ids `2k` and `2k + 1` — differing only
in the lowest bit — in one of the two orders; immediately after edge
creation (also with an explicit id) the source side holds the even id `2k`
and the target side `2k + 1`; the pairing (as part of the `IdWF` invariant)
is preserved by every public operation, including `split` and `unsplit`,
starting from the empty graph. -/
theorem C5_half_edge_ids_amended :
    Graph.IdWF emptyGraph ∧
    (∀ (o : Op) (g : Graph), Graph.IdWF g → Graph.IdWF (applyOp o g)) ∧
    (∀ (ops : List Op) (e : Nat), e ∈ liveEdges (runOps ops emptyGraph) →
      Graph.edgeIdsOK (runOps ops emptyGraph) e) ∧
    (∀ (g : Graph) (v w : Nat), v ∈ g.nodes → w ∈ g.nodes →
      Graph.edgeIdsSrcEven (g.newEdge v w).1 (g.newEdge v w).2.1) ∧
    (∀ (g : Graph) (v w idx : Nat), v ∈ g.nodes → w ∈ g.nodes →
      Graph.edgeIdsSrcEven (g.newEdgeIdx v w idx).1 (g.newEdgeIdx v w idx).2.1) := by
  have hE0 : Graph.IdWF emptyGraph := by
    refine ⟨?_, ?_, ?_⟩
    · simp [liveEdges, emptyGraph]
    · intro e he
      simp [liveEdges, emptyGraph] at he
    · intro e1 h1 e2 h2 hne
      simp [liveEdges, emptyGraph] at h1
  refine ⟨hE0, IdWF_applyOp, ?_, ?_, ?_⟩
  · intro ops e he
    exact ((IdWF_runOps ops emptyGraph hE0).2.1 e he).2.2.2
  · intro g v w hv hw
    have hguard : v ∈ g.nodes ∧ w ∈ g.nodes := ⟨hv, hw⟩
    have hret : (g.newEdge v w).2.1 = g.nextEdge := by
      unfold Graph.newEdge Graph.createEdgeElement
      rw [if_pos hguard]
      by_cases hgrow : g.m_edgeIdCount = g.m_edgeArrayTableSize <;>
        simp [updN_eq, updA_eq, hgrow]
    have hnew : (g.newEdge v w).1.idSigE g.nextEdge =
        some (g.m_edgeIdCount, g.nextAdj, g.nextAdj + 1) := by
      unfold Graph.newEdge Graph.createEdgeElement
      rw [if_pos hguard]
      by_cases hgrow : g.m_edgeIdCount = g.m_edgeArrayTableSize <;>
        simp [Graph.idSigE, updN_eq, updA_eq, fupd, hgrow]
    have hxS : (g.newEdge v w).1.idSigA g.nextAdj = some (2 * g.m_edgeIdCount) := by
      unfold Graph.newEdge Graph.createEdgeElement
      rw [if_pos hguard]
      by_cases hgrow : g.m_edgeIdCount = g.m_edgeArrayTableSize <;>
        simp [Graph.idSigA, updN_eq, updA_eq, fupd, hgrow]
    have hxT : (g.newEdge v w).1.idSigA (g.nextAdj + 1) = some (2 * g.m_edgeIdCount + 1) := by
      unfold Graph.newEdge Graph.createEdgeElement
      rw [if_pos hguard]
      by_cases hgrow : g.m_edgeIdCount = g.m_edgeArrayTableSize <;>
        simp [Graph.idSigA, updN_eq, updA_eq, fupd, hgrow]
    obtain ⟨m1, m2, m3, m4⟩ := idSigE_some hnew
    obtain ⟨s1, s2⟩ := idSigA_some hxS
    obtain ⟨t1, t2⟩ := idSigA_some hxT
    rw [hret]
    exact ⟨by rw [m3, s2, m2], by rw [m4, t2, m2]⟩
  · intro g v w idx hv hw
    have hguard : v ∈ g.nodes ∧ w ∈ g.nodes := ⟨hv, hw⟩
    have hret : (g.newEdgeIdx v w idx).2.1 = g.nextEdge := by
      unfold Graph.newEdgeIdx
      rw [if_pos hguard]
      by_cases hb : g.m_edgeIdCount ≤ idx
      · by_cases hg : g.m_edgeArrayTableSize ≤ idx <;>
          simp [updN_eq, updA_eq, hb, hg]
      · simp [updN_eq, updA_eq, hb]
    have hnew : (g.newEdgeIdx v w idx).1.idSigE g.nextEdge =
        some (idx, g.nextAdj, g.nextAdj + 1) := by
      unfold Graph.newEdgeIdx
      rw [if_pos hguard]
      by_cases hb : g.m_edgeIdCount ≤ idx
      · by_cases hg : g.m_edgeArrayTableSize ≤ idx <;>
          simp [Graph.idSigE, updN_eq, updA_eq, fupd, hb, hg]
      · simp [Graph.idSigE, updN_eq, updA_eq, fupd, hb]
    have hxS : (g.newEdgeIdx v w idx).1.idSigA g.nextAdj = some (2 * idx) := by
      unfold Graph.newEdgeIdx
      rw [if_pos hguard]
      by_cases hb : g.m_edgeIdCount ≤ idx
      · by_cases hg : g.m_edgeArrayTableSize ≤ idx <;>
          simp [Graph.idSigA, updN_eq, updA_eq, fupd, hb, hg]
      · simp [Graph.idSigA, updN_eq, updA_eq, fupd, hb]
    have hxT : (g.newEdgeIdx v w idx).1.idSigA (g.nextAdj + 1) = some (2 * idx + 1) := by
      unfold Graph.newEdgeIdx
      rw [if_pos hguard]
      by_cases hb : g.m_edgeIdCount ≤ idx
      · by_cases hg : g.m_edgeArrayTableSize ≤ idx <;>
          simp [Graph.idSigA, updN_eq, updA_eq, fupd, hb, hg]
      · simp [Graph.idSigA, updN_eq, updA_eq, fupd, hb]
    obtain ⟨m1, m2, m3, m4⟩ := idSigE_some hnew
    obtain ⟨s1, s2⟩ := idSigA_some hxS
    obtain ⟨t1, t2⟩ := idSigA_some hxT
    rw [hret]
    exact ⟨by rw [m3, s2, m2], by rw [m4, t2, m2]⟩

/-- Witness for C5 at concrete inputs: the invariant holds after reversing
the edge of `gE01`, the reversed edge still carries the id pair `{0, 1}`,
and a freshly created edge on `gN2` is source-even. -/
theorem C5_half_edge_ids_witness :
    Graph.IdWF (applyOp (Op.opReverseEdge 0) gE01) ∧
    Graph.edgeIdsOK
      (runOps [Op.opNewNode, Op.opNewNode, Op.opNewEdge 0 1, Op.opReverseEdge 0] emptyGraph) 0 ∧
    Graph.edgeIdsSrcEven (Graph.newEdge gN2 0 1).1 (Graph.newEdge gN2 0 1).2.1 := by
  refine ⟨C5_half_edge_ids_amended.2.1 (Op.opReverseEdge 0) gE01 ?_,
    C5_half_edge_ids_amended.2.2.1 [Op.opNewNode, Op.opNewNode, Op.opNewEdge 0 1,
      Op.opReverseEdge 0] 0 ?_,
    C5_half_edge_ids_amended.2.2.2.1 gN2 0 1 (by decide) (by decide)⟩
  · unfold Graph.IdWF Graph.edgeIdsOK
    decide
  · unfold liveEdges
    decide

theorem restoreEdge_hidden (g : Graph) (e : Nat) :
    (g.restoreEdge e).m_hiddenEdges =
      if e ∈ g.m_hiddenEdges then g.m_hiddenEdges.erase e else g.m_hiddenEdges := by
  by_cases he : e ∈ g.m_hiddenEdges <;> simp [Graph.restoreEdge, updN_eq, he]

theorem restoreEdge_edges (g : Graph) (e : Nat) :
    (g.restoreEdge e).edges =
      if e ∈ g.m_hiddenEdges then g.edges ++ [e] else g.edges := by
  by_cases he : e ∈ g.m_hiddenEdges <;> simp [Graph.restoreEdge, updN_eq, he]

theorem restoreEdge_regS (g : Graph) (e : Nat) :
    (g.restoreEdge e).m_regStructures = g.m_regStructures := by
  by_cases he : e ∈ g.m_hiddenEdges <;> simp [Graph.restoreEdge, updN_eq, he]

theorem restoreFold_state :
    ∀ (l : List Nat) (g : Graph), List.Perm g.m_hiddenEdges l →
      ((l.foldl Graph.restoreEdge g).m_hiddenEdges = [] ∧
       List.Perm (l.foldl Graph.restoreEdge g).edges (g.edges ++ g.m_hiddenEdges))
  | [], g, hp => by
    have h0 : g.m_hiddenEdges = [] := hp.eq_nil
    simp [h0]
  | e :: t, g, hp => by
    have he : e ∈ g.m_hiddenEdges := hp.mem_iff.2 (List.mem_cons_self e t)
    have hh : (g.restoreEdge e).m_hiddenEdges = g.m_hiddenEdges.erase e := by
      rw [restoreEdge_hidden, if_pos he]
    have hed : (g.restoreEdge e).edges = g.edges ++ [e] := by
      rw [restoreEdge_edges, if_pos he]
    have hp' : List.Perm (g.restoreEdge e).m_hiddenEdges t := by
      rw [hh]
      have h2 := hp.erase e
      rw [List.erase_cons_head] at h2
      exact h2
    obtain ⟨ih1, ih2⟩ := restoreFold_state t (g.restoreEdge e) hp'
    rw [List.foldl_cons]
    refine ⟨ih1, ?_⟩
    rw [hed, hh] at ih2
    have s1 : (g.edges ++ [e]) ++ g.m_hiddenEdges.erase e
        = g.edges ++ (e :: g.m_hiddenEdges.erase e) := by
      rw [List.append_assoc]
      rfl
    rw [s1] at ih2
    exact ih2.trans (List.Perm.append_left g.edges (List.perm_cons_erase he).symm)

theorem restoreFold_regS :
    ∀ (l : List Nat) (g : Graph),
      (l.foldl Graph.restoreEdge g).m_regStructures = g.m_regStructures
  | [], _ => rfl
  | e :: t, g => by
    rw [List.foldl_cons, restoreFold_regS t, restoreEdge_regS]

theorem restoreAll_hidden_empty (g : Graph) :
    (Graph.restoreAllEdges g).m_hiddenEdges = [] ∧
    List.Perm (Graph.restoreAllEdges g).edges (g.edges ++ g.m_hiddenEdges) := by
  unfold Graph.restoreAllEdges
  exact restoreFold_state _ g (List.reverse_perm g.m_hiddenEdges).symm

/-- C9: the destructor does not disconnect registered structural observers —
after destruction on a state with a registered observer, the observer is
still marked connected, contradicting the claim that every still-registered
observer is left detached. -/
theorem C9_counterexample :
    ¬ (∀ (g : Graph), ∀ o ∈ (Graph.destruct g).m_regStructures, o.connected = false) := by
  intro h
  exact absurd (h gC9 ⟨7, true⟩ (by decide)) (by decide)

/-- C9 (amended): the destructor first force-restores all hidden edges (the
hidden list ends empty and every formerly hidden edge is back in the edge
list), then disconnects every still-registered node, edge and half-edge
array; registered structural observers are not disconnected — the observer
registry is left exactly as it was. -/
theorem C9_destructor_amended (g : Graph) :
    (Graph.destruct g).m_hiddenEdges = [] ∧
    List.Perm (Graph.destruct g).edges (g.edges ++ g.m_hiddenEdges) ∧
    (∀ r ∈ (Graph.destruct g).m_regNodeArrays, r.connected = false) ∧
    (∀ r ∈ (Graph.destruct g).m_regEdgeArrays, r.connected = false) ∧
    (∀ r ∈ (Graph.destruct g).m_regAdjArrays, r.connected = false) ∧
    (Graph.destruct g).m_regStructures = g.m_regStructures := by
  obtain ⟨h1, h2⟩ := restoreAll_hidden_empty g
  refine ⟨?_, ?_, ?_, ?_, ?_, ?_⟩
  · simpa [Graph.destruct] using h1
  · simpa [Graph.destruct] using h2
  · intro r hr
    simp only [Graph.destruct, List.mem_map] at hr
    obtain ⟨a, _, ha⟩ := hr
    rw [← ha]
  · intro r hr
    simp only [Graph.destruct, List.mem_map] at hr
    obtain ⟨a, _, ha⟩ := hr
    rw [← ha]
  · intro r hr
    simp only [Graph.destruct, List.mem_map] at hr
    obtain ⟨a, _, ha⟩ := hr
    rw [← ha]
  · show (Graph.destruct g).m_regStructures = g.m_regStructures
    unfold Graph.destruct Graph.restoreAllEdges
    exact restoreFold_regS _ g

/-- Witness for C9 at a concrete input: destructing `gC9` empties the
hidden list, its registered node array ends disconnected, and its observer
registry is untouched. -/
theorem C9_destructor_witness :
    (Graph.destruct gC9).m_hiddenEdges = [] ∧
    (⟨16, false⟩ : ArrayReg).connected = false ∧
    (Graph.destruct gC9).m_regStructures = gC9.m_regStructures :=
  ⟨(C9_destructor_amended gC9).1,
   (C9_destructor_amended gC9).2.2.1 ⟨16, false⟩ (by decide),
   (C9_destructor_amended gC9).2.2.2.2.2⟩

theorem searchScan_spec (g : Graph) (x y : Nat) (hwf : Graph.WF g) (hx : x ∈ g.nodes) :
    ((((g.rotOf x).find? (fun a => g.aTwinNodeOf a == y)).isSome : Prop) ↔
      ∃ e ∈ g.edges, (g.srcOf e = x ∧ g.tgtOf e = y) ∨ (g.srcOf e = y ∧ g.tgtOf e = x)) ∧
    ∀ a, (g.rotOf x).find? (fun a => g.aTwinNodeOf a == y) = some a →
      g.aEdgeOf a ∈ g.edges ∧
      ((g.srcOf (g.aEdgeOf a) = x ∧ g.tgtOf (g.aEdgeOf a) = y) ∨
       (g.srcOf (g.aEdgeOf a) = y ∧ g.tgtOf (g.aEdgeOf a) = x)) := by
  obtain ⟨ndN, ndE, hn, he⟩ := hwf
  obtain ⟨hxs, hrnd, hrot⟩ := (hn x hx).2
  have found : ∀ a, (g.rotOf x).find? (fun a => g.aTwinNodeOf a == y) = some a →
      g.aEdgeOf a ∈ g.edges ∧
      ((g.srcOf (g.aEdgeOf a) = x ∧ g.tgtOf (g.aEdgeOf a) = y) ∨
       (g.srcOf (g.aEdgeOf a) = y ∧ g.tgtOf (g.aEdgeOf a) = x)) := by
    intro a hfind
    have hmem := List.mem_of_find?_eq_some hfind
    have htw : g.aTwinNodeOf a = y := by simpa using List.find?_some hfind
    obtain ⟨_, _, hnode, hedge, hside⟩ := hrot a hmem
    obtain ⟨e1, e2, e3, e4, e5, e6, e7, e8, e9, e10, e11, e12, e13, e14, e15, e16, e17⟩ :=
      he (g.aEdgeOf a) hedge
    refine ⟨hedge, ?_⟩
    rcases hside with ⟨ha, hx'⟩ | ⟨ha, hx'⟩
    · left
      refine ⟨hx'.symm, ?_⟩
      have h2 : g.aTwinNodeOf a = g.tgtOf (g.aEdgeOf a) := by
        unfold Graph.aTwinNodeOf
        rw [ha, e14, e13, e10]
      rw [← h2]
      exact htw
    · right
      refine ⟨?_, hx'.symm⟩
      have h2 : g.aTwinNodeOf a = g.srcOf (g.aEdgeOf a) := by
        unfold Graph.aTwinNodeOf
        rw [ha, e15, e12, e11]
      rw [← h2]
      exact htw
  refine ⟨⟨?_, ?_⟩, found⟩
  · intro hs
    obtain ⟨a, ha⟩ := Option.isSome_iff_exists.1 hs
    obtain ⟨hm, hc⟩ := found a ha
    exact ⟨_, hm, hc⟩
  · rintro ⟨e, hedge, hside⟩
    obtain ⟨e1, e2, e3, e4, e5, e6, e7, e8, e9, e10, e11, e12, e13, e14, e15, e16, e17⟩ :=
      he e hedge
    rcases hside with ⟨hs, ht⟩ | ⟨hs, ht⟩
    · have hmem : g.aSrcOf e ∈ g.rotOf x := by
        rw [← hs]
        exact e16
      have hpred : (g.aTwinNodeOf (g.aSrcOf e) == y) = true := by
        have h2 : g.aTwinNodeOf (g.aSrcOf e) = g.tgtOf e := by
          unfold Graph.aTwinNodeOf
          rw [e14, e13]
        simp [h2, ht]
      exact List.find?_isSome.2 ⟨_, hmem, hpred⟩
    · have hmem : g.aTgtOf e ∈ g.rotOf x := by
        rw [← ht]
        exact e17
      have hpred : (g.aTwinNodeOf (g.aTgtOf e) == y) = true := by
        have h2 : g.aTwinNodeOf (g.aTgtOf e) = g.srcOf e := by
          unfold Graph.aTwinNodeOf
          rw [e15, e12]
        simp [h2, hs]
      exact List.find?_isSome.2 ⟨_, hmem, hpred⟩

/-- C7: the directed-search half of the claim is false: `searchEdge` is an
undirected search.  On `gBack`, whose only edge runs `1 → 0`, no edge runs
`0 → 1`, yet `searchEdge(0, 1)` still returns an edge. -/
theorem C7_counterexample :
    ¬ (∀ (g : Graph) (u v : Nat),
        (∀ e ∈ g.edges, ¬ (g.srcOf e = u ∧ g.tgtOf e = v)) →
          Graph.searchEdge g u v = none) := by
  intro h
  exact absurd (h gBack 0 1 (by decide)) (by decide)

/-- C7 (amended): `searchEdge(u, v)` linearly scans the rotation of
whichever endpoint has the smaller degree for a half-edge whose twin lies
on the other endpoint, so on a consistent graph it returns an edge exactly
when one connecting `u` and `v` in either direction exists (`none` when
absent), and any returned edge connects `u` and `v` — but possibly in the
reverse direction `v → u`. -/
theorem C7_search_edge_amended (g : Graph) (u v : Nat) (hwf : Graph.WF g)
    (hu : u ∈ g.nodes) (hv : v ∈ g.nodes) :
    (((Graph.searchEdge g u v).isSome : Prop) ↔
      ∃ e ∈ g.edges, (g.srcOf e = u ∧ g.tgtOf e = v) ∨ (g.srcOf e = v ∧ g.tgtOf e = u)) ∧
    ∀ e, Graph.searchEdge g u v = some e →
      e ∈ g.edges ∧ ((g.srcOf e = u ∧ g.tgtOf e = v) ∨ (g.srcOf e = v ∧ g.tgtOf e = u)) := by
  have hsE : Graph.searchEdge g u v =
      ((g.rotOf (if g.degreeOf v < g.degreeOf u then v else u)).find?
        (fun a => g.aTwinNodeOf a ==
          (if g.degreeOf v < g.degreeOf u then u else v))).map g.aEdgeOf := by
    unfold Graph.searchEdge
    rw [if_pos ⟨hu, hv⟩]
    by_cases hd : g.degreeOf v < g.degreeOf u
    · simp only [hd, if_true]
      cases hq : (g.rotOf v).find? (fun a => g.aTwinNodeOf a == u) <;> simp [hq]
    · simp only [hd, if_false]
      cases hq : (g.rotOf u).find? (fun a => g.aTwinNodeOf a == v) <;> simp [hq]
  have hmapSome : ∀ (o : Option Nat) (f : Nat → Nat), (o.map f).isSome = o.isSome := by
    intro o f
    cases o <;> rfl
  by_cases hd : g.degreeOf v < g.degreeOf u
  · rw [if_pos hd, if_pos hd] at hsE
    obtain ⟨hiff, hfound⟩ := searchScan_spec g v u hwf hv
    constructor
    · rw [hsE, hmapSome]
      exact hiff.trans ⟨fun ⟨e, h1, h2⟩ => ⟨e, h1, or_comm.1 h2⟩,
        fun ⟨e, h1, h2⟩ => ⟨e, h1, or_comm.1 h2⟩⟩
    · intro e heq
      rw [hsE, Option.map_eq_some'] at heq
      obtain ⟨a, ha, hae⟩ := heq
      obtain ⟨hm, hc⟩ := hfound a ha
      rw [← hae]
      exact ⟨hm, or_comm.1 hc⟩
  · rw [if_neg hd, if_neg hd] at hsE
    obtain ⟨hiff, hfound⟩ := searchScan_spec g u v hwf hu
    constructor
    · rw [hsE, hmapSome]
      exact hiff
    · intro e heq
      rw [hsE, Option.map_eq_some'] at heq
      obtain ⟨a, ha, hae⟩ := heq
      obtain ⟨hm, hc⟩ := hfound a ha
      rw [← hae]
      exact ⟨hm, hc⟩

/-- Witness for C7 at a concrete input: on the consistent graph `gBack` the
search `searchEdge(0, 1)` finds an edge, and that edge is the reverse edge
`1 → 0`. -/
theorem C7_search_edge_witness :
    ((Graph.searchEdge gBack 0 1).isSome : Prop) ∧
    (0 ∈ gBack.edges ∧
      ((gBack.srcOf 0 = 0 ∧ gBack.tgtOf 0 = 1) ∨ (gBack.srcOf 0 = 1 ∧ gBack.tgtOf 0 = 0))) := by
  have h := C7_search_edge_amended gBack 0 1
    (by unfold Graph.WF Graph.nodeOK Graph.edgeOK; decide) (by decide) (by decide)
  exact ⟨h.1.2 ⟨0, by decide, Or.inr (by decide)⟩, h.2 0 (by decide)⟩

theorem hideEdge_edgeA (g : Graph) (e : Nat) : (g.hideEdge e).edgeA = g.edgeA := by
  unfold Graph.hideEdge
  split <;> simp [updN_eq]

theorem hideEdge_adjA (g : Graph) (e : Nat) : (g.hideEdge e).adjA = g.adjA := by
  unfold Graph.hideEdge
  split <;> simp [updN_eq]

theorem restoreEdge_edgeA (g : Graph) (e : Nat) : (g.restoreEdge e).edgeA = g.edgeA := by
  unfold Graph.restoreEdge
  split <;> simp [updN_eq]

theorem restoreEdge_adjA (g : Graph) (e : Nat) : (g.restoreEdge e).adjA = g.adjA := by
  unfold Graph.restoreEdge
  split <;> simp [updN_eq]

theorem updN_isSome (g : Graph) (m : Nat) (f : NodeElement → NodeElement) (n : Nat) :
    ((g.updN m f).nodeA n).isSome = (g.nodeA n).isSome := by
  by_cases h : n = m
  · rw [updN_eq]
    simp only [h, if_pos rfl]
    cases g.nodeA m <;> simp
  · simp [updN_eq, h]

theorem hideEdge_isSome (g : Graph) (e n : Nat) :
    ((g.hideEdge e).nodeA n).isSome = (g.nodeA n).isSome := by
  unfold Graph.hideEdge
  split
  · exact (updN_isSome _ _ _ n).trans (updN_isSome g _ _ n)
  · rfl

theorem restoreEdge_isSome (g : Graph) (e n : Nat) :
    ((g.restoreEdge e).nodeA n).isSome = (g.nodeA n).isSome := by
  unfold Graph.restoreEdge
  split
  · exact (updN_isSome _ _ _ n).trans (updN_isSome g _ _ n)
  · rfl

theorem hideEdge_edges (g : Graph) (e : Nat) :
    (g.hideEdge e).edges = if e ∈ g.edges then g.edges.erase e else g.edges := by
  by_cases he : e ∈ g.edges <;> simp [Graph.hideEdge, updN_eq, he]

theorem hideEdge_hidden (g : Graph) (e : Nat) :
    (g.hideEdge e).m_hiddenEdges =
      if e ∈ g.edges then g.m_hiddenEdges ++ [e] else g.m_hiddenEdges := by
  by_cases he : e ∈ g.edges <;> simp [Graph.hideEdge, updN_eq, he]

theorem edge_projs_congr {g g' : Graph} (h : ∀ f, g'.edgeA f = g.edgeA f) (f : Nat) :
    g'.srcOf f = g.srcOf f ∧ g'.tgtOf f = g.tgtOf f ∧
    g'.aSrcOf f = g.aSrcOf f ∧ g'.aTgtOf f = g.aTgtOf f := by
  refine ⟨?_, ?_, ?_, ?_⟩
  · unfold Graph.srcOf
    rw [h f]
  · unfold Graph.tgtOf
    rw [h f]
  · unfold Graph.aSrcOf
    rw [h f]
  · unfold Graph.aTgtOf
    rw [h f]

theorem hideEdge_deg (g : Graph) (e : Nat) (hin : e ∈ g.edges)
    (hS : ((g.nodeA (g.srcOf e)).isSome : Prop))
    (hT : ((g.nodeA (g.tgtOf e)).isSome : Prop)) (n : Nat) :
    (g.hideEdge e).indegOf n = (if n = g.tgtOf e then g.indegOf n - 1 else g.indegOf n) ∧
    (g.hideEdge e).outdegOf n = (if n = g.srcOf e then g.outdegOf n - 1 else g.outdegOf n) := by
  obtain ⟨NS, hNS⟩ := Option.isSome_iff_exists.1 hS
  obtain ⟨NT, hNT⟩ := Option.isSome_iff_exists.1 hT
  by_cases hn1 : n = g.srcOf e <;> by_cases hn2 : n = g.tgtOf e
  · subst hn1
    constructor
    · rw [if_pos hn2]
      simp [Graph.hideEdge, updN_eq, Graph.indegOf, hin, hn2, hNT]
    · rw [if_pos rfl]
      simp [Graph.hideEdge, updN_eq, Graph.outdegOf, hin, hn2, hNT]
  · subst hn1
    constructor
    · rw [if_neg hn2]
      simp [Graph.hideEdge, updN_eq, Graph.indegOf, hin, hn2, hNS]
    · rw [if_pos rfl]
      simp [Graph.hideEdge, updN_eq, Graph.outdegOf, hin, hn2, hNS]
  · subst hn2
    constructor
    · rw [if_pos rfl]
      simp [Graph.hideEdge, updN_eq, Graph.indegOf, hin, hn1, hNT]
    · rw [if_neg hn1]
      simp [Graph.hideEdge, updN_eq, Graph.outdegOf, hin, hn1, hNT]
  · constructor
    · rw [if_neg hn2]
      simp [Graph.hideEdge, updN_eq, Graph.indegOf, hin, hn1, hn2]
    · rw [if_neg hn1]
      simp [Graph.hideEdge, updN_eq, Graph.outdegOf, hin, hn1, hn2]

theorem restoreEdge_deg (g : Graph) (e : Nat) (hin : e ∈ g.m_hiddenEdges)
    (hS : ((g.nodeA (g.srcOf e)).isSome : Prop))
    (hT : ((g.nodeA (g.tgtOf e)).isSome : Prop)) (n : Nat) :
    (g.restoreEdge e).indegOf n = (if n = g.tgtOf e then g.indegOf n + 1 else g.indegOf n) ∧
    (g.restoreEdge e).outdegOf n = (if n = g.srcOf e then g.outdegOf n + 1 else g.outdegOf n) := by
  obtain ⟨NS, hNS⟩ := Option.isSome_iff_exists.1 hS
  obtain ⟨NT, hNT⟩ := Option.isSome_iff_exists.1 hT
  by_cases hn1 : n = g.srcOf e <;> by_cases hn2 : n = g.tgtOf e
  · subst hn1
    constructor
    · rw [if_pos hn2]
      simp [Graph.restoreEdge, updN_eq, Graph.indegOf, hin, hn2, hNT]
    · rw [if_pos rfl]
      simp [Graph.restoreEdge, updN_eq, Graph.outdegOf, hin, hn2, hNT]
  · subst hn1
    constructor
    · rw [if_neg hn2]
      simp [Graph.restoreEdge, updN_eq, Graph.indegOf, hin, hn2, hNS]
    · rw [if_pos rfl]
      simp [Graph.restoreEdge, updN_eq, Graph.outdegOf, hin, hn2, hNS]
  · subst hn2
    constructor
    · rw [if_pos rfl]
      simp [Graph.restoreEdge, updN_eq, Graph.indegOf, hin, hn1, hNT]
    · rw [if_neg hn1]
      simp [Graph.restoreEdge, updN_eq, Graph.outdegOf, hin, hn1, hNT]
  · constructor
    · rw [if_neg hn2]
      simp [Graph.restoreEdge, updN_eq, Graph.indegOf, hin, hn1, hn2]
    · rw [if_neg hn1]
      simp [Graph.restoreEdge, updN_eq, Graph.outdegOf, hin, hn1, hn2]

theorem hideEdge_rot (g : Graph) (e : Nat) (hin : e ∈ g.edges)
    (hS : ((g.nodeA (g.srcOf e)).isSome : Prop))
    (hT : ((g.nodeA (g.tgtOf e)).isSome : Prop)) (n : Nat) :
    (g.hideEdge e).rotOf n =
      if n = g.tgtOf e then
        (if n = g.srcOf e then (g.rotOf n).erase (g.aSrcOf e) else g.rotOf n).erase (g.aTgtOf e)
      else if n = g.srcOf e then (g.rotOf n).erase (g.aSrcOf e) else g.rotOf n := by
  obtain ⟨NS, hNS⟩ := Option.isSome_iff_exists.1 hS
  obtain ⟨NT, hNT⟩ := Option.isSome_iff_exists.1 hT
  by_cases hn1 : n = g.srcOf e <;> by_cases hn2 : n = g.tgtOf e
  · subst hn1
    rw [if_pos hn2, if_pos rfl]
    simp [Graph.hideEdge, updN_eq, Graph.rotOf, hin, hn2, hNT]
  · subst hn1
    rw [if_neg hn2, if_pos rfl]
    simp [Graph.hideEdge, updN_eq, Graph.rotOf, hin, hn2, hNS]
  · subst hn2
    rw [if_pos rfl, if_neg hn1]
    simp [Graph.hideEdge, updN_eq, Graph.rotOf, hin, hn1, hNT]
  · rw [if_neg hn2, if_neg hn1]
    simp [Graph.hideEdge, updN_eq, Graph.rotOf, hin, hn1, hn2]

theorem restoreEdge_rot (g : Graph) (e : Nat) (hin : e ∈ g.m_hiddenEdges)
    (hS : ((g.nodeA (g.srcOf e)).isSome : Prop))
    (hT : ((g.nodeA (g.tgtOf e)).isSome : Prop)) (n : Nat) :
    (g.restoreEdge e).rotOf n =
      if n = g.tgtOf e then
        pushBackL (if n = g.srcOf e then pushBackL (g.rotOf n) (g.aSrcOf e) else g.rotOf n)
          (g.aTgtOf e)
      else if n = g.srcOf e then pushBackL (g.rotOf n) (g.aSrcOf e) else g.rotOf n := by
  obtain ⟨NS, hNS⟩ := Option.isSome_iff_exists.1 hS
  obtain ⟨NT, hNT⟩ := Option.isSome_iff_exists.1 hT
  by_cases hn1 : n = g.srcOf e <;> by_cases hn2 : n = g.tgtOf e
  · subst hn1
    rw [if_pos hn2, if_pos rfl]
    simp [Graph.restoreEdge, updN_eq, Graph.rotOf, pushBackL, hin, hn2, hNT]
  · subst hn1
    rw [if_neg hn2, if_pos rfl]
    simp [Graph.restoreEdge, updN_eq, Graph.rotOf, pushBackL, hin, hn2, hNS]
  · subst hn2
    rw [if_pos rfl, if_neg hn1]
    simp [Graph.restoreEdge, updN_eq, Graph.rotOf, pushBackL, hin, hn1, hNT]
  · rw [if_neg hn2, if_neg hn1]
    simp [Graph.restoreEdge, updN_eq, Graph.rotOf, pushBackL, hin, hn1, hn2]

theorem hide_perm_eq (A H : List Nat) (e : Nat) (hin : e ∈ A) :
    List.Perm (A.erase e ++ (H ++ [e])) (A ++ H) := by
  have s1 : List.Perm (A.erase e ++ (H ++ [e])) (A.erase e ++ ([e] ++ H)) :=
    List.Perm.append_left _ List.perm_append_comm
  have s2 : A.erase e ++ ([e] ++ H) = (A.erase e ++ [e]) ++ H := (List.append_assoc _ _ _).symm
  have s3 : List.Perm ((A.erase e ++ [e]) ++ H) (A ++ H) :=
    List.Perm.append_right _ (erase_append_singleton_perm hin)
  have s4 : List.Perm (A.erase e ++ ([e] ++ H)) (A ++ H) := by
    rw [s2]
    exact s3
  exact s1.trans s4

theorem restoreFold_deg :
    ∀ (l : List Nat) (g : Graph), List.Perm g.m_hiddenEdges l →
      (∀ e ∈ l, ((g.nodeA (g.srcOf e)).isSome : Prop) ∧
        ((g.nodeA (g.tgtOf e)).isSome : Prop)) →
      ∀ n, (l.foldl Graph.restoreEdge g).indegOf n
            = g.indegOf n + (l.countP (fun f => g.tgtOf f == n) : Int) ∧
           (l.foldl Graph.restoreEdge g).outdegOf n
            = g.outdegOf n + (l.countP (fun f => g.srcOf f == n) : Int)
  | [], g, hp, hrec, n => by simp
  | e :: t, g, hp, hrec, n => by
    have he : e ∈ g.m_hiddenEdges := hp.mem_iff.2 (List.mem_cons_self e t)
    have hS := (hrec e (List.mem_cons_self e t)).1
    have hT := (hrec e (List.mem_cons_self e t)).2
    have hAe : ∀ f, (g.restoreEdge e).edgeA f = g.edgeA f := fun f => by
      rw [restoreEdge_edgeA]
    have hp' : List.Perm (g.restoreEdge e).m_hiddenEdges t := by
      rw [restoreEdge_hidden, if_pos he]
      have h2 := hp.erase e
      rw [List.erase_cons_head] at h2
      exact h2
    have hrec' : ∀ f ∈ t,
        (((g.restoreEdge e).nodeA ((g.restoreEdge e).srcOf f)).isSome : Prop) ∧
        (((g.restoreEdge e).nodeA ((g.restoreEdge e).tgtOf f)).isSome : Prop) := by
      intro f hf
      obtain ⟨c1, c2, _, _⟩ := edge_projs_congr hAe f
      rw [c1, c2, restoreEdge_isSome, restoreEdge_isSome]
      exact hrec f (List.mem_cons_of_mem e hf)
    have ih := restoreFold_deg t (g.restoreEdge e) hp' hrec' n
    have hfun1 : (fun f => (g.restoreEdge e).tgtOf f == n) = (fun f => g.tgtOf f == n) := by
      funext f
      rw [(edge_projs_congr hAe f).2.1]
    have hfun2 : (fun f => (g.restoreEdge e).srcOf f == n) = (fun f => g.srcOf f == n) := by
      funext f
      rw [(edge_projs_congr hAe f).1]
    rw [hfun1, hfun2] at ih
    obtain ⟨ih1, ih2⟩ := ih
    obtain ⟨hd1, hd2⟩ := restoreEdge_deg g e he hS hT n
    rw [List.foldl_cons]
    constructor
    · rw [ih1, hd1, List.countP_cons]
      by_cases hq : n = g.tgtOf e
      · have hq0 : g.tgtOf e = n := hq.symm
        simp only [hq0]
        simp
        omega
      · have hq0 : ¬ (g.tgtOf e = n) := fun hc => hq hc.symm
        simp [hq, hq0]
    · rw [ih2, hd2, List.countP_cons]
      by_cases hq : n = g.srcOf e
      · have hq0 : g.srcOf e = n := hq.symm
        simp only [hq0]
        simp
        omega
      · have hq0 : ¬ (g.srcOf e = n) := fun hc => hq hc.symm
        simp [hq, hq0]

theorem hideFold_inv :
    ∀ (l : List Nat) (g0 g : Graph), Graph.WF g0 →
      (∀ f, g.edgeA f = g0.edgeA f) →
      (∀ m, (g.nodeA m).isSome = (g0.nodeA m).isSome) →
      List.Perm (g.edges ++ g.m_hiddenEdges) g0.edges →
      (∀ n, g.indegOf n + (g.m_hiddenEdges.countP (fun f => g0.tgtOf f == n) : Int)
          = g0.indegOf n) →
      (∀ n, g.outdegOf n + (g.m_hiddenEdges.countP (fun f => g0.srcOf f == n) : Int)
          = g0.outdegOf n) →
      ((∀ f, (l.foldl Graph.hideEdge g).edgeA f = g0.edgeA f) ∧
       (∀ m, ((l.foldl Graph.hideEdge g).nodeA m).isSome = (g0.nodeA m).isSome) ∧
       List.Perm ((l.foldl Graph.hideEdge g).edges ++ (l.foldl Graph.hideEdge g).m_hiddenEdges)
         g0.edges ∧
       (∀ n, (l.foldl Graph.hideEdge g).indegOf n
           + ((l.foldl Graph.hideEdge g).m_hiddenEdges.countP (fun f => g0.tgtOf f == n) : Int)
           = g0.indegOf n) ∧
       (∀ n, (l.foldl Graph.hideEdge g).outdegOf n
           + ((l.foldl Graph.hideEdge g).m_hiddenEdges.countP (fun f => g0.srcOf f == n) : Int)
           = g0.outdegOf n))
  | [], _, _, _, h1, h2, h3, h4, h5 => ⟨h1, h2, h3, h4, h5⟩
  | e :: t, g0, g, hwf, h1, h2, h3, h4, h5 => by
    rw [List.foldl_cons]
    by_cases hin : e ∈ g.edges
    case neg =>
      have hid : g.hideEdge e = g := by
        unfold Graph.hideEdge
        rw [if_neg hin]
      rw [hid]
      exact hideFold_inv t g0 g hwf h1 h2 h3 h4 h5
    have hmem0 : e ∈ g0.edges := h3.mem_iff.1 (List.mem_append.2 (Or.inl hin))
    obtain ⟨ndN, ndE, hn, heok⟩ := hwf
    obtain ⟨k1, k2, k3, k4, _⟩ := heok e hmem0
    obtain ⟨c1, c2, _, _⟩ := edge_projs_congr h1 e
    have hS : ((g.nodeA (g.srcOf e)).isSome : Prop) := by
      rw [c1, h2]
      exact (hn _ k3).2.1
    have hT : ((g.nodeA (g.tgtOf e)).isSome : Prop) := by
      rw [c2, h2]
      exact (hn _ k4).2.1
    have hA' : ∀ f, (g.hideEdge e).edgeA f = g0.edgeA f := fun f => by
      rw [hideEdge_edgeA]
      exact h1 f
    have hN' : ∀ m, ((g.hideEdge e).nodeA m).isSome = (g0.nodeA m).isSome := fun m => by
      rw [hideEdge_isSome]
      exact h2 m
    have hP' : List.Perm ((g.hideEdge e).edges ++ (g.hideEdge e).m_hiddenEdges) g0.edges := by
      rw [hideEdge_edges, hideEdge_hidden, if_pos hin, if_pos hin]
      exact (hide_perm_eq g.edges g.m_hiddenEdges e hin).trans h3
    have hI' : ∀ n, (g.hideEdge e).indegOf n
        + ((g.hideEdge e).m_hiddenEdges.countP (fun f => g0.tgtOf f == n) : Int)
        = g0.indegOf n := by
      intro n
      rw [(hideEdge_deg g e hin hS hT n).1, hideEdge_hidden, if_pos hin, List.countP_append]
      have h4n := h4 n
      rw [c2]
      by_cases hq : n = g0.tgtOf e
      · have hq0 : g0.tgtOf e = n := hq.symm
        simp [hq0]
        omega
      · have hq0 : ¬ (g0.tgtOf e = n) := fun hc => hq hc.symm
        simp [hq, hq0]
        omega
    have hO' : ∀ n, (g.hideEdge e).outdegOf n
        + ((g.hideEdge e).m_hiddenEdges.countP (fun f => g0.srcOf f == n) : Int)
        = g0.outdegOf n := by
      intro n
      rw [(hideEdge_deg g e hin hS hT n).2, hideEdge_hidden, if_pos hin, List.countP_append]
      have h5n := h5 n
      rw [c1]
      by_cases hq : n = g0.srcOf e
      · have hq0 : g0.srcOf e = n := hq.symm
        simp [hq0]
        omega
      · have hq0 : ¬ (g0.srcOf e = n) := fun hc => hq hc.symm
        simp [hq, hq0]
        omega
    exact hideFold_inv t g0 (g.hideEdge e) ⟨ndN, ndE, hn, heok⟩ hA' hN' hP' hI' hO'

/-- C6: hiding a live, non-hidden edge and immediately restoring it leaves
the edge and half-edge arenas (ids, twins, endpoints) bit-identical,
returns the hidden list to its old value, moves the edge to the tail of the
edge list, reattaches the two half-edges at the tails of their endpoints'
rotations (self-loops: both at the tail of the one rotation), and restores
every node's in/out-degree; and after any sequence of hides starting from a
consistent graph with nothing hidden, `restoreAllEdges` empties the hidden
list, returns the edge list to a permutation of the original, and restores
every node's degree counters. -/
theorem C6_hide_restore :
    (∀ (g : Graph) (e : Nat), Graph.WF g → e ∈ g.edges → e ∉ g.m_hiddenEdges →
      (Graph.restoreEdge (Graph.hideEdge g e) e).edgeA = g.edgeA ∧
      (Graph.restoreEdge (Graph.hideEdge g e) e).adjA = g.adjA ∧
      (Graph.restoreEdge (Graph.hideEdge g e) e).m_hiddenEdges = g.m_hiddenEdges ∧
      (Graph.restoreEdge (Graph.hideEdge g e) e).edges = g.edges.erase e ++ [e] ∧
      (∀ n, (Graph.restoreEdge (Graph.hideEdge g e) e).indegOf n = g.indegOf n ∧
            (Graph.restoreEdge (Graph.hideEdge g e) e).outdegOf n = g.outdegOf n) ∧
      (g.srcOf e ≠ g.tgtOf e →
        (Graph.restoreEdge (Graph.hideEdge g e) e).rotOf (g.srcOf e)
            = (g.rotOf (g.srcOf e)).erase (g.aSrcOf e) ++ [g.aSrcOf e] ∧
        (Graph.restoreEdge (Graph.hideEdge g e) e).rotOf (g.tgtOf e)
            = (g.rotOf (g.tgtOf e)).erase (g.aTgtOf e) ++ [g.aTgtOf e]) ∧
      (g.srcOf e = g.tgtOf e →
        (Graph.restoreEdge (Graph.hideEdge g e) e).rotOf (g.srcOf e)
            = ((g.rotOf (g.srcOf e)).erase (g.aSrcOf e)).erase (g.aTgtOf e)
                ++ [g.aSrcOf e, g.aTgtOf e]) ∧
      (∀ n, n ≠ g.srcOf e → n ≠ g.tgtOf e →
        (Graph.restoreEdge (Graph.hideEdge g e) e).rotOf n = g.rotOf n)) ∧
    (∀ (l : List Nat) (g0 : Graph), Graph.WF g0 → g0.m_hiddenEdges = [] →
      (Graph.restoreAllEdges (l.foldl Graph.hideEdge g0)).m_hiddenEdges = [] ∧
      List.Perm (Graph.restoreAllEdges (l.foldl Graph.hideEdge g0)).edges g0.edges ∧
      (∀ n, (Graph.restoreAllEdges (l.foldl Graph.hideEdge g0)).indegOf n = g0.indegOf n ∧
            (Graph.restoreAllEdges (l.foldl Graph.hideEdge g0)).outdegOf n = g0.outdegOf n)) := by
  constructor
  · intro g e hwf hin hh
    obtain ⟨ndN, ndE, hn, heok⟩ := hwf
    obtain ⟨k1, k2, k3, k4, _⟩ := heok e hin
    have hS : ((g.nodeA (g.srcOf e)).isSome : Prop) := (hn _ k3).2.1
    have hT : ((g.nodeA (g.tgtOf e)).isSome : Prop) := (hn _ k4).2.1
    have hAe : ∀ f, (g.hideEdge e).edgeA f = g.edgeA f := fun f => by
      rw [hideEdge_edgeA]
    obtain ⟨c1, c2, c3, c4⟩ := edge_projs_congr hAe e
    have ghHid : (g.hideEdge e).m_hiddenEdges = g.m_hiddenEdges ++ [e] := by
      rw [hideEdge_hidden, if_pos hin]
    have ghE : (g.hideEdge e).edges = g.edges.erase e := by
      rw [hideEdge_edges, if_pos hin]
    have heh : e ∈ (g.hideEdge e).m_hiddenEdges := by
      rw [ghHid]
      exact List.mem_append.2 (Or.inr (List.mem_singleton.2 rfl))
    have hS' : (((g.hideEdge e).nodeA ((g.hideEdge e).srcOf e)).isSome : Prop) := by
      rw [c1, hideEdge_isSome]
      exact hS
    have hT' : (((g.hideEdge e).nodeA ((g.hideEdge e).tgtOf e)).isSome : Prop) := by
      rw [c2, hideEdge_isSome]
      exact hT
    refine ⟨(restoreEdge_edgeA _ e).trans (hideEdge_edgeA g e),
      (restoreEdge_adjA _ e).trans (hideEdge_adjA g e), ?_, ?_, ?_, ?_, ?_, ?_⟩
    · rw [restoreEdge_hidden, if_pos heh, ghHid]
      rw [List.erase_append_right _ hh, List.erase_cons_head, List.append_nil]
    · rw [restoreEdge_edges, if_pos heh, ghE]
    · intro n
      obtain ⟨hd1i, hd1o⟩ := hideEdge_deg g e hin hS hT n
      obtain ⟨hd2i, hd2o⟩ := restoreEdge_deg (g.hideEdge e) e heh hS' hT' n
      rw [c2] at hd2i
      rw [c1] at hd2o
      constructor
      · rw [hd2i, hd1i]
        by_cases hq : n = g.tgtOf e <;> simp [hq] <;> omega
      · rw [hd2o, hd1o]
        by_cases hq : n = g.srcOf e <;> simp [hq] <;> omega
    · intro hst
      have hst' : ¬ g.srcOf e = g.tgtOf e := hst
      have hts' : ¬ g.tgtOf e = g.srcOf e := fun hc => hst hc.symm
      constructor
      · have hr1 := restoreEdge_rot (g.hideEdge e) e heh hS' hT' (g.srcOf e)
        rw [c1, c2, c3, c4, hideEdge_rot g e hin hS hT (g.srcOf e)] at hr1
        simpa [hst', pushBackL] using hr1
      · have hr1 := restoreEdge_rot (g.hideEdge e) e heh hS' hT' (g.tgtOf e)
        rw [c1, c2, c3, c4, hideEdge_rot g e hin hS hT (g.tgtOf e)] at hr1
        simpa [hts', pushBackL] using hr1
    · intro hst
      have hr1 := restoreEdge_rot (g.hideEdge e) e heh hS' hT' (g.srcOf e)
      rw [c1, c2, c3, c4, hideEdge_rot g e hin hS hT (g.srcOf e)] at hr1
      simpa [hst, pushBackL] using hr1
    · intro n hn1 hn2
      have hn1' : ¬ n = g.srcOf e := hn1
      have hn2' : ¬ n = g.tgtOf e := hn2
      have hr1 := restoreEdge_rot (g.hideEdge e) e heh hS' hT' n
      rw [c1, c2, c3, c4, hideEdge_rot g e hin hS hT n] at hr1
      simpa [hn1', hn2'] using hr1
  · intro l g0 hwf h0
    obtain ⟨hA, hN, hP, hI, hO⟩ := hideFold_inv l g0 g0 hwf (fun _ => rfl) (fun _ => rfl)
      (by rw [h0]; simp) (by intro n; rw [h0]; simp) (by intro n; rw [h0]; simp)
    have hhr : ∀ e ∈ (l.foldl Graph.hideEdge g0).m_hiddenEdges.reverse,
        (((l.foldl Graph.hideEdge g0).nodeA ((l.foldl Graph.hideEdge g0).srcOf e)).isSome : Prop) ∧
        (((l.foldl Graph.hideEdge g0).nodeA ((l.foldl Graph.hideEdge g0).tgtOf e)).isSome : Prop) := by
      intro e he'
      rw [List.mem_reverse] at he'
      have hmem0 : e ∈ g0.edges := hP.mem_iff.1 (List.mem_append.2 (Or.inr he'))
      obtain ⟨ndN, ndE, hn, heok⟩ := hwf
      obtain ⟨k1, k2, k3, k4, _⟩ := heok e hmem0
      obtain ⟨c1, c2, _, _⟩ := edge_projs_congr hA e
      constructor
      · rw [c1, hN]
        exact (hn _ k3).2.1
      · rw [c2, hN]
        exact (hn _ k4).2.1
    have hperm : List.Perm (l.foldl Graph.hideEdge g0).m_hiddenEdges
        (l.foldl Graph.hideEdge g0).m_hiddenEdges.reverse := (List.reverse_perm _).symm
    have hdeg := restoreFold_deg _ _ hperm hhr
    have hstt := restoreFold_state (l.foldl Graph.hideEdge g0).m_hiddenEdges.reverse _ hperm
    refine ⟨?_, ?_, ?_⟩
    · unfold Graph.restoreAllEdges
      exact hstt.1
    · unfold Graph.restoreAllEdges
      exact hstt.2.trans hP
    · intro n
      have hd := hdeg n
      constructor
      · show (Graph.restoreAllEdges (l.foldl Graph.hideEdge g0)).indegOf n = g0.indegOf n
        unfold Graph.restoreAllEdges
        rw [hd.1]
        have hfun : (fun f => (l.foldl Graph.hideEdge g0).tgtOf f == n)
            = (fun f => g0.tgtOf f == n) := by
          funext f
          rw [(edge_projs_congr hA f).2.1]
        rw [hfun, hperm.symm.countP_eq]
        exact hI n
      · show (Graph.restoreAllEdges (l.foldl Graph.hideEdge g0)).outdegOf n = g0.outdegOf n
        unfold Graph.restoreAllEdges
        rw [hd.2]
        have hfun : (fun f => (l.foldl Graph.hideEdge g0).srcOf f == n)
            = (fun f => g0.srcOf f == n) := by
          funext f
          rw [(edge_projs_congr hA f).1]
        rw [hfun, hperm.symm.countP_eq]
        exact hO n

/-- Witness for C6 at a concrete input: hide-then-restore of the sole edge
of `gE01` restores every degree counter, and `restoreAllEdges` after one
hide leaves nothing hidden. -/
theorem C6_hide_restore_witness :
    (∀ n, (Graph.restoreEdge (Graph.hideEdge gE01 0) 0).indegOf n = gE01.indegOf n ∧
          (Graph.restoreEdge (Graph.hideEdge gE01 0) 0).outdegOf n = gE01.outdegOf n) ∧
    (Graph.restoreAllEdges (([0] : List Nat).foldl Graph.hideEdge gE01)).m_hiddenEdges = [] :=
  ⟨(C6_hide_restore.1 gE01 0 (by unfold Graph.WF Graph.nodeOK Graph.edgeOK; decide)
      (by decide) (by decide)).2.2.2.2.1,
   (C6_hide_restore.2 [0] gE01 (by unfold Graph.WF Graph.nodeOK Graph.edgeOK; decide)
      (by decide)).1⟩

/-- C4: every deletion (delNode, delEdge, unsplit) notifies each registered
observer before the element leaves the object lists, with a snapshot in
which the element is still present and its records still queryable, and the
notification batch walks `m_regStructures`, whose order is registration
order (`registerStructure` appends).  For `delEdge`/`delNode` the snapshot
is the completely unmodified pre-state; for `unsplit` it is the state after
the half-edge transplant but before `eOut` and the node are removed. -/
theorem C4_deletion_notifications :
    (∀ (g : Graph) (oid : Nat),
      (Graph.registerStructure g oid).m_regStructures
        = g.m_regStructures ++ [{ oid := oid, connected := true }]) ∧
    (∀ (g : Graph) (e : Nat), Graph.WF g → e ∈ g.edges →
      (g.delEdge e).2 = g.m_regStructures.map (fun o => Event.edgeDeleted o.oid e g) ∧
      ((g.edgeA e).isSome : Prop) ∧ g.aSrcOf e ∈ g.rotOf (g.srcOf e) ∧
      g.aTgtOf e ∈ g.rotOf (g.tgtOf e)) ∧
    (∀ (g : Graph) (v : Nat), Graph.WF g → v ∈ g.nodes →
      (g.delNode v).2 = g.m_regStructures.map (fun o => Event.nodeDeleted o.oid v g)
        ++ (Graph.delNodeLoop g v (g.rotOf v).length).2 ∧
      ((g.nodeA v).isSome : Prop)) ∧
    (∀ (g : Graph) (eIn eOut : Nat), Graph.WF g →
      eIn ∈ g.edges → eOut ∈ g.edges → g.indegOf (g.tgtOf eIn) = 1 →
      g.outdegOf (g.tgtOf eIn) = 1 → g.srcOf eOut = g.tgtOf eIn →
      g.srcOf eIn ≠ g.tgtOf eIn → g.srcOf eOut ≠ g.tgtOf eOut →
      ∃ (g4 : Graph) (ev0 : List Event),
        (g.unsplit eIn eOut).2
          = ev0 ++ (g4.m_regStructures.map (fun o => Event.edgeDeleted o.oid eOut g4)
            ++ g4.m_regStructures.map (fun o => Event.nodeDeleted o.oid (g.tgtOf eIn) g4)) ∧
        g4.m_regStructures = g.m_regStructures ∧
        eOut ∈ g4.edges ∧ g.tgtOf eIn ∈ g4.nodes ∧
        ((g4.edgeA eOut).isSome : Prop) ∧ ((g4.nodeA (g.tgtOf eIn)).isSome : Prop)) := by
  refine ⟨fun g oid => rfl, ?_, ?_, ?_⟩
  · intro g e hwf hin
    obtain ⟨ndN, ndE, hn, heok⟩ := hwf
    obtain ⟨k1, _, _, _, _, _, _, _, _, _, _, _, _, _, _, k16, k17⟩ := heok e hin
    refine ⟨?_, k1, k16, k17⟩
    unfold Graph.delEdge
    rw [if_pos hin]
  · intro g v hwf hv
    obtain ⟨ndN, ndE, hn, heok⟩ := hwf
    refine ⟨?_, (hn v hv).2.1⟩
    unfold Graph.delNode
    rw [if_pos hv]
  · intro g eIn eOut hwf h1 h2 h3 h4 h5 h6 h7
    have hG : eIn ∈ g.edges ∧ eOut ∈ g.edges ∧ g.indegOf (g.tgtOf eIn) = 1 ∧
        g.outdegOf (g.tgtOf eIn) = 1 ∧ g.srcOf eOut = g.tgtOf eIn ∧
        g.srcOf eIn ≠ g.tgtOf eIn ∧ g.srcOf eOut ≠ g.tgtOf eOut :=
      ⟨h1, h2, h3, h4, h5, h6, h7⟩
    have hne : eOut ≠ eIn := by
      intro hc
      rw [hc] at h5
      exact h6 h5
    obtain ⟨ndN, ndE, hn, heok⟩ := hwf
    have hu : g.tgtOf eIn ∈ g.nodes := (heok eIn h1).2.2.2.1
    have huS : ((g.nodeA (g.tgtOf eIn)).isSome : Prop) := (hn _ hu).2.1
    have hoS : ((g.edgeA eOut).isSome : Prop) := (heok eOut h2).1
    unfold Graph.unsplit
    rw [if_pos hG]
    refine ⟨_, _, rfl, ?_, ?_, ?_, ?_, ?_⟩
    · simp [updE_eq, updA_eq]
    · simp [updE_eq, updA_eq]
      exact h2
    · simp [updE_eq, updA_eq]
      exact hu
    · simp [updE_eq, updA_eq, fupd, hne]
      exact hoS
    · simp [updE_eq, updA_eq]
      exact huS

/-- Witness for C4 at a concrete input: on `gE01` with one registered
observer, `delEdge 0` fires exactly the per-observer edge-deleted batch
with the unmodified pre-state as snapshot, and the node record of node 0 is
still queryable in the `delNode 0` snapshot. -/
theorem C4_deletion_notifications_witness :
    ((Graph.registerStructure gE01 5).delEdge 0).2
        = (Graph.registerStructure gE01 5).m_regStructures.map
            (fun o => Event.edgeDeleted o.oid 0 (Graph.registerStructure gE01 5)) ∧
    (((Graph.registerStructure gE01 5).nodeA 0).isSome : Prop) :=
  ⟨(C4_deletion_notifications.2.1 (Graph.registerStructure gE01 5) 0
      (by unfold Graph.WF Graph.nodeOK Graph.edgeOK; decide) (by decide)).1,
   (C4_deletion_notifications.2.2.1 (Graph.registerStructure gE01 5) 0
      (by unfold Graph.WF Graph.nodeOK Graph.edgeOK; decide) (by decide)).2⟩

set_option maxHeartbeats 1600000 in
theorem unsplit_pointwise (g : Graph) (eIn eOut : Nat)
    (hG : eIn ∈ g.edges ∧ eOut ∈ g.edges ∧ g.indegOf (g.tgtOf eIn) = 1 ∧
      g.outdegOf (g.tgtOf eIn) = 1 ∧ g.srcOf eOut = g.tgtOf eIn ∧
      g.srcOf eIn ≠ g.tgtOf eIn ∧ g.srcOf eOut ≠ g.tgtOf eOut)
    (hST : g.aSrcOf eIn ≠ g.aTgtOf eOut) :
    (g.unsplit eIn eOut).1.nodeA = g.nodeA ∧
    (g.unsplit eIn eOut).1.edges = g.edges.erase eOut ∧
    (g.unsplit eIn eOut).1.nodes = g.nodes.erase (g.tgtOf eIn) ∧
    (g.unsplit eIn eOut).1.m_hiddenEdges = g.m_hiddenEdges ∧
    (g.unsplit eIn eOut).1.edgeA eIn = (g.edgeA eIn).map
      (fun E => { E with m_tgt := g.tgtOf eOut, m_adjTgt := g.aTgtOf eOut }) ∧
    (∀ f, f ≠ eIn → (g.unsplit eIn eOut).1.edgeA f = g.edgeA f) ∧
    (g.unsplit eIn eOut).1.adjA (g.aTgtOf eOut) = (g.adjA (g.aTgtOf eOut)).map
      (fun B => { B with
        m_id := g.aIdOf (g.aTgtOf eIn)
        m_twin := g.aSrcOf eIn
        m_edge := eIn }) ∧
    (g.unsplit eIn eOut).1.adjA (g.aSrcOf eIn) = (g.adjA (g.aSrcOf eIn)).map
      (fun A => { A with m_twin := g.aTgtOf eOut }) ∧
    (∀ a, a ≠ g.aTgtOf eOut → a ≠ g.aSrcOf eIn →
      (g.unsplit eIn eOut).1.adjA a = g.adjA a) := by
  have hTS : g.aTgtOf eOut ≠ g.aSrcOf eIn := fun hc => hST hc.symm
  refine ⟨?_, ?_, ?_, ?_, ?_, ?_, ?_, ?_, ?_⟩
  · unfold Graph.unsplit
    rw [if_pos hG]
    simp [updE_eq, updA_eq]
  · unfold Graph.unsplit
    rw [if_pos hG]
    simp [updE_eq, updA_eq]
  · unfold Graph.unsplit
    rw [if_pos hG]
    simp [updE_eq, updA_eq]
  · unfold Graph.unsplit
    rw [if_pos hG]
    simp [updE_eq, updA_eq]
  · unfold Graph.unsplit
    rw [if_pos hG]
    cases hEc : g.edgeA eIn <;>
      simp [updE_eq, updA_eq, fupd, Graph.aTgtOf, Graph.tgtOf, hEc]
  · intro f hf
    unfold Graph.unsplit
    rw [if_pos hG]
    simp [updE_eq, updA_eq, fupd, hf]
  · unfold Graph.unsplit
    rw [if_pos hG]
    set x := g.aTgtOf eOut with hx
    set y := g.aSrcOf eIn with hy
    cases hEc : g.edgeA eIn <;>
      cases hBc : g.adjA x <;>
        simp [updE_eq, updA_eq, fupd, Graph.aTgtOf, Graph.aIdOf, hEc, hBc, hST, hTS]
  · unfold Graph.unsplit
    rw [if_pos hG]
    set x := g.aTgtOf eOut with hx
    set y := g.aSrcOf eIn with hy
    cases hEc : g.edgeA eIn <;>
      cases hAc : g.adjA y <;>
        simp [updE_eq, updA_eq, fupd, Graph.aTgtOf, Graph.aIdOf, hEc, hAc, hST, hTS]
  · intro a h1 h2
    unfold Graph.unsplit
    rw [if_pos hG]
    simp [updE_eq, updA_eq, fupd, h1, h2]

set_option maxHeartbeats 6400000 in
theorem split_pointwise (g : Graph) (e : Nat) (hin : e ∈ g.edges)
    (E : EdgeElement) (hE : g.edgeA e = some E)
    (B : AdjElement) (hB : g.adjA E.m_adjTgt = some B)
    (hb2 : E.m_adjSrc < g.nextAdj) (hb3 : E.m_adjTgt < g.nextAdj)
    (hb4 : E.m_adjSrc ≠ E.m_adjTgt) (hne : e ≠ g.nextEdge) :
    (g.split e).1.nodes = g.nodes ++ [g.nextNode] ∧
    (g.split e).1.edges = g.edges ++ [g.nextEdge] ∧
    (g.split e).1.m_hiddenEdges = g.m_hiddenEdges ∧
    (g.split e).1.nextNode = g.nextNode + 1 ∧
    (∀ n, n ≠ g.nextNode → (g.split e).1.nodeA n = g.nodeA n) ∧
    (g.split e).1.nodeA g.nextNode = some
      { m_id := g.m_nodeIdCount
        m_indeg := 1
        m_outdeg := 1
        adjEdges := [g.nextAdj, g.nextAdj + 1] } ∧
    (∀ f, f ≠ e → f ≠ g.nextEdge → (g.split e).1.edgeA f = g.edgeA f) ∧
    (g.split e).1.edgeA e = some { E with m_tgt := g.nextNode, m_adjTgt := g.nextAdj } ∧
    (g.split e).1.edgeA g.nextEdge = some
      { idx := g.m_edgeIdCount
        m_src := g.nextNode
        m_tgt := E.m_tgt
        m_adjSrc := g.nextAdj + 1
        m_adjTgt := E.m_adjTgt } ∧
    (∀ a, a < g.nextAdj → a ≠ E.m_adjSrc → a ≠ E.m_adjTgt →
      (g.split e).1.adjA a = g.adjA a) ∧
    (g.split e).1.adjA E.m_adjSrc = (g.adjA E.m_adjSrc).map
      (fun A => { A with m_twin := g.nextAdj }) ∧
    (g.split e).1.adjA E.m_adjTgt = some
      { B with
        m_id := 2 * g.m_edgeIdCount + 1
        m_edge := g.nextEdge
        m_twin := g.nextAdj + 1 } ∧
    (g.split e).1.adjA g.nextAdj = some
      { m_id := B.m_id, m_edge := e, m_node := g.nextNode, m_twin := E.m_adjSrc } ∧
    (g.split e).1.adjA (g.nextAdj + 1) = some
      { m_id := 2 * g.m_edgeIdCount
        m_edge := g.nextEdge
        m_node := g.nextNode
        m_twin := E.m_adjTgt } := by
  have hne' : g.nextEdge ≠ e := fun hc => hne hc.symm
  have hTS : E.m_adjTgt ≠ E.m_adjSrc := fun hc => hb4 hc.symm
  have hS1 : E.m_adjSrc ≠ g.nextAdj := by omega
  have hS2 : E.m_adjSrc ≠ g.nextAdj + 1 := by omega
  have hT1 : E.m_adjTgt ≠ g.nextAdj := by omega
  have hT2 : E.m_adjTgt ≠ g.nextAdj + 1 := by omega
  have hS1' : g.nextAdj ≠ E.m_adjSrc := fun hc => hS1 hc.symm
  have hS2' : g.nextAdj + 1 ≠ E.m_adjSrc := fun hc => hS2 hc.symm
  have hT1' : g.nextAdj ≠ E.m_adjTgt := fun hc => hT1 hc.symm
  have hT2' : g.nextAdj + 1 ≠ E.m_adjTgt := fun hc => hT2 hc.symm
  have hA1 : g.nextAdj ≠ g.nextAdj + 1 := by omega
  have hA2 : g.nextAdj + 1 ≠ g.nextAdj := by omega
  refine ⟨?_, ?_, ?_, ?_, ?_, ?_, ?_, ?_, ?_, ?_, ?_, ?_, ?_, ?_⟩
  · unfold Graph.split Graph.newNode Graph.createEdgeElement
    rw [if_pos hin]
    by_cases hng : g.m_nodeIdCount = g.m_nodeArrayTableSize <;>
      by_cases hgrow : g.m_edgeIdCount = g.m_edgeArrayTableSize <;>
        simp [updN_eq, updA_eq, updE_eq, hng, hgrow]
  · unfold Graph.split Graph.newNode Graph.createEdgeElement
    rw [if_pos hin]
    by_cases hng : g.m_nodeIdCount = g.m_nodeArrayTableSize <;>
      by_cases hgrow : g.m_edgeIdCount = g.m_edgeArrayTableSize <;>
        simp [updN_eq, updA_eq, updE_eq, hng, hgrow]
  · unfold Graph.split Graph.newNode Graph.createEdgeElement
    rw [if_pos hin]
    by_cases hng : g.m_nodeIdCount = g.m_nodeArrayTableSize <;>
      by_cases hgrow : g.m_edgeIdCount = g.m_edgeArrayTableSize <;>
        simp [updN_eq, updA_eq, updE_eq, hng, hgrow]
  · unfold Graph.split Graph.newNode Graph.createEdgeElement
    rw [if_pos hin]
    by_cases hng : g.m_nodeIdCount = g.m_nodeArrayTableSize <;>
      by_cases hgrow : g.m_edgeIdCount = g.m_edgeArrayTableSize <;>
        simp [updN_eq, updA_eq, updE_eq, hng, hgrow]
  · intro n hn
    unfold Graph.split Graph.newNode Graph.createEdgeElement
    rw [if_pos hin]
    by_cases hng : g.m_nodeIdCount = g.m_nodeArrayTableSize <;>
      by_cases hgrow : g.m_edgeIdCount = g.m_edgeArrayTableSize <;>
        simp [updN_eq, updA_eq, updE_eq, fupd, hng, hgrow, hn]
  · unfold Graph.split Graph.newNode Graph.createEdgeElement
    rw [if_pos hin]
    by_cases hng : g.m_nodeIdCount = g.m_nodeArrayTableSize <;>
      by_cases hgrow : g.m_edgeIdCount = g.m_edgeArrayTableSize <;>
        simp [updN_eq, updA_eq, updE_eq, fupd, pushBackL, hng, hgrow]
  · intro f h1 h2
    unfold Graph.split Graph.newNode Graph.createEdgeElement
    rw [if_pos hin]
    by_cases hng : g.m_nodeIdCount = g.m_nodeArrayTableSize <;>
      by_cases hgrow : g.m_edgeIdCount = g.m_edgeArrayTableSize <;>
        simp [updN_eq, updA_eq, updE_eq, fupd, hng, hgrow, h1, h2]
  · unfold Graph.split Graph.newNode Graph.createEdgeElement
    rw [if_pos hin]
    by_cases hng : g.m_nodeIdCount = g.m_nodeArrayTableSize <;>
      by_cases hgrow : g.m_edgeIdCount = g.m_edgeArrayTableSize <;>
        simp [updN_eq, updA_eq, updE_eq, fupd, hng, hgrow, hne, hne', hE]
  · unfold Graph.split Graph.newNode Graph.createEdgeElement
    rw [if_pos hin]
    by_cases hng : g.m_nodeIdCount = g.m_nodeArrayTableSize <;>
      by_cases hgrow : g.m_edgeIdCount = g.m_edgeArrayTableSize <;>
        simp [Graph.tgtOf, Graph.aTgtOf, updN_eq, updA_eq, updE_eq, fupd, hng, hgrow,
          hne, hne', hE]
  · intro a ha h1 h2
    have h3 : a ≠ g.nextAdj := by omega
    have h4 : a ≠ g.nextAdj + 1 := by omega
    unfold Graph.split Graph.newNode Graph.createEdgeElement
    rw [if_pos hin]
    by_cases hng : g.m_nodeIdCount = g.m_nodeArrayTableSize <;>
      by_cases hgrow : g.m_edgeIdCount = g.m_edgeArrayTableSize <;>
        simp [Graph.aTgtOf, Graph.aSrcOf, updN_eq, updA_eq, updE_eq, fupd, hng, hgrow,
          hE, h1, h2, h3, h4, hne, hne', hb4, hTS, hS1, hS2, hT1, hT2, hS1', hS2',
          hT1', hT2', hA1, hA2]
  · unfold Graph.split Graph.newNode Graph.createEdgeElement
    rw [if_pos hin]
    by_cases hng : g.m_nodeIdCount = g.m_nodeArrayTableSize <;>
      by_cases hgrow : g.m_edgeIdCount = g.m_edgeArrayTableSize <;>
        simp [Graph.aTgtOf, Graph.aSrcOf, updN_eq, updA_eq, updE_eq, fupd, hng, hgrow,
          hE, hne, hne', hb4, hTS, hS1, hS2, hT1, hT2, hS1', hS2', hT1', hT2', hA1, hA2]
  · unfold Graph.split Graph.newNode Graph.createEdgeElement
    rw [if_pos hin]
    by_cases hng : g.m_nodeIdCount = g.m_nodeArrayTableSize <;>
      by_cases hgrow : g.m_edgeIdCount = g.m_edgeArrayTableSize <;>
        simp [Graph.aTgtOf, Graph.aSrcOf, updN_eq, updA_eq, updE_eq, fupd, hng, hgrow,
          hE, hB, hne, hne', hb4, hTS, hS1, hS2, hT1, hT2, hS1', hS2', hT1', hT2',
          hA1, hA2]
  · unfold Graph.split Graph.newNode Graph.createEdgeElement
    rw [if_pos hin]
    by_cases hng : g.m_nodeIdCount = g.m_nodeArrayTableSize <;>
      by_cases hgrow : g.m_edgeIdCount = g.m_edgeArrayTableSize <;>
        simp [Graph.aTgtOf, Graph.aSrcOf, Graph.aIdOf, updN_eq, updA_eq, updE_eq, fupd,
          hng, hgrow, hE, hB, hne, hne', hb4, hTS, hS1, hS2, hT1, hT2, hS1', hS2',
          hT1', hT2', hA1, hA2]
  · unfold Graph.split Graph.newNode Graph.createEdgeElement
    rw [if_pos hin]
    by_cases hng : g.m_nodeIdCount = g.m_nodeArrayTableSize <;>
      by_cases hgrow : g.m_edgeIdCount = g.m_edgeArrayTableSize <;>
        simp [Graph.aTgtOf, Graph.aSrcOf, Graph.aIdOf, updN_eq, updA_eq, updE_eq, fupd,
          hng, hgrow, hE, hB, hne, hne', hb4, hTS, hS1, hS2, hT1, hT2, hS1', hS2',
          hT1', hT2', hA1, hA2]

theorem split_ret (g : Graph) (e : Nat) (hin : e ∈ g.edges) :
    (g.split e).2.1 = g.nextEdge := by
  unfold Graph.split Graph.newNode Graph.createEdgeElement
  rw [if_pos hin]
  by_cases hng : g.m_nodeIdCount = g.m_nodeArrayTableSize <;>
    by_cases hgrow : g.m_edgeIdCount = g.m_edgeArrayTableSize <;>
      simp [updN_eq, updA_eq, updE_eq, hng, hgrow]

/-- C2: on a consistent graph, after `split(e)` the unsplit preconditions
hold for the pair `(e, e2)` — the fresh middle node has in-degree 1 and
out-degree 1, `e2` leaves it, and neither edge is a self-loop — and
`unsplit(e, e2)` then restores the entire observable graph state
(node/edge/hidden lists, all node, edge and half-edge records reachable
from them) exactly, in particular the original target-side half-edge id of
`e`. -/
theorem C2_split_unsplit (g : Graph) (e : Nat) (hwf : Graph.WF g) (hin : e ∈ g.edges) :
    (e ∈ (g.split e).1.edges ∧ (g.split e).2.1 ∈ (g.split e).1.edges ∧
     (g.split e).1.indegOf ((g.split e).1.tgtOf e) = 1 ∧
     (g.split e).1.outdegOf ((g.split e).1.tgtOf e) = 1 ∧
     (g.split e).1.srcOf ((g.split e).2.1) = (g.split e).1.tgtOf e ∧
     (g.split e).1.srcOf e ≠ (g.split e).1.tgtOf e ∧
     (g.split e).1.srcOf ((g.split e).2.1) ≠ (g.split e).1.tgtOf ((g.split e).2.1)) ∧
    visible ((g.split e).1.unsplit e ((g.split e).2.1)).1 = visible g ∧
    ((g.split e).1.unsplit e ((g.split e).2.1)).1.aIdOf
        (((g.split e).1.unsplit e ((g.split e).2.1)).1.aTgtOf e)
      = g.aIdOf (g.aTgtOf e) := by
  obtain ⟨ndN, ndE, hn, heok⟩ := hwf
  obtain ⟨k1, k2, k3, k4, k5, k6, k7, k8, k9, k10, k11, k12, k13, k14, k15, k16, k17⟩ :=
    heok e hin
  obtain ⟨E, hE⟩ := Option.isSome_iff_exists.1 k1
  obtain ⟨A, hA0⟩ := Option.isSome_iff_exists.1 k8
  obtain ⟨B, hB0⟩ := Option.isSome_iff_exists.1 k9
  have hEs : g.aSrcOf e = E.m_adjSrc := by simp [Graph.aSrcOf, hE]
  have hEt : g.aTgtOf e = E.m_adjTgt := by simp [Graph.aTgtOf, hE]
  have hEsrc : g.srcOf e = E.m_src := by simp [Graph.srcOf, hE]
  have hEtgt : g.tgtOf e = E.m_tgt := by simp [Graph.tgtOf, hE]
  have hA : g.adjA E.m_adjSrc = some A := hEs ▸ hA0
  have hB : g.adjA E.m_adjTgt = some B := hEt ▸ hB0
  have hb2 : E.m_adjSrc < g.nextAdj := hEs ▸ k6
  have hb3 : E.m_adjTgt < g.nextAdj := hEt ▸ k7
  have hb4 : E.m_adjSrc ≠ E.m_adjTgt := by
    rw [← hEs, ← hEt]
    exact k5
  have hne : e ≠ g.nextEdge := by omega
  have hAtw : A.m_twin = E.m_adjTgt := by
    have := k14
    rw [hEs, hEt] at this
    simpa [Graph.aTwinOf, hA] using this
  have hBtw : B.m_twin = E.m_adjSrc := by
    have := k15
    rw [hEs, hEt] at this
    simpa [Graph.aTwinOf, hB] using this
  have hBed : B.m_edge = e := by
    have := k11
    rw [hEt] at this
    simpa [Graph.aEdgeOf, hB] using this
  obtain ⟨S1, S2, S3, S4, Sn, Su, Se, See, Se2, Sa, SaS, SaT, Sf1, Sf2⟩ :=
    split_pointwise g e hin E hE B hB hb2 hb3 hb4 hne
  have hret : (g.split e).2.1 = g.nextEdge := split_ret g e hin
  have gsTgtE : (g.split e).1.tgtOf e = g.nextNode := by simp [Graph.tgtOf, See]
  have gsSrcE : (g.split e).1.srcOf e = E.m_src := by simp [Graph.srcOf, See]
  have gsATgtE : (g.split e).1.aTgtOf e = g.nextAdj := by simp [Graph.aTgtOf, See]
  have gsASrcE : (g.split e).1.aSrcOf e = E.m_adjSrc := by simp [Graph.aSrcOf, See]
  have gsSrc2 : (g.split e).1.srcOf g.nextEdge = g.nextNode := by simp [Graph.srcOf, Se2]
  have gsTgt2 : (g.split e).1.tgtOf g.nextEdge = E.m_tgt := by simp [Graph.tgtOf, Se2]
  have gsATgt2 : (g.split e).1.aTgtOf g.nextEdge = E.m_adjTgt := by simp [Graph.aTgtOf, Se2]
  have hufresh : g.nextNode ∉ g.nodes := fun hc => by
    have := (hn _ hc).1
    omega
  have he2fresh : g.nextEdge ∉ g.edges := fun hc => by
    have := (heok _ hc).2.1
    omega
  have hsrcne : E.m_src ≠ g.nextNode := by
    have := (hn _ k3).1
    rw [hEsrc] at this
    omega
  have htgtne : E.m_tgt ≠ g.nextNode := by
    have := (hn _ k4).1
    rw [hEtgt] at this
    omega
  have hG : e ∈ (g.split e).1.edges ∧ g.nextEdge ∈ (g.split e).1.edges ∧
      (g.split e).1.indegOf ((g.split e).1.tgtOf e) = 1 ∧
      (g.split e).1.outdegOf ((g.split e).1.tgtOf e) = 1 ∧
      (g.split e).1.srcOf g.nextEdge = (g.split e).1.tgtOf e ∧
      (g.split e).1.srcOf e ≠ (g.split e).1.tgtOf e ∧
      (g.split e).1.srcOf g.nextEdge ≠ (g.split e).1.tgtOf g.nextEdge := by
    refine ⟨?_, ?_, ?_, ?_, ?_, ?_, ?_⟩
    · rw [S2]
      exact List.mem_append.2 (Or.inl hin)
    · rw [S2]
      exact List.mem_append.2 (Or.inr (List.mem_singleton.2 rfl))
    · rw [gsTgtE]
      simp [Graph.indegOf, Su]
    · rw [gsTgtE]
      simp [Graph.outdegOf, Su]
    · rw [gsSrc2, gsTgtE]
    · rw [gsSrcE, gsTgtE]
      exact hsrcne
    · rw [gsSrc2, gsTgt2]
      exact fun hc => htgtne hc.symm
  have hSTu : (g.split e).1.aSrcOf e ≠ (g.split e).1.aTgtOf g.nextEdge := by
    rw [gsASrcE, gsATgt2]
    exact hb4
  obtain ⟨U1, U2, U3, U4, U5, U6, U7, U8, U9⟩ :=
    unsplit_pointwise (g.split e).1 e g.nextEdge hG hSTu
  have hnodes : ((g.split e).1.unsplit e g.nextEdge).1.nodes = g.nodes := by
    rw [U3, gsTgtE, S1, List.erase_append_right _ hufresh, List.erase_cons_head,
      List.append_nil]
  have hedges : ((g.split e).1.unsplit e g.nextEdge).1.edges = g.edges := by
    rw [U2, S2, List.erase_append_right _ he2fresh, List.erase_cons_head, List.append_nil]
  have hhid : ((g.split e).1.unsplit e g.nextEdge).1.m_hiddenEdges = g.m_hiddenEdges :=
    U4.trans S3
  have hnodeA : ∀ n, n ≠ g.nextNode →
      ((g.split e).1.unsplit e g.nextEdge).1.nodeA n = g.nodeA n := by
    intro n hn'
    rw [U1]
    exact Sn n hn'
  have hedgeA : ∀ f, f ≠ g.nextEdge →
      ((g.split e).1.unsplit e g.nextEdge).1.edgeA f = g.edgeA f := by
    intro f hf
    by_cases hfe : f = e
    · subst hfe
      rw [U5, See, gsTgt2, gsATgt2, hE]
      rfl
    · rw [U6 f hfe]
      exact Se f hfe hf
  have hadjA : ∀ a, a < g.nextAdj →
      ((g.split e).1.unsplit e g.nextEdge).1.adjA a = g.adjA a := by
    intro a ha
    by_cases haT : a = E.m_adjTgt
    · subst haT
      have hsig : (g.split e).1.aIdOf ((g.split e).1.aTgtOf e) = B.m_id := by
        rw [gsATgtE]
        simp [Graph.aIdOf, Sf1]
      rw [← gsATgt2, U7, gsATgt2, SaT, hsig, gsASrcE, hB]
      rw [← hBed, ← hBtw]
      simp
    · by_cases haS : a = E.m_adjSrc
      · subst haS
        rw [← gsASrcE, U8, gsASrcE, SaS, gsATgt2, hA]
        rw [← hAtw]
        simp
      · have h1 : a ≠ (g.split e).1.aTgtOf g.nextEdge := by
          rw [gsATgt2]
          exact haT
        have h2 : a ≠ (g.split e).1.aSrcOf e := by
          rw [gsASrcE]
          exact haS
        rw [U9 a h1 h2]
        exact Sa a ha haS haT
  have hprojs : ∀ f, f ≠ g.nextEdge →
      ((g.split e).1.unsplit e g.nextEdge).1.aSrcOf f = g.aSrcOf f ∧
      ((g.split e).1.unsplit e g.nextEdge).1.aTgtOf f = g.aTgtOf f := by
    intro f hf
    constructor
    · unfold Graph.aSrcOf
      rw [hedgeA f hf]
    · unfold Graph.aTgtOf
      rw [hedgeA f hf]
  refine ⟨by rw [hret]; exact hG, ?_, ?_⟩
  · rw [hret]
    unfold visible
    refine congrArg₂ Prod.mk ?_ (congrArg₂ Prod.mk ?_ hhid)
    · rw [hnodes]
      refine List.map_congr_left ?_
      intro n hnm
      have hlt := (hn n hnm).1
      have hneu : n ≠ g.nextNode := by omega
      have hrn : ((g.split e).1.unsplit e g.nextEdge).1.rotOf n = g.rotOf n := by
        unfold Graph.rotOf
        rw [hnodeA n hneu]
      have hmap : (g.rotOf n).map ((g.split e).1.unsplit e g.nextEdge).1.adjA
          = (g.rotOf n).map g.adjA := by
        refine List.map_congr_left ?_
        intro a ham
        exact hadjA a ((hn n hnm).2.2.2 a ham).1
      rw [hnodeA n hneu, hrn, hmap]
    · rw [hedges]
      refine List.map_congr_left ?_
      intro f hfm
      have hflt := (heok f hfm).2.1
      have hfne : f ≠ g.nextEdge := by omega
      obtain ⟨p1, p2⟩ := hprojs f hfne
      have hb6 := (heok f hfm).2.2.2.2.2.1
      have hb7 := (heok f hfm).2.2.2.2.2.2.1
      rw [hedgeA f hfne, p1, p2, hadjA _ hb6, hadjA _ hb7]
  · rw [hret, (hprojs e hne).2]
    unfold Graph.aIdOf
    rw [hadjA _ k7]

/-- Witness for C2 at a concrete input: splitting the edge of `gE01` and
immediately unsplitting the two resulting edges restores the observable
state of `gE01` exactly. -/
theorem C2_split_unsplit_witness :
    visible ((gE01.split 0).1.unsplit 0 ((gE01.split 0).2.1)).1 = visible gE01 :=
  (C2_split_unsplit gE01 0 (by unfold Graph.WF Graph.nodeOK Graph.edgeOK; decide)
    (by decide)).2.1

/-- C1: the claim that contracting an edge with distinct endpoints turns
every other target-to-source edge into a self-loop at the source is false:
the splice loop skips every half-edge whose twin lies on the source (not
only `e`'s own twin), so such edges stay at the target and are deleted with
it.  On the antiparallel pair `gPara`, contracting edge 0 leaves no edge at
all — in particular no self-loop. -/
theorem C1_counterexample :
    ¬ (∀ (g : Graph) (e : Nat), e ∈ g.edges → g.srcOf e ≠ g.tgtOf e →
        (∃ f ∈ g.edges, f ≠ e ∧ g.srcOf f = g.tgtOf e ∧ g.tgtOf f = g.srcOf e) →
        ∃ f ∈ (g.contract e).1.edges,
          (g.contract e).1.srcOf f = (g.contract e).1.tgtOf f) := by
  intro h
  obtain ⟨f, hf, _⟩ := h gPara 0 (by decide) (by decide)
    ⟨1, by decide, by decide, by decide, by decide⟩
  have hempty : (gPara.contract 0).1.edges = ([] : List Nat) := by decide
  rw [hempty] at hf
  exact (List.not_mem_nil f) hf

/-- C1 (amended): `contract(e)` walks the target's rotation and splices a
half-edge onto the source only when its twin does not lie on the source —
the skip applies to every source–target edge, not only `e`'s own twin —
then deletes the target node, which removes `e` and every remaining
source–target edge with it, and returns the source.  Hence no self-loop is
created: on the antiparallel pair the second edge disappears with the
target, while on the path `0 → 1 → 2` contracting `0 → 1` reattaches the
edge `1 → 2` as `0 → 2`. -/
theorem C1_contract_amended :
    (∀ (g : Graph) (v w aS aT cur fuel : Nat), cur ≠ aT → g.aTwinNodeOf cur = v →
      Graph.contractLoop g v w aS aT cur (fuel + 1)
        = Graph.contractLoop g v w aS aT (g.cyclicSucc cur) fuel) ∧
    (∀ (g : Graph) (e : Nat), e ∈ g.edges → (g.contract e).2.1 = g.srcOf e) ∧
    ((gPara.contract 0).1.nodes = [0] ∧ (gPara.contract 0).1.edges = [] ∧
      gPara.srcOf 1 = gPara.tgtOf 0 ∧ gPara.tgtOf 1 = gPara.srcOf 0) ∧
    ((gPath.contract 0).1.nodes = [0, 2] ∧ (gPath.contract 0).1.edges = [1] ∧
      (gPath.contract 0).1.srcOf 1 = 0 ∧ (gPath.contract 0).1.tgtOf 1 = 2 ∧
      (gPath.contract 0).1.srcOf 1 ≠ (gPath.contract 0).1.tgtOf 1) := by
  refine ⟨?_, ?_, ?_, ?_⟩
  · intro g v w aS aT cur fuel hcur htw
    conv_lhs => rw [Graph.contractLoop]
    rw [if_neg hcur, if_pos htw]
  · intro g e hin
    unfold Graph.contract
    rw [if_pos hin]
  · exact ⟨by decide, by decide, by decide, by decide⟩
  · exact ⟨by decide, by decide, by decide, by decide, by decide⟩

/-- Witness for C1 at concrete inputs: in `gPara` the walk position 2 (the
source half-edge of the antiparallel edge, twin on the source) is skipped
without any splice, and `contract` returns the source of the contracted
edge. -/
theorem C1_contract_amended_witness :
    Graph.contractLoop gPara 0 1 0 1 2 1
        = Graph.contractLoop gPara 0 1 0 1 (gPara.cyclicSucc 2) 0 ∧
    (gPara.contract 0).2.1 = gPara.srcOf 0 :=
  ⟨C1_contract_amended.1 gPara 0 1 0 1 2 0 (by decide) (by decide),
   C1_contract_amended.2.1 gPara 0 (by decide)⟩

theorem adjRel_symm {g : Graph} {u x : Nat} (h : AdjRel g u x) : AdjRel g x u := by
  obtain ⟨e, he, hc⟩ := h
  exact ⟨e, he, hc.symm⟩

theorem rot_twin {g : Graph} (hwf : Graph.WF g) {w a : Nat} (hw : w ∈ g.nodes)
    (ha : a ∈ g.rotOf w) : g.aTwinNodeOf a ∈ g.nodes ∧ AdjRel g w (g.aTwinNodeOf a) := by
  obtain ⟨ndN, ndE, hn, heok⟩ := id hwf
  obtain ⟨_, _, hnode, hedge, hside⟩ := (hn w hw).2.2.2 a ha
  obtain ⟨e1, e2, e3, e4, e5, e6, e7, e8, e9, e10, e11, e12, e13, e14, e15, e16, e17⟩ :=
    heok (g.aEdgeOf a) hedge
  rcases hside with ⟨haa, hw'⟩ | ⟨haa, hw'⟩
  · have ht : g.aTwinNodeOf a = g.tgtOf (g.aEdgeOf a) := by
      unfold Graph.aTwinNodeOf
      rw [haa, e14, e13, e10]
    rw [ht]
    exact ⟨e4, ⟨g.aEdgeOf a, hedge, Or.inl ⟨hw'.symm, rfl⟩⟩⟩
  · have ht : g.aTwinNodeOf a = g.srcOf (g.aEdgeOf a) := by
      unfold Graph.aTwinNodeOf
      rw [haa, e15, e12, e11]
    rw [ht]
    exact ⟨e3, ⟨g.aEdgeOf a, hedge, Or.inr ⟨rfl, hw'.symm⟩⟩⟩

theorem adj_to_rot {g : Graph} (hwf : Graph.WF g) {w x : Nat} (h : AdjRel g w x) :
    ∃ a ∈ g.rotOf w, g.aTwinNodeOf a = x := by
  obtain ⟨ndN, ndE, hn, heok⟩ := id hwf
  obtain ⟨f, hf, hside⟩ := h
  obtain ⟨e1, e2, e3, e4, e5, e6, e7, e8, e9, e10, e11, e12, e13, e14, e15, e16, e17⟩ :=
    heok f hf
  rcases hside with ⟨hs, ht⟩ | ⟨hs, ht⟩
  · rw [hs] at e16
    refine ⟨g.aSrcOf f, e16, ?_⟩
    unfold Graph.aTwinNodeOf
    rw [e14, e13]
    exact ht
  · rw [ht] at e17
    refine ⟨g.aTgtOf f, e17, ?_⟩
    unfold Graph.aTwinNodeOf
    rw [e15, e12]
    exact hs

theorem ccStep_vlist (g : Graph) (c : Nat) (p : CCBuild × List Nat) (a : Nat) :
    (Graph.ccStep g c p a).1.vlist = p.1.vlist := by
  by_cases h1 : g.aIdOf a % 2 = 0
  · simp only [Graph.ccStep, if_pos h1]
    split <;> rfl
  · simp only [Graph.ccStep, if_neg h1]
    split <;> rfl

theorem ccStep_elist (g : Graph) (c : Nat) (p : CCBuild × List Nat) (a : Nat) :
    (Graph.ccStep g c p a).1.elist
      = p.1.elist ++ (if g.aIdOf a % 2 = 0 then [g.aEdgeOf a] else []) := by
  by_cases h1 : g.aIdOf a % 2 = 0
  · simp only [Graph.ccStep, if_pos h1]
    split <;> rfl
  · simp only [Graph.ccStep, if_neg h1]
    split <;> simp

theorem ccStep_cases (g : Graph) (c : Nat) (st : CCBuild) (S : List Nat) (a : Nat) :
    ((st.comp (g.idOfN (g.aTwinNodeOf a)) = none ∧
       (Graph.ccStep g c (st, S) a).1.comp
         = fupd st.comp (g.idOfN (g.aTwinNodeOf a)) c ∧
       (Graph.ccStep g c (st, S) a).2 = g.aTwinNodeOf a :: S) ∨
     (¬ st.comp (g.idOfN (g.aTwinNodeOf a)) = none ∧
       (Graph.ccStep g c (st, S) a).1.comp = st.comp ∧
       (Graph.ccStep g c (st, S) a).2 = S)) := by
  by_cases h2 : st.comp (g.idOfN (g.aTwinNodeOf a)) = none
  · left
    refine ⟨h2, ?_, ?_⟩ <;>
      · unfold Graph.ccStep
        by_cases h1 : g.aIdOf a % 2 = 0 <;> simp [h1, h2]
  · right
    refine ⟨h2, ?_, ?_⟩ <;>
      · unfold Graph.ccStep
        by_cases h1 : g.aIdOf a % 2 = 0 <;> simp [h1, h2]

theorem ccFold_vlist : ∀ (L : List Nat) (g : Graph) (c : Nat) (p : CCBuild × List Nat),
    (L.foldl (Graph.ccStep g c) p).1.vlist = p.1.vlist
  | [], _, _, _ => rfl
  | a :: L', g, c, p => by
    rw [List.foldl_cons, ccFold_vlist L', ccStep_vlist]

theorem ccFold_elist : ∀ (L : List Nat) (g : Graph) (c : Nat) (p : CCBuild × List Nat),
    (L.foldl (Graph.ccStep g c) p).1.elist
      = p.1.elist ++ (L.filter (fun a => g.aIdOf a % 2 = 0)).map g.aEdgeOf
  | [], _, _, _ => by simp
  | a :: L', g, c, p => by
    rw [List.foldl_cons, ccFold_elist L', ccStep_elist]
    by_cases h1 : g.aIdOf a % 2 = 0 <;> simp [List.filter_cons, h1]

theorem ccScanAux (g : Graph) (hwf : Graph.WF g)
    (hinj : ∀ m ∈ g.nodes, ∀ n ∈ g.nodes, g.idOfN m = g.idOfN n → m = n)
    (c w : Nat) (hw : w ∈ g.nodes) (V : List Nat) :
    ∀ (L : List Nat) (st : CCBuild) (S : List Nat),
      L <:+ g.rotOf w →
      ccScanInv g c w V st S →
      (∀ a ∈ g.rotOf w, a ∉ L → labOf g st (g.aTwinNodeOf a) = some c) →
      ccScanInv g c w V (L.foldl (Graph.ccStep g c) (st, S)).1
          (L.foldl (Graph.ccStep g c) (st, S)).2 ∧
      (∀ a ∈ g.rotOf w, labOf g (L.foldl (Graph.ccStep g c) (st, S)).1 (g.aTwinNodeOf a)
          = some c)
  | [], st, S, hL, hInv, hproc => by
    refine ⟨hInv, ?_⟩
    intro a ha
    exact hproc a ha (List.not_mem_nil a)
  | a0 :: L', st, S, hL, hInv, hproc => by
    obtain ⟨ndN, ndE, hn, heok⟩ := id hwf
    have hrotnd : (g.rotOf w).Nodup := (hn w hw).2.2.1
    have ha0rot : a0 ∈ g.rotOf w := hL.sublist.subset (List.mem_cons_self a0 L')
    have hL' : L' <:+ g.rotOf w := (List.suffix_cons a0 L').trans hL
    have ha0nL' : a0 ∉ L' := (List.nodup_cons.1 (hL.sublist.nodup hrotnd)).1
    obtain ⟨hxn, hadj⟩ := rot_twin hwf hw ha0rot
    obtain ⟨hv1, hv2, hv3, hv4, hv5, hv6, hv7, hv8, hv9⟩ := hInv
    have hkey : ∀ v ∈ g.nodes, (g.idOfN v = g.idOfN (g.aTwinNodeOf a0) ↔ v = g.aTwinNodeOf a0) :=
      fun v hv => ⟨fun h => hinj v hv _ hxn h, fun h => by rw [h]⟩
    rw [List.foldl_cons]
    have hvl : (Graph.ccStep g c (st, S) a0).1.vlist = V := by
      rw [ccStep_vlist]
      exact hv1
    rcases ccStep_cases g c st S a0 with ⟨hlab, hcomp, hstk⟩ | ⟨hlab, hcomp, hstk⟩
    · -- twin was unlabelled: labelled with c and pushed
      have hlab' : labOf g st (g.aTwinNodeOf a0) = none := hlab
      have hlabnew : ∀ v, labOf g (Graph.ccStep g c (st, S) a0).1 v
          = if g.idOfN v = g.idOfN (g.aTwinNodeOf a0) then some c else labOf g st v := by
        intro v
        show (Graph.ccStep g c (st, S) a0).1.comp (g.idOfN v) = _
        rw [hcomp]
        rfl
      have hxnotin : g.aTwinNodeOf a0 ∉ V ++ S := fun hc => ((hv4 _ hxn).2 hc) hlab'
      have hInv' : ccScanInv g c w V (Graph.ccStep g c (st, S) a0).1
          (Graph.ccStep g c (st, S) a0).2 := by
        rw [hstk]
        refine ⟨hvl, ?_, ?_, ?_, ?_, ?_, ?_, ?_, ?_⟩
        · exact (List.perm_middle.nodup_iff).mpr (List.nodup_cons.mpr ⟨hxnotin, hv2⟩)
        · intro v hv
          rcases List.mem_append.1 hv with h | h
          · exact hv3 v (List.mem_append.2 (Or.inl h))
          · rcases List.mem_cons.1 h with rfl | h2
            · exact hxn
            · exact hv3 v (List.mem_append.2 (Or.inr h2))
        · intro v hvn
          rw [hlabnew v]
          by_cases hq : g.idOfN v = g.idOfN (g.aTwinNodeOf a0)
          · have hvx : v = g.aTwinNodeOf a0 := (hkey v hvn).1 hq
            subst hvx
            rw [if_pos hq]
            exact ⟨fun _ => List.mem_append.2 (Or.inr (List.mem_cons_self _ _)),
              fun _ => by simp⟩
          · rw [if_neg hq]
            rw [hv4 v hvn]
            constructor
            · intro h
              rcases List.mem_append.1 h with h2 | h2
              · exact List.mem_append.2 (Or.inl h2)
              · exact List.mem_append.2 (Or.inr (List.mem_cons_of_mem _ h2))
            · intro h
              rcases List.mem_append.1 h with h2 | h2
              · exact List.mem_append.2 (Or.inl h2)
              · rcases List.mem_cons.1 h2 with rfl | h3
                · exact absurd rfl hq
                · exact List.mem_append.2 (Or.inr h3)
        · intro v hvn c' h
          rw [hlabnew v] at h
          by_cases hq : g.idOfN v = g.idOfN (g.aTwinNodeOf a0)
          · rw [if_pos hq] at h
            exact le_of_eq (Option.some.inj h).symm
          · rw [if_neg hq] at h
            exact hv5 v hvn c' h
        · intro u hu hne x' hx' hadj'
          rw [hlabnew x', hlabnew u]
          have huN : u ∈ g.nodes := hv3 u (List.mem_append.2 (Or.inl hu))
          have hulab : ¬ labOf g st u = none := (hv4 u huN).2 (List.mem_append.2 (Or.inl hu))
          have hune : ¬ g.idOfN u = g.idOfN (g.aTwinNodeOf a0) := by
            intro hc
            have : u = g.aTwinNodeOf a0 := (hkey u huN).1 hc
            rw [this] at hulab
            exact hulab hlab'
          rw [if_neg hune]
          by_cases hq : g.idOfN x' = g.idOfN (g.aTwinNodeOf a0)
          · have hx'x : x' = g.aTwinNodeOf a0 := (hkey x' hx').1 hq
            have := hv6 u hu hne x' hx' hadj'
            rw [hx'x, hlab'] at this
            exact absurd this.symm hulab
          · rw [if_neg hq]
            exact hv6 u hu hne x' hx' hadj'
        · intro c' hc'
          by_cases hq : c' = c
          · subst hq
            obtain ⟨r, hr1, hr2, hr3⟩ := hv7 c' (Nat.lt_succ_self c')
            have hrne : ¬ g.idOfN r = g.idOfN (g.aTwinNodeOf a0) := by
              intro hc
              have : r = g.aTwinNodeOf a0 := (hkey r hr1).1 hc
              rw [this, hlab'] at hr2
              exact Option.noConfusion hr2
            refine ⟨r, hr1, by rw [hlabnew r, if_neg hrne]; exact hr2, ?_⟩
            intro v hvn hlv
            rw [hlabnew v] at hlv
            by_cases hq2 : g.idOfN v = g.idOfN (g.aTwinNodeOf a0)
            · have hvx : v = g.aTwinNodeOf a0 := (hkey v hvn).1 hq2
              subst hvx
              exact Relation.ReflTransGen.tail (hr3 w hw hv9) hadj
            · rw [if_neg hq2] at hlv
              exact hr3 v hvn hlv
          · obtain ⟨r, hr1, hr2, hr3⟩ := hv7 c' hc'
            have hrne : ¬ g.idOfN r = g.idOfN (g.aTwinNodeOf a0) := by
              intro hc
              have : r = g.aTwinNodeOf a0 := (hkey r hr1).1 hc
              rw [this, hlab'] at hr2
              exact Option.noConfusion hr2
            refine ⟨r, hr1, by rw [hlabnew r, if_neg hrne]; exact hr2, ?_⟩
            intro v hvn hlv
            rw [hlabnew v] at hlv
            by_cases hq2 : g.idOfN v = g.idOfN (g.aTwinNodeOf a0)
            · rw [if_pos hq2] at hlv
              exact absurd (Option.some.inj hlv) (fun hc => hq hc.symm)
            · rw [if_neg hq2] at hlv
              exact hr3 v hvn hlv
        · intro v hv
          rcases List.mem_cons.1 hv with rfl | h2
          · rw [hlabnew, if_pos rfl]
          · have hvN : v ∈ g.nodes := hv3 v (List.mem_append.2 (Or.inr h2))
            have hvne : ¬ g.idOfN v = g.idOfN (g.aTwinNodeOf a0) := by
              intro hc
              have : v = g.aTwinNodeOf a0 := (hkey v hvN).1 hc
              exact hxnotin (this ▸ List.mem_append.2 (Or.inr h2))
            rw [hlabnew v, if_neg hvne]
            exact hv8 v h2
        · have hwlab : ¬ labOf g st w = none := by
            rw [hv9]
            simp
          have hwne : ¬ g.idOfN w = g.idOfN (g.aTwinNodeOf a0) := by
            intro hc
            have : w = g.aTwinNodeOf a0 := (hkey w hw).1 hc
            rw [this] at hwlab
            exact hwlab hlab'
          rw [hlabnew w, if_neg hwne]
          exact hv9
      have hproc' : ∀ a ∈ g.rotOf w, a ∉ L' →
          labOf g (Graph.ccStep g c (st, S) a0).1 (g.aTwinNodeOf a) = some c := by
        intro a ha hnin
        rw [hlabnew]
        by_cases hq : g.idOfN (g.aTwinNodeOf a) = g.idOfN (g.aTwinNodeOf a0)
        · rw [if_pos hq]
        · rw [if_neg hq]
          by_cases haa : a = a0
          · subst haa
            exact absurd rfl hq
          · exact hproc a ha (fun hc => (List.mem_cons.1 hc).elim haa hnin)
      exact ccScanAux g hwf hinj c w hw V L' (Graph.ccStep g c (st, S) a0).1
        (Graph.ccStep g c (st, S) a0).2 hL' hInv' hproc'
    · -- twin already labelled: component state and stack unchanged
      have hlabeq : ∀ v, labOf g (Graph.ccStep g c (st, S) a0).1 v = labOf g st v := by
        intro v
        show (Graph.ccStep g c (st, S) a0).1.comp (g.idOfN v) = _
        rw [hcomp]
        rfl
      have hxlab : labOf g st (g.aTwinNodeOf a0) = some c := by
        have hmem : g.aTwinNodeOf a0 ∈ V ++ S := (hv4 _ hxn).1 hlab
        rcases List.mem_append.1 hmem with h | h
        · by_cases hq : g.aTwinNodeOf a0 = w
          · rw [hq]
            exact hv9
          · have := hv6 _ h hq w hw (adjRel_symm hadj)
            rw [hv9] at this
            exact this.symm
        · exact hv8 _ h
      have hInv' : ccScanInv g c w V (Graph.ccStep g c (st, S) a0).1
          (Graph.ccStep g c (st, S) a0).2 := by
        rw [hstk]
        refine ⟨hvl, hv2, hv3, ?_, ?_, ?_, ?_, ?_, ?_⟩
        · intro v hvn
          rw [hlabeq v]
          exact hv4 v hvn
        · intro v hvn c' h
          rw [hlabeq v] at h
          exact hv5 v hvn c' h
        · intro u hu hne x' hx' hadj'
          rw [hlabeq x', hlabeq u]
          exact hv6 u hu hne x' hx' hadj'
        · intro c' hc'
          obtain ⟨r, hr1, hr2, hr3⟩ := hv7 c' hc'
          refine ⟨r, hr1, by rw [hlabeq r]; exact hr2, ?_⟩
          intro v hvn hlv
          rw [hlabeq v] at hlv
          exact hr3 v hvn hlv
        · intro v hv
          rw [hlabeq v]
          exact hv8 v hv
        · rw [hlabeq w]
          exact hv9
      have hproc' : ∀ a ∈ g.rotOf w, a ∉ L' →
          labOf g (Graph.ccStep g c (st, S) a0).1 (g.aTwinNodeOf a) = some c := by
        intro a ha hnin
        rw [hlabeq]
        by_cases haa : a = a0
        · subst haa
          exact hxlab
        · exact hproc a ha (fun hc => (List.mem_cons.1 hc).elim haa hnin)
      exact ccScanAux g hwf hinj c w hw V L' (Graph.ccStep g c (st, S) a0).1
        (Graph.ccStep g c (st, S) a0).2 hL' hInv' hproc'

theorem ccInner_spec (g : Graph) (hwf : Graph.WF g)
    (hinj : ∀ m ∈ g.nodes, ∀ n ∈ g.nodes, g.idOfN m = g.idOfN n → m = n) (c : Nat) :
    ∀ (fuel : Nat) (S : List Nat) (st : CCBuild),
      ccInnerInv g st S c →
      g.nodes.length ≤ st.vlist.length + fuel →
      ccInnerInv g (Graph.ccInner g c S st fuel) [] c ∧
      ∃ t, (Graph.ccInner g c S st fuel).vlist = st.vlist ++ t
  | 0, S, st, hInv, hfuel => by
    cases S with
    | nil => exact ⟨hInv, [], (List.append_nil st.vlist).symm⟩
    | cons w S' =>
      exfalso
      obtain ⟨h1, h2, _⟩ := hInv
      have hle := (List.Nodup.subperm h1 h2).length_le
      simp [List.length_append] at hle
      omega
  | fuel+1, S, st, hInv, hfuel => by
    cases S with
    | nil => exact ⟨hInv, [], (List.append_nil st.vlist).symm⟩
    | cons w S' =>
      obtain ⟨h1, h2, h3, h4, h5, h6, h7, h8⟩ := hInv
      have hw : w ∈ g.nodes := h2 w (List.mem_append.2 (Or.inr (List.mem_cons_self w S')))
      have hwnv : w ∉ st.vlist := fun hc =>
        (List.nodup_append.1 h1).2.2 hc (List.mem_cons_self w S')
      have hgoal : Graph.ccInner g c (w :: S') st (fuel+1)
          = Graph.ccInner g c
              (Graph.ccScan g c w { st with vlist := st.vlist ++ [w] } S').2
              (Graph.ccScan g c w { st with vlist := st.vlist ++ [w] } S').1 fuel := rfl
      rw [hgoal]
      have hscanInv : ccScanInv g c w (st.vlist ++ [w])
          { st with vlist := st.vlist ++ [w] } S' := by
        refine ⟨rfl, ?_, ?_, ?_, ?_, ?_, ?_, ?_, ?_⟩
        · rw [List.append_assoc]
          exact h1
        · intro v hv
          rw [List.append_assoc] at hv
          exact h2 v hv
        · intro v hvn
          rw [List.append_assoc]
          exact h3 v hvn
        · intro v hvn c'
          exact h4 v hvn c'
        · intro u hu hne x hx hadj
          rcases List.mem_append.1 hu with h9 | h9
          · exact h5 u h9 x hx hadj
          · exact absurd (List.mem_singleton.1 h9) hne
        · exact h6
        · intro v hv
          exact h7 v (List.mem_cons_of_mem w hv)
        · exact h7 w (List.mem_cons_self w S')
      have hpost2 : ccScanInv g c w (st.vlist ++ [w])
            (Graph.ccScan g c w { st with vlist := st.vlist ++ [w] } S').1
            (Graph.ccScan g c w { st with vlist := st.vlist ++ [w] } S').2 ∧
          (∀ a ∈ g.rotOf w,
            labOf g (Graph.ccScan g c w { st with vlist := st.vlist ++ [w] } S').1
              (g.aTwinNodeOf a) = some c) :=
        ccScanAux g hwf hinj c w hw (st.vlist ++ [w]) (g.rotOf w)
          { st with vlist := st.vlist ++ [w] } S' (List.suffix_refl _) hscanInv
          (fun a ha hna => absurd ha hna)
      obtain ⟨⟨q1, q2, q3, q4, q5, q6, q7, q8, q9⟩, hfull⟩ := hpost2
      have helist : (Graph.ccScan g c w { st with vlist := st.vlist ++ [w] } S').1.elist
          = st.elist ++ ((g.rotOf w).filter (fun a => g.aIdOf a % 2 = 0)).map g.aEdgeOf :=
        ccFold_elist (g.rotOf w) g c ({ st with vlist := st.vlist ++ [w] }, S')
      have hInner' : ccInnerInv g
          (Graph.ccScan g c w { st with vlist := st.vlist ++ [w] } S').1
          (Graph.ccScan g c w { st with vlist := st.vlist ++ [w] } S').2 c := by
        refine ⟨?_, ?_, ?_, ?_, ?_, ?_, ?_, ?_⟩
        · rw [q1]
          exact q2
        · rw [q1]
          exact q3
        · intro v hvn
          rw [q1]
          exact q4 v hvn
        · exact q5
        · rw [q1]
          intro u hu x hx hadj
          rcases List.mem_append.1 hu with h9 | h9
          · exact q6 u (List.mem_append.2 (Or.inl h9)) (fun hc => hwnv (hc ▸ h9)) x hx hadj
          · have hu' : u = w := List.mem_singleton.1 h9
            subst hu'
            obtain ⟨a, ha, hax⟩ := adj_to_rot hwf hadj
            rw [← hax, hfull a ha]
            exact q9.symm
        · exact q7
        · exact q8
        · rw [q1, helist, h8]
          unfold elistOf
          rw [List.flatMap_append]
          simp
      have hlen : (Graph.ccScan g c w { st with vlist := st.vlist ++ [w] } S').1.vlist.length
          = st.vlist.length + 1 := by
        rw [q1]
        simp
      obtain ⟨hfin, t, hteq⟩ := ccInner_spec g hwf hinj c fuel
        (Graph.ccScan g c w { st with vlist := st.vlist ++ [w] } S').2
        (Graph.ccScan g c w { st with vlist := st.vlist ++ [w] } S').1
        hInner' (by omega)
      refine ⟨hfin, ⟨w :: t, ?_⟩⟩
      rw [hteq, q1, List.append_assoc]
      rfl

theorem ccStep_mono (g : Graph) (c : Nat) (p : CCBuild × List Nat) (a : Nat)
    (i c' : Nat) (h : p.1.comp i = some c') : (Graph.ccStep g c p a).1.comp i = some c' := by
  rcases ccStep_cases g c p.1 p.2 a with ⟨hnone, hcomp, _⟩ | ⟨_, hcomp, _⟩
  · have hcomp' : (Graph.ccStep g c p a).1.comp
        = fupd p.1.comp (g.idOfN (g.aTwinNodeOf a)) c := hcomp
    rw [hcomp']
    by_cases hq : i = g.idOfN (g.aTwinNodeOf a)
    · rw [hq] at h
      rw [hnone] at h
      exact Option.noConfusion h
    · show (if i = g.idOfN (g.aTwinNodeOf a) then some c else p.1.comp i) = some c'
      rw [if_neg hq]
      exact h
  · have hcomp' : (Graph.ccStep g c p a).1.comp = p.1.comp := hcomp
    rw [hcomp']
    exact h

theorem ccFold_mono : ∀ (L : List Nat) (g : Graph) (c : Nat) (p : CCBuild × List Nat)
    (i c' : Nat), p.1.comp i = some c' →
    (L.foldl (Graph.ccStep g c) p).1.comp i = some c'
  | [], _, _, _, _, _, h => h
  | a :: L', g, c, p, i, c', h => by
    rw [List.foldl_cons]
    exact ccFold_mono L' g c _ i c' (ccStep_mono g c p a i c' h)

theorem ccInner_mono (g : Graph) (c : Nat) :
    ∀ (fuel : Nat) (S : List Nat) (st : CCBuild) (i c' : Nat),
      st.comp i = some c' → (Graph.ccInner g c S st fuel).comp i = some c'
  | 0, [], _, _, _, h => h
  | _+1, [], _, _, _, h => h
  | 0, _ :: _, _, _, _, h => h
  | fuel+1, w :: S', st, i, c', h => by
    have hgoal : Graph.ccInner g c (w :: S') st (fuel+1)
        = Graph.ccInner g c
            (Graph.ccScan g c w { st with vlist := st.vlist ++ [w] } S').2
            (Graph.ccScan g c w { st with vlist := st.vlist ++ [w] } S').1 fuel := rfl
    rw [hgoal]
    exact ccInner_mono g c fuel _ _ i c'
      (ccFold_mono (g.rotOf w) g c ({ st with vlist := st.vlist ++ [w] }, S') i c' h)

theorem ccOuter_spec (g : Graph) (hwf : Graph.WF g)
    (hinj : ∀ m ∈ g.nodes, ∀ n ∈ g.nodes, g.idOfN m = g.idOfN n → m = n) :
    ∀ (VS : List Nat) (st : CCBuild) (c : Nat) (sN sE : List Nat),
      (∀ v ∈ VS, v ∈ g.nodes) →
      ccOuterInv g st c sN sE →
      (∀ v ∈ g.nodes, labOf g st v = none → v ∈ VS) →
      ccOuterInv g (Graph.ccOuter g VS st c sN sE).1 (Graph.ccOuter g VS st c sN sE).2.1
        (Graph.ccOuter g VS st c sN sE).2.2.1 (Graph.ccOuter g VS st c sN sE).2.2.2 ∧
      (∀ v ∈ g.nodes, ¬ labOf g (Graph.ccOuter g VS st c sN sE).1 v = none)
  | [], st, c, sN, sE, _, hInv, hcov => by
    refine ⟨hInv, ?_⟩
    intro v hv hl
    exact List.not_mem_nil v (hcov v hv hl)
  | v :: vs, st, c, sN, sE, hVS, hInv, hcov => by
    obtain ⟨o1, o2, o3, o4, o5, o6, o7, o8, o9, o10, o11, o12, o13⟩ := hInv
    have hvN : v ∈ g.nodes := hVS v (List.mem_cons_self v vs)
    have hgoal : Graph.ccOuter g (v :: vs) st c sN sE
        = (if st.comp (g.idOfN v) = none then
            Graph.ccOuter g vs
              (Graph.ccInner g c [v] { st with comp := fupd st.comp (g.idOfN v) c }
                g.nodes.length)
              (c+1)
              (sN ++ [(Graph.ccInner g c [v]
                { st with comp := fupd st.comp (g.idOfN v) c } g.nodes.length).vlist.length])
              (sE ++ [(Graph.ccInner g c [v]
                { st with comp := fupd st.comp (g.idOfN v) c } g.nodes.length).elist.length])
          else Graph.ccOuter g vs st c sN sE) := rfl
    by_cases hlab : st.comp (g.idOfN v) = none
    · -- v starts a fresh component
      rw [hgoal, if_pos hlab]
      set st2 := Graph.ccInner g c [v] { st with comp := fupd st.comp (g.idOfN v) c }
        g.nodes.length with hst2
      have hlabnew : ∀ u, labOf g { st with comp := fupd st.comp (g.idOfN v) c } u
          = if g.idOfN u = g.idOfN v then some c else labOf g st u := fun u => rfl
      have hkey : ∀ u ∈ g.nodes, (g.idOfN u = g.idOfN v ↔ u = v) :=
        fun u hu => ⟨fun h => hinj u hu v hvN h, fun h => by rw [h]⟩
      have hvnotin : v ∉ st.vlist := fun hc => (o3 v hvN).2 hc hlab
      have hInner0 : ccInnerInv g { st with comp := fupd st.comp (g.idOfN v) c } [v] c := by
        refine ⟨?_, ?_, ?_, ?_, ?_, ?_, ?_, ?_⟩
        · show (st.vlist ++ [v]).Nodup
          refine List.nodup_append.2 ⟨o1, List.nodup_singleton v, ?_⟩
          intro a ha hb
          exact hvnotin ((List.mem_singleton.1 hb) ▸ ha)
        · show ∀ u ∈ st.vlist ++ [v], u ∈ g.nodes
          intro u hu
          rcases List.mem_append.1 hu with h | h
          · exact o2 u h
          · rw [List.mem_singleton.1 h]
            exact hvN
        · intro u hu
          rw [hlabnew u]
          by_cases hq : g.idOfN u = g.idOfN v
          · rw [if_pos hq]
            have hu' : u = v := (hkey u hu).1 hq
            subst hu'
            constructor
            · intro _
              exact List.mem_append.2 (Or.inr (List.mem_singleton.2 rfl))
            · intro _
              simp
          · rw [if_neg hq]
            have hne : u ≠ v := fun hc => hq ((hkey u hu).2 hc)
            rw [o3 u hu]
            constructor
            · intro h
              exact List.mem_append.2 (Or.inl h)
            · intro h
              rcases List.mem_append.1 h with h2 | h2
              · exact h2
              · exact absurd (List.mem_singleton.1 h2) hne
        · intro u hu c'' h
          rw [hlabnew u] at h
          by_cases hq : g.idOfN u = g.idOfN v
          · rw [if_pos hq] at h
            exact le_of_eq (Option.some.inj h).symm
          · rw [if_neg hq] at h
            exact Nat.le_of_lt (o4 u hu c'' h)
        · intro u hu x hx hadj
          have hu' : u ∈ st.vlist := hu
          have hune : u ≠ v := fun hc => hvnotin (hc ▸ hu')
          have huN : u ∈ g.nodes := o2 u hu'
          have hidune : ¬ g.idOfN u = g.idOfN v := fun hc => hune ((hkey u huN).1 hc)
          rw [hlabnew x, hlabnew u, if_neg hidune]
          by_cases hq : g.idOfN x = g.idOfN v
          · exfalso
            have hx' : x = v := (hkey x hx).1 hq
            have hcl := o5 u hu' x hx hadj
            rw [hx'] at hcl
            have hl : labOf g st v = none := hlab
            rw [hl] at hcl
            exact (o3 u huN).2 hu' hcl.symm
          · rw [if_neg hq]
            exact o5 u hu' x hx hadj
        · intro c'' hc''
          by_cases hq : c'' = c
          · subst hq
            refine ⟨v, hvN, ?_, ?_⟩
            · rw [hlabnew v, if_pos rfl]
            · intro u hu hl
              rw [hlabnew u] at hl
              by_cases hq2 : g.idOfN u = g.idOfN v
              · have hu' : u = v := (hkey u hu).1 hq2
                rw [hu']
                exact Relation.ReflTransGen.refl
              · rw [if_neg hq2] at hl
                exact absurd (o4 u hu _ hl) (lt_irrefl _)
          · have hc2 : c'' < c := Nat.lt_of_le_of_ne (Nat.lt_succ_iff.1 hc'') hq
            obtain ⟨r, hr1, hr2, hr3⟩ := o6 c'' hc2
            have hrne : ¬ g.idOfN r = g.idOfN v := by
              intro hc
              have hrv : r = v := (hkey r hr1).1 hc
              rw [hrv] at hr2
              have hl : labOf g st v = none := hlab
              rw [hl] at hr2
              exact Option.noConfusion hr2
            refine ⟨r, hr1, ?_, ?_⟩
            · rw [hlabnew r, if_neg hrne]
              exact hr2
            · intro u hu hl
              rw [hlabnew u] at hl
              by_cases hq2 : g.idOfN u = g.idOfN v
              · rw [if_pos hq2] at hl
                exact absurd (Option.some.inj hl) (fun hc => hq hc.symm)
              · rw [if_neg hq2] at hl
                exact hr3 u hu hl
        · intro u hu
          rw [List.mem_singleton.1 hu, hlabnew v, if_pos rfl]
        · show st.elist = elistOf g st.vlist
          exact o7
      obtain ⟨hI2, t, ht⟩ := ccInner_spec g hwf hinj c g.nodes.length [v]
        { st with comp := fupd st.comp (g.idOfN v) c } hInner0 (Nat.le_add_left _ _)
      rw [← hst2] at hI2 ht
      obtain ⟨i1, i2, i3, i4, i5, i6, i7, i8⟩ := hI2
      have ht' : st2.vlist = st.vlist ++ t := ht
      have hnd2 : st2.vlist.Nodup := by
        have h0 := i1
        rwa [List.append_nil] at h0
      have hmem2 : ∀ u ∈ st2.vlist, u ∈ g.nodes := fun u hu =>
        i2 u (by rwa [List.append_nil])
      have hiff2 : ∀ u ∈ g.nodes, (¬ labOf g st2 u = none ↔ u ∈ st2.vlist) := by
        intro u hu
        have h0 := i3 u hu
        rwa [List.append_nil] at h0
      have hvlen : st.vlist.length ≤ st2.vlist.length := by
        rw [ht', List.length_append]
        exact Nat.le_add_right _ _
      have helen : st.elist.length ≤ st2.elist.length := by
        rw [i8, o7, ht']
        unfold elistOf
        rw [List.flatMap_append, List.length_append]
        exact Nat.le_add_right _ _
      have hchainN : List.Chain' (· ≤ ·) (0 :: (sN ++ [st2.vlist.length])) := by
        have h0 : (0 :: (sN ++ [st2.vlist.length]))
            = (0 :: sN) ++ [st2.vlist.length] := rfl
        rw [h0, List.chain'_append]
        refine ⟨o10, List.chain'_singleton _, ?_⟩
        intro a ha b hb
        rw [o11] at ha
        have ha' : st.vlist.length = a := Option.some.inj ha
        have hb' : st2.vlist.length = b := Option.some.inj hb
        rw [← ha', ← hb']
        exact hvlen
      have hlastN : (0 :: (sN ++ [st2.vlist.length])).getLast? = some st2.vlist.length := by
        have h0 : (0 :: (sN ++ [st2.vlist.length]))
            = (0 :: sN) ++ [st2.vlist.length] := rfl
        rw [h0, List.getLast?_concat]
      have hchainE : List.Chain' (· ≤ ·) (0 :: (sE ++ [st2.elist.length])) := by
        have h0 : (0 :: (sE ++ [st2.elist.length]))
            = (0 :: sE) ++ [st2.elist.length] := rfl
        rw [h0, List.chain'_append]
        refine ⟨o12, List.chain'_singleton _, ?_⟩
        intro a ha b hb
        rw [o13] at ha
        have ha' : st.elist.length = a := Option.some.inj ha
        have hb' : st2.elist.length = b := Option.some.inj hb
        rw [← ha', ← hb']
        exact helen
      have hlastE : (0 :: (sE ++ [st2.elist.length])).getLast? = some st2.elist.length := by
        have h0 : (0 :: (sE ++ [st2.elist.length]))
            = (0 :: sE) ++ [st2.elist.length] := rfl
        rw [h0, List.getLast?_concat]
      have hOut' : ccOuterInv g st2 (c+1) (sN ++ [st2.vlist.length])
          (sE ++ [st2.elist.length]) :=
        ⟨hnd2, hmem2, hiff2,
         fun u hu c'' h => Nat.lt_succ_of_le (i4 u hu c'' h),
         i5, i6, i8,
         by simp [o8], by simp [o9],
         hchainN, hlastN, hchainE, hlastE⟩
      have hcov' : ∀ u ∈ g.nodes, labOf g st2 u = none → u ∈ vs := by
        intro u hu hl
        have hlst : labOf g st u = none := by
          by_contra hne
          have hmem := (o3 u hu).1 hne
          have hmem2' : u ∈ st2.vlist := by
            rw [ht']
            exact List.mem_append.2 (Or.inl hmem)
          exact ((hiff2 u hu).2 hmem2') hl
        rcases List.mem_cons.1 (hcov u hu hlst) with heq | h2
        · exfalso
          subst heq
          have hl1 : ({ st with comp := fupd st.comp (g.idOfN u) c }).comp (g.idOfN u)
              = some c := by
            show (if g.idOfN u = g.idOfN u then some c else st.comp (g.idOfN u)) = some c
            rw [if_pos rfl]
          have hm := ccInner_mono g c g.nodes.length [u]
            { st with comp := fupd st.comp (g.idOfN u) c } (g.idOfN u) c hl1
          rw [← hst2] at hm
          have hl2 : st2.comp (g.idOfN u) = none := hl
          rw [hl2] at hm
          exact Option.noConfusion hm
        · exact h2
      exact ccOuter_spec g hwf hinj vs st2 (c+1) (sN ++ [st2.vlist.length])
        (sE ++ [st2.elist.length])
        (fun u hu => hVS u (List.mem_cons_of_mem v hu)) hOut' hcov'
    · -- v is already labelled: skip
      rw [hgoal, if_neg hlab]
      exact ccOuter_spec g hwf hinj vs st c sN sE
        (fun u hu => hVS u (List.mem_cons_of_mem v hu))
        ⟨o1, o2, o3, o4, o5, o6, o7, o8, o9, o10, o11, o12, o13⟩
        (fun u hu hl => by
          rcases List.mem_cons.1 (hcov u hu hl) with heq | h2
          · exfalso
            subst heq
            exact hlab hl
          · exact h2)

theorem evens_perm (g : Graph) (hwf : Graph.WF g) (hid : Graph.IdWF g)
    (V : List Nat) (hnd : V.Nodup) (hsub : ∀ n ∈ V, n ∈ g.nodes)
    (hcov : ∀ n ∈ g.nodes, n ∈ V) :
    (elistOf g V).Perm g.edges := by
  obtain ⟨ndN, ndE, hn, heok⟩ := id hwf
  obtain ⟨_, hidall, _⟩ := id hid
  have hids : ∀ e ∈ g.edges, Graph.edgeIdsOK g e :=
    fun e he => (hidall e (List.mem_append.2 (Or.inl he))).2.2.2
  have hslot : ∀ w ∈ V, ∀ a ∈ g.rotOf w, g.aEdgeOf a ∈ g.edges ∧ g.aNodeOf a = w ∧
      (a = g.aSrcOf (g.aEdgeOf a) ∨ a = g.aTgtOf (g.aEdgeOf a)) := by
    intro w hw a ha
    obtain ⟨_, _, hrot⟩ := (hn w (hsub w hw)).2
    obtain ⟨_, _, hnodeEq, hedge, hside⟩ := hrot a ha
    exact ⟨hedge, hnodeEq, hside.imp (fun h => h.1) (fun h => h.1)⟩
  have heven_uniq : ∀ e ∈ g.edges, ∀ a, (a = g.aSrcOf e ∨ a = g.aTgtOf e) →
      g.aIdOf a % 2 = 0 →
      ∀ b, (b = g.aSrcOf e ∨ b = g.aTgtOf e) → g.aIdOf b % 2 = 0 → a = b := by
    intro e he a hA ha b hB hb
    obtain ⟨_, _, _, hne, hor⟩ := hids e he
    rcases hor with ⟨h1, h2⟩ | ⟨h1, h2⟩ <;>
      rcases hA with rfl | rfl <;> rcases hB with rfl | rfl <;> first | rfl | omega
  have hndE : (elistOf g V).Nodup := by
    unfold elistOf
    rw [List.nodup_flatMap]
    constructor
    · intro w hw
      refine List.Nodup.map_on ?_
        (List.Nodup.filter _ (hn w (hsub w hw)).2.2.1)
      intro a ha a' ha' heq
      obtain ⟨ha1, ha2⟩ := List.mem_filter.1 ha
      obtain ⟨ha1', ha2'⟩ := List.mem_filter.1 ha'
      have he1 : g.aIdOf a % 2 = 0 := by simpa using ha2
      have he2 : g.aIdOf a' % 2 = 0 := by simpa using ha2'
      obtain ⟨hedge, _, hside⟩ := hslot w hw a ha1
      obtain ⟨hedge', _, hside'⟩ := hslot w hw a' ha1'
      have hside2 : a' = g.aSrcOf (g.aEdgeOf a) ∨ a' = g.aTgtOf (g.aEdgeOf a) := by
        rw [heq]
        exact hside'
      exact heven_uniq (g.aEdgeOf a) hedge a hside he1 a' hside2 he2
    · refine List.Nodup.pairwise_of_forall_ne hnd ?_
      intro w1 hw1 w2 hw2 hnew
      intro e he1 he2
      obtain ⟨a1, ha1, heq1⟩ := List.mem_map.1 he1
      obtain ⟨a2, ha2, heq2⟩ := List.mem_map.1 he2
      obtain ⟨ha1m, ha1e⟩ := List.mem_filter.1 ha1
      obtain ⟨ha2m, ha2e⟩ := List.mem_filter.1 ha2
      have he1' : g.aIdOf a1 % 2 = 0 := by simpa using ha1e
      have he2' : g.aIdOf a2 % 2 = 0 := by simpa using ha2e
      obtain ⟨hedge1, hnode1, hside1⟩ := hslot w1 hw1 a1 ha1m
      obtain ⟨hedge2, hnode2, hside2⟩ := hslot w2 hw2 a2 ha2m
      have hedgeE : g.aEdgeOf a1 ∈ g.edges := hedge1
      have hs1 : a1 = g.aSrcOf e ∨ a1 = g.aTgtOf e := by
        rw [← heq1]
        exact hside1
      have hs2 : a2 = g.aSrcOf e ∨ a2 = g.aTgtOf e := by
        rw [← heq2]
        exact hside2
      have heE : e ∈ g.edges := by
        rw [← heq1]
        exact hedge1
      have h12 : a1 = a2 := heven_uniq e heE a1 hs1 he1' a2 hs2 he2'
      rw [h12] at hnode1
      rw [hnode1] at hnode2
      exact hnew hnode2
  have hsub1 : ∀ x ∈ elistOf g V, x ∈ g.edges := by
    intro x hx
    unfold elistOf at hx
    obtain ⟨w, hw, hx2⟩ := List.mem_flatMap.1 hx
    obtain ⟨a, ha, hxe⟩ := List.mem_map.1 hx2
    rw [← hxe]
    exact (hslot w hw a (List.mem_filter.1 ha).1).1
  have hsub2 : ∀ e ∈ g.edges, e ∈ elistOf g V := by
    intro e he
    obtain ⟨_, _, hsrcN, htgtN, _, _, _, _, _, hbs, hbt, _, _, _, _, hrs, hrt⟩ := heok e he
    obtain ⟨_, _, _, _, hor⟩ := hids e he
    unfold elistOf
    rcases hor with ⟨h1, _⟩ | ⟨_, h2⟩
    · refine List.mem_flatMap.2 ⟨g.srcOf e, hcov _ hsrcN, ?_⟩
      refine List.mem_map.2 ⟨g.aSrcOf e, ?_, hbs⟩
      refine List.mem_filter.2 ⟨hrs, ?_⟩
      have hev : g.aIdOf (g.aSrcOf e) % 2 = 0 := by omega
      simpa using hev
    · refine List.mem_flatMap.2 ⟨g.tgtOf e, hcov _ htgtN, ?_⟩
      refine List.mem_map.2 ⟨g.aTgtOf e, ?_, hbt⟩
      refine List.mem_filter.2 ⟨hrt, ?_⟩
      have hev : g.aIdOf (g.aTgtOf e) % 2 = 0 := by omega
      simpa using hev
  exact List.Subperm.antisymm (List.Nodup.subperm hndE hsub1)
    (List.Nodup.subperm ndE hsub2)

theorem ccRun_spec (g : Graph) (hwf : Graph.WF g)
    (hinj : ∀ m ∈ g.nodes, ∀ n ∈ g.nodes, g.idOfN m = g.idOfN n → m = n) :
    ccOuterInv g (Graph.ccRun g).1 (Graph.ccRun g).2.1
      (Graph.ccRun g).2.2.1 (Graph.ccRun g).2.2.2 ∧
    (∀ v ∈ g.nodes, ¬ labOf g (Graph.ccRun g).1 v = none) := by
  unfold Graph.ccRun
  exact ccOuter_spec g hwf hinj g.nodes
    { comp := fun _ => none, vlist := [], elist := [] } 0 [] []
    (fun v hv => hv)
    ⟨List.nodup_nil,
     fun v hv => absurd hv (List.not_mem_nil v),
     fun v _ => ⟨fun h => absurd rfl h, fun h => absurd h (List.not_mem_nil v)⟩,
     fun _ _ c' h => Option.noConfusion h,
     fun u hu => absurd hu (List.not_mem_nil u),
     fun c' hc' => absurd hc' (Nat.not_lt_zero c'),
     rfl, rfl, rfl,
     List.chain'_singleton 0, rfl,
     List.chain'_singleton 0, rfl⟩
    (fun v hv _ => hv)

/-- C8: `CCsInfo::CCsInfo(const Graph&)` is a read-only computation (in this
embedding a pure function of the graph).  On a consistent graph with
injective node ids it assigns every node to exactly one component index
below `m_numCC`, two nodes get the same label exactly when they are
connected (so `m_numCC` is the number of connected components, and every
index below it is used), the flattened node ordering lists every node
exactly once, the flattened edge ordering lists every edge exactly once
(an edge is recorded only at its even-id half-edge), and `m_startNode` /
`m_startEdge` are monotone boundary arrays of length `m_numCC + 1` running
from `0` to the lengths of the two orderings, giving each component its
half-open index range. -/
theorem C8_components (g : Graph) (hwf : Graph.WF g) (hid : Graph.IdWF g)
    (hinj : ∀ m ∈ g.nodes, ∀ n ∈ g.nodes, g.idOfN m = g.idOfN n → m = n) :
    (Graph.mkCCsInfo g).m_nodes.Perm g.nodes ∧
    (Graph.mkCCsInfo g).m_edges.Perm g.edges ∧
    (∀ v ∈ g.nodes, ∃ c, Graph.ccCompOf g (g.idOfN v) = some c ∧
      c < (Graph.mkCCsInfo g).m_numCC) ∧
    (∀ u ∈ g.nodes, ∀ v ∈ g.nodes,
      (Graph.ccCompOf g (g.idOfN u) = Graph.ccCompOf g (g.idOfN v) ↔ Conn g u v)) ∧
    (∀ c, c < (Graph.mkCCsInfo g).m_numCC →
      ∃ v ∈ g.nodes, Graph.ccCompOf g (g.idOfN v) = some c) ∧
    (Graph.mkCCsInfo g).m_startNode.length = (Graph.mkCCsInfo g).m_numCC + 1 ∧
    (Graph.mkCCsInfo g).m_startEdge.length = (Graph.mkCCsInfo g).m_numCC + 1 ∧
    (Graph.mkCCsInfo g).m_startNode.head? = some 0 ∧
    (Graph.mkCCsInfo g).m_startEdge.head? = some 0 ∧
    List.Chain' (· ≤ ·) (Graph.mkCCsInfo g).m_startNode ∧
    List.Chain' (· ≤ ·) (Graph.mkCCsInfo g).m_startEdge ∧
    (Graph.mkCCsInfo g).m_startNode.getLast? = some (Graph.mkCCsInfo g).m_nodes.length ∧
    (Graph.mkCCsInfo g).m_startEdge.getLast? = some (Graph.mkCCsInfo g).m_edges.length := by
  obtain ⟨hOutF, hlabAll⟩ := ccRun_spec g hwf hinj
  obtain ⟨f1, f2, f3, f4, f5, f6, f7, f8, f9, f10, f11, f12, f13⟩ := hOutF
  obtain ⟨ndN, ndE, hn, heok⟩ := id hwf
  have hcovN : ∀ v ∈ g.nodes, v ∈ (Graph.ccRun g).1.vlist :=
    fun v hv => (f3 v hv).1 (hlabAll v hv)
  have hpermN : ((Graph.ccRun g).1.vlist).Perm g.nodes :=
    List.Subperm.antisymm (List.Nodup.subperm f1 f2) (List.Nodup.subperm ndN hcovN)
  have hpermE : ((Graph.ccRun g).1.elist).Perm g.edges := by
    rw [f7]
    exact evens_perm g hwf hid _ f1 f2 hcovN
  have hadjmem : ∀ x y, AdjRel g x y → x ∈ g.nodes ∧ y ∈ g.nodes := by
    intro x y hxy
    obtain ⟨e, he, hc⟩ := hxy
    obtain ⟨_, _, h3, h4, _⟩ := heok e he
    rcases hc with ⟨hs, ht⟩ | ⟨hs, ht⟩
    · rw [← hs, ← ht]
      exact ⟨h3, h4⟩
    · rw [← hs, ← ht]
      exact ⟨h4, h3⟩
  have hconn_symm : ∀ x y, Conn g x y → Conn g y x := fun x y h =>
    Relation.ReflTransGen.symmetric (fun a b hab => adjRel_symm hab) h
  have hlabmem : ∀ v ∈ g.nodes, ∃ cv, labOf g (Graph.ccRun g).1 v = some cv ∧
      cv < (Graph.ccRun g).2.1 := by
    intro v hv
    cases hc : labOf g (Graph.ccRun g).1 v with
    | none => exact absurd hc (hlabAll v hv)
    | some cv => exact ⟨cv, rfl, f4 v hv cv hc⟩
  have hconn_lab : ∀ u v, Conn g u v →
      labOf g (Graph.ccRun g).1 u = labOf g (Graph.ccRun g).1 v := by
    intro u v hconn
    induction hconn with
    | refl => rfl
    | tail hstep hbc ih =>
      rename_i b c'
      have hb : b ∈ g.nodes := (hadjmem _ _ hbc).1
      have hcN : c' ∈ g.nodes := (hadjmem _ _ hbc).2
      have hbv : b ∈ (Graph.ccRun g).1.vlist := (f3 b hb).1 (hlabAll b hb)
      rw [ih]
      exact (f5 b hbv c' hcN hbc).symm
  have hiffConn : ∀ u ∈ g.nodes, ∀ v ∈ g.nodes,
      (labOf g (Graph.ccRun g).1 u = labOf g (Graph.ccRun g).1 v ↔ Conn g u v) := by
    intro u hu v hv
    constructor
    · intro heq
      obtain ⟨cu, hcu, hcub⟩ := hlabmem u hu
      obtain ⟨r, hr1, hr2, hr3⟩ := f6 cu hcub
      have h1 : Conn g r u := hr3 u hu hcu
      have h2 : Conn g r v := hr3 v hv (by rw [← heq]; exact hcu)
      exact Relation.ReflTransGen.trans (hconn_symm _ _ h1) h2
    · exact hconn_lab u v
  have hsurj : ∀ c, c < (Graph.ccRun g).2.1 →
      ∃ v ∈ g.nodes, labOf g (Graph.ccRun g).1 v = some c := by
    intro c hc
    obtain ⟨r, hr1, hr2, _⟩ := f6 c hc
    exact ⟨r, hr1, hr2⟩
  refine ⟨hpermN, hpermE, hlabmem, hiffConn, hsurj, ?_, ?_, rfl, rfl, f10, f12, f11, f13⟩
  · show ((0 : Nat) :: (Graph.ccRun g).2.2.1).length = (Graph.ccRun g).2.1 + 1
    rw [List.length_cons, f8]
  · show ((0 : Nat) :: (Graph.ccRun g).2.2.2).length = (Graph.ccRun g).2.1 + 1
    rw [List.length_cons, f9]

theorem C8_components_witness :
    (Graph.mkCCsInfo gE01).m_nodes.Perm gE01.nodes ∧
    (Graph.mkCCsInfo gE01).m_edges.Perm gE01.edges ∧
    (∀ u ∈ gE01.nodes, ∀ v ∈ gE01.nodes,
      (Graph.ccCompOf gE01 (gE01.idOfN u) = Graph.ccCompOf gE01 (gE01.idOfN v) ↔
        Conn gE01 u v)) := by
  have h := C8_components gE01
    (by unfold Graph.WF Graph.nodeOK Graph.edgeOK; decide)
    (by unfold Graph.IdWF Graph.edgeIdsOK; decide)
    (by decide)
  exact ⟨h.1, h.2.1, h.2.2.2.1⟩

/-- C10: calling `newNode(index)` or `newEdge(v, w, index)` with an explicit
index strictly below the current id counter leaves the counter, the table
size and every registered array unchanged; an index at or above the counter
advances it to `index + 1`, leaves the table alone while the index is below
it, and grows the table (enlarging all registered arrays, half-edge arrays
to twice the edge table) once the index reaches it. -/
theorem C10_explicit_index_frame :
    (∀ (g : Graph) (idx : Nat), idx < g.m_nodeIdCount →
      (g.newNodeIdx idx).1.m_nodeIdCount = g.m_nodeIdCount ∧
      (g.newNodeIdx idx).1.m_nodeArrayTableSize = g.m_nodeArrayTableSize ∧
      (g.newNodeIdx idx).1.m_regNodeArrays = g.m_regNodeArrays) ∧
    (∀ (g : Graph) (idx : Nat), g.m_nodeIdCount ≤ idx →
      (g.newNodeIdx idx).1.m_nodeIdCount = idx + 1 ∧
      (idx < g.m_nodeArrayTableSize →
        (g.newNodeIdx idx).1.m_nodeArrayTableSize = g.m_nodeArrayTableSize ∧
        (g.newNodeIdx idx).1.m_regNodeArrays = g.m_regNodeArrays) ∧
      (g.m_nodeArrayTableSize ≤ idx →
        (g.newNodeIdx idx).1.m_nodeArrayTableSize = nextPower2 g.m_nodeArrayTableSize idx ∧
        ∀ r ∈ (g.newNodeIdx idx).1.m_regNodeArrays,
          r.cap = nextPower2 g.m_nodeArrayTableSize idx)) ∧
    (∀ (g : Graph) (v w idx : Nat), v ∈ g.nodes → w ∈ g.nodes →
      idx < g.m_edgeIdCount →
      (g.newEdgeIdx v w idx).1.m_edgeIdCount = g.m_edgeIdCount ∧
      (g.newEdgeIdx v w idx).1.m_edgeArrayTableSize = g.m_edgeArrayTableSize ∧
      (g.newEdgeIdx v w idx).1.m_regEdgeArrays = g.m_regEdgeArrays ∧
      (g.newEdgeIdx v w idx).1.m_regAdjArrays = g.m_regAdjArrays) ∧
    (∀ (g : Graph) (v w idx : Nat), v ∈ g.nodes → w ∈ g.nodes →
      g.m_edgeIdCount ≤ idx →
      (g.newEdgeIdx v w idx).1.m_edgeIdCount = idx + 1 ∧
      (idx < g.m_edgeArrayTableSize →
        (g.newEdgeIdx v w idx).1.m_edgeArrayTableSize = g.m_edgeArrayTableSize ∧
        (g.newEdgeIdx v w idx).1.m_regEdgeArrays = g.m_regEdgeArrays ∧
        (g.newEdgeIdx v w idx).1.m_regAdjArrays = g.m_regAdjArrays) ∧
      (g.m_edgeArrayTableSize ≤ idx →
        (g.newEdgeIdx v w idx).1.m_edgeArrayTableSize = nextPower2 g.m_edgeArrayTableSize idx ∧
        (∀ r ∈ (g.newEdgeIdx v w idx).1.m_regEdgeArrays,
          r.cap = nextPower2 g.m_edgeArrayTableSize idx) ∧
        ∀ r ∈ (g.newEdgeIdx v w idx).1.m_regAdjArrays,
          r.cap = 2 * nextPower2 g.m_edgeArrayTableSize idx)) := by
  refine ⟨?_, ?_, ?_, ?_⟩
  · intro g idx h
    have hb : ¬ g.m_nodeIdCount ≤ idx := by omega
    simp [Graph.newNodeIdx, hb]
  · intro g idx h
    by_cases ht : g.m_nodeArrayTableSize ≤ idx
    · refine ⟨?_, ?_, ?_⟩
      · simp [Graph.newNodeIdx, h, ht]
      · intro h2; omega
      · intro _
        constructor
        · simp [Graph.newNodeIdx, h, ht]
        · intro r hr
          simp [Graph.newNodeIdx, h, ht] at hr
          obtain ⟨s, _, rfl⟩ := hr
          rfl
    · refine ⟨?_, ?_, ?_⟩
      · simp [Graph.newNodeIdx, h, ht]
      · intro _; constructor <;> simp [Graph.newNodeIdx, h, ht]
      · intro h2; omega
  · intro g v w idx hv hw h
    have hb : ¬ g.m_edgeIdCount ≤ idx := by omega
    simp [Graph.newEdgeIdx, hv, hw, updN_eq, updA_eq, hb]
  · intro g v w idx hv hw h
    by_cases ht : g.m_edgeArrayTableSize ≤ idx
    · refine ⟨?_, ?_, ?_⟩
      · simp [Graph.newEdgeIdx, hv, hw, updN_eq, updA_eq, h, ht]
      · intro h2; omega
      · intro _
        refine ⟨?_, ?_, ?_⟩
        · simp [Graph.newEdgeIdx, hv, hw, updN_eq, updA_eq, h, ht]
        · intro r hr
          simp [Graph.newEdgeIdx, hv, hw, updN_eq, updA_eq, h, ht] at hr
          obtain ⟨s, _, rfl⟩ := hr
          rfl
        · intro r hr
          simp [Graph.newEdgeIdx, hv, hw, updN_eq, updA_eq, h, ht] at hr
          obtain ⟨s, _, rfl⟩ := hr
          rfl
    · refine ⟨?_, ?_, ?_⟩
      · simp [Graph.newEdgeIdx, hv, hw, updN_eq, updA_eq, h, ht]
      · intro _
        refine ⟨?_, ?_, ?_⟩ <;> simp [Graph.newEdgeIdx, hv, hw, updN_eq, updA_eq, h, ht]
      · intro h2; omega

/-- Witness for C10 at concrete inputs: index 1 is below `gN2`'s node
counter 2, and index 5 is at or above `gE01`'s edge counter 1. -/
theorem C10_explicit_index_frame_witness :
    (gN2.newNodeIdx 1).1.m_nodeIdCount = gN2.m_nodeIdCount ∧
    (gE01.newEdgeIdx 0 1 5).1.m_edgeIdCount = 5 + 1 :=
  ⟨(C10_explicit_index_frame.1 gN2 1 (by decide)).1,
   (C10_explicit_index_frame.2.2.2 gE01 0 1 5 (by decide) (by decide) (by decide)).1⟩

end ogdf
